import Mathlib

/-!
# Visible width of columns and JSON row output

A shallow embedding of `dbms/src/Functions/FunctionsMiscellaneous.cpp`
(`numWidthVector`, `numWidthConstant`, `stringWidthVector`, `stringWidthFixedVector`,
the `VisibleWidth` helpers, `FunctionVisibleWidth::execute` and
`FunctionHasColumnInTable::getReturnTypeAndPrerequisites`) and of
`dbms/src/DataStreams/JSONRowOutputStream.cpp`.

Integer widths are computed by the source in `double` arithmetic: the integer is converted
to `double`, the C library's `log10` is applied, `1` or `2` is added in `double`, and the sum
is truncated to `UInt64`.  The conversion, the addition and the truncation are fixed by
IEEE-754 and are embedded exactly; `log10` belongs to the C library and is a parameter.
-/

namespace DB

/-! ## Binary64 arithmetic -/

/-- A finite non-negative `double`: the value is `units * 2^-1074`, so every finite
non-negative binary64 number (subnormals included) is such a multiple. -/
structure Double where
  units : Nat
  deriving DecidableEq, Repr

/-- Position of the highest set bit by binary search on the shift amounts `2^(k-1), ..., 1`. -/
def log2Go : Nat → Nat → Nat
  | 0, _ => 0
  | k + 1, x => if x >>> (2 ^ k) = 0 then log2Go k x else 2 ^ k + log2Go k (x >>> (2 ^ k))

/-- Floor of the binary logarithm, for `0 < x < 2^4096` (enough for every finite double). -/
def log2Floor (x : Nat) : Nat := log2Go 12 x

/-- Round-to-nearest, ties-to-even, to 53 significant bits: the rounding IEEE-754 applies to
the exact result of a conversion or an addition. -/
def roundToDouble (x : Nat) : Nat :=
  if x < 2 ^ 53 then x
  else
    let sh := log2Floor x - 52
    let q := x >>> sh
    let r := x - (q <<< sh)
    let half := 1 <<< (sh - 1)
    if r < half then q <<< sh
    else if r = half then (if q % 2 = 0 then q <<< sh else (q + 1) <<< sh)
    else (q + 1) <<< sh

/-- Conversion of a non-negative integer to `double` (implicit in `log10(a)` and `1 + x`). -/
def doubleOfNat (n : Nat) : Double := ⟨roundToDouble (n <<< 1074)⟩

/-- Addition of two non-negative doubles. -/
def doubleAdd (x y : Double) : Double := ⟨roundToDouble (x.units + y.units)⟩

/-- Conversion `double -> UInt64` on assignment to `c`: truncation toward zero (the language
defines it only when the truncated value fits in 64 bits). -/
def doubleToUInt64 (x : Double) : Nat := x.units >>> 1074

/-- The accuracy assumed of the C library's `log10` where a concrete width is derived: on an
integer-valued argument `n` in `[1, 2^64]` the result is within `1/64` of the real logarithm. -/
def Log10Accurate (log10 : Double → Double) : Prop :=
  ∀ n : Nat, 1 ≤ n → n ≤ 2 ^ 64 →
    |((log10 ⟨n <<< 1074⟩).units : ℝ) / 2 ^ 1074 - Real.logb 10 n| ≤ 1 / 64

/-- A computable `log10` meeting `Log10Accurate`: the logarithm rounded down to a multiple
of `1/64`. -/
def log10Approx (x : Double) : Double :=
  ⟨(Nat.log 10 ((x.units >>> 1074) ^ 64)) <<< 1068⟩

/-! ## Integer types -/

inductive IntType
  | UInt8 | UInt16 | UInt32 | UInt64 | Int8 | Int16 | Int32 | Int64
  deriving DecidableEq, Repr

/-- `std::is_signed<T>::value`. -/
def IntType.isSigned : IntType → Bool
  | .Int8 | .Int16 | .Int32 | .Int64 => true
  | _ => false

def IntType.bits : IntType → Nat
  | .UInt8 | .Int8 => 8
  | .UInt16 | .Int16 => 16
  | .UInt32 | .Int32 => 32
  | .UInt64 | .Int64 => 64

/-- `std::numeric_limits<T>::min()`. -/
def IntType.min (T : IntType) : Int := if T.isSigned then -(2 ^ (T.bits - 1)) else 0

/-- `std::numeric_limits<T>::max()`. -/
def IntType.max (T : IntType) : Int := if T.isSigned then 2 ^ (T.bits - 1) - 1 else 2 ^ T.bits - 1

/-- The values of type `T`. -/
def IntType.InRange (T : IntType) (a : Int) : Prop := T.min ≤ a ∧ a ≤ T.max

/-! ## Width of integers -/

/-- The three branches of the width routines. -/
inductive NumWidthBranch
  | nonNegative | minimum | negated
  deriving DecidableEq, Repr

/-- Which branch `numWidthConstant` / one iteration of `numWidthVector` takes for `a`. -/
def numWidthBranch (T : IntType) (a : Int) : NumWidthBranch :=
  if a ≥ 0 then .nonNegative
  else if T.isSigned && a == T.min then .minimum
  else .negated

/-- `numWidthConstant<T>(a, c)` for an integer `T`; the result is the value left in `c`.
In the last branch `-a` is taken in `T` (after promotion); it is reached only for a signed
`T` with `a != min`, where the negation is exact. -/
def numWidthConstant (log10 : Double → Double) (T : IntType) (a : Int) : Nat :=
  if a ≥ 0 then
    doubleToUInt64 (if a ≠ 0 then doubleAdd (doubleOfNat 1) (log10 (doubleOfNat a.toNat))
      else doubleOfNat 1)
  else if T.isSigned && a == T.min then
    doubleToUInt64 (doubleAdd (doubleOfNat 2) (log10 (doubleOfNat T.max.toNat)))
  else
    doubleToUInt64 (doubleAdd (doubleOfNat 2) (log10 (doubleOfNat (-a).toNat)))

/-- `numWidthVector<T>(a, c)` for an integer `T`; the result is the contents of `c`, which the
callers size like `a`. -/
def numWidthVector (log10 : Double → Double) (T : IntType) (a : List Int) : List Nat :=
  a.map fun ai =>
    if ai ≥ 0 then
      doubleToUInt64 (if ai ≠ 0 then doubleAdd (doubleOfNat 1) (log10 (doubleOfNat ai.toNat))
        else doubleOfNat 1)
    else if T.isSigned && ai == T.min then
      doubleToUInt64 (doubleAdd (doubleOfNat 2) (log10 (doubleOfNat T.max.toNat)))
    else
      doubleToUInt64 (doubleAdd (doubleOfNat 2) (log10 (doubleOfNat (-ai).toNat)))

/-- The type in which the unary minus is evaluated on an operand of type `T`: `int` (32
bits) for the types of 8 and 16 bits, by integral promotion, and `T` itself otherwise. -/
def IntType.promoted : IntType → IntType
  | .UInt8 | .UInt16 | .Int8 | .Int16 => .Int32
  | T => T

/-- The expression `-a` for `a` of type `T`: the negation in the promoted type.  In a signed
type the result has to be representable, the behaviour is undefined otherwise (`none`: signed
overflow); in an unsigned type the result wraps. -/
def negate (T : IntType) (a : Int) : Option Int :=
  if T.promoted.isSigned then
    if T.promoted.min ≤ -a ∧ -a ≤ T.promoted.max then some (-a) else none
  else some ((-a) % 2 ^ T.promoted.bits)

/-- `numWidthConstant<T>(a, c)` with the `-a` of its last branch evaluated in machine
arithmetic (`negate`): `none` when the evaluation meets a signed overflow, else the value
left in `c`.  The first two branches form no negation. -/
def numWidthConstantChecked (log10 : Double → Double) (T : IntType) (a : Int) : Option Nat :=
  if a ≥ 0 then
    some (doubleToUInt64 (if a ≠ 0 then doubleAdd (doubleOfNat 1) (log10 (doubleOfNat a.toNat))
      else doubleOfNat 1))
  else if T.isSigned && a == T.min then
    some (doubleToUInt64 (doubleAdd (doubleOfNat 2) (log10 (doubleOfNat T.max.toNat))))
  else
    (negate T a).map fun negated =>
      doubleToUInt64 (doubleAdd (doubleOfNat 2) (log10 (doubleOfNat negated.toNat)))

/-- `numWidthVector<T>(a, c)` with the `-a[i]` of its last branch evaluated in machine
arithmetic: the loop over the rows, `none` when a row meets a signed overflow. -/
def numWidthVectorChecked (log10 : Double → Double) (T : IntType) : List Int → Option (List Nat)
  | [] => some []
  | ai :: rest =>
    (if ai ≥ 0 then
      some (doubleToUInt64 (if ai ≠ 0 then doubleAdd (doubleOfNat 1) (log10 (doubleOfNat ai.toNat))
        else doubleOfNat 1))
    else if T.isSigned && ai == T.min then
      some (doubleToUInt64 (doubleAdd (doubleOfNat 2) (log10 (doubleOfNat T.max.toNat))))
    else
      (negate T ai).map fun negated =>
        doubleToUInt64 (doubleAdd (doubleOfNat 2) (log10 (doubleOfNat negated.toNat)))).bind
      fun ci => (numWidthVectorChecked log10 T rest).map fun c => ci :: c

/-- Number of decimal digits of a natural number (`0` has one digit). -/
def digitCount (n : Nat) : Nat := (Nat.repr n).length

/-- Byte length of the decimal text of an integer, minus sign included. -/
def decimalTextLength (a : Int) : Nat := (toString a).length


/-! ## Errors -/

/-- The error codes that occur (`ErrorCodes::...`); `UNDEFINED_BEHAVIOUR` marks the paths on
which the source has no defined result (an unchecked cast or index). -/
inductive ErrorCode
  | ILLEGAL_COLUMN
  | CANNOT_PRINT_FLOAT_OR_DOUBLE_NUMBER
  | BAD_CAST
  | LOGICAL_ERROR
  | NUMBER_OF_ARGUMENTS_DOESNT_MATCH
  | ILLEGAL_TYPE_OF_ARGUMENT
  | UNDEFINED_BEHAVIOUR
  deriving DecidableEq, Repr

/-- `DB::Exception(message, code)`. -/
structure Exception where
  message : String
  code : ErrorCode
  deriving DecidableEq, Repr

/-! ## Types and columns -/

/-- The ten numeric `T` of `ColumnVector<T>` / `ColumnConst<T>` the width function handles. -/
inductive NumType
  | int (T : IntType)
  | Float32
  | Float64
  deriving DecidableEq, Repr

/-- `Field`: the value held by a constant array or tuple column. -/
inductive Field
  | null
  | uint64 (v : Nat)
  | int64 (v : Int)
  | float64 (bits : Nat)
  | string (s : List UInt8)
  | array (xs : List Field)
  | tuple (xs : List Field)

/-- `IDataType`: the logical type of a column.  An enumeration carries its
(name, value) table. -/
inductive DataType
  | number (T : NumType)
  | Date
  | DateTime
  | String
  | FixedString (n : Nat)
  | Enum8 (values : List (List UInt8 × Int))
  | Enum16 (values : List (List UInt8 × Int))
  | Array (nested : DataType)
  | Tuple (elems : List DataType)
  | AggregateFunction
  | Other (name : String)

/-- `IColumn`: the representations told apart by `typeid_cast` in `execute`.  Numeric data is
kept as the integer value of each element (for the two float types, as its bit pattern).
`tuple` keeps the columns of the block a `ColumnTuple` holds: `execute` reads neither the
names nor the types stored there (it overwrites the types from the `DataTypeTuple`).
`other` is any column class `execute` has no branch for, with its `getName()`. -/
inductive Column
  | vector (T : NumType) (data : List Int)
  | const (T : NumType) (size : Nat) (data : Int)
  | string (chars : List UInt8) (offsets : List Nat)
  | fixedString (n : Nat) (chars : List UInt8)
  | constString (size : Nat) (data : List UInt8)
  | array (data : Column) (offsets : List Nat)
  | tuple (columns : List Column)
  | constArray (size : Nat) (data : Field)
  | constTuple (size : Nat) (data : Field)
  | aggregateFunction (size : Nat)
  | other (name : String) (size : Nat)

/-- `ColumnUInt64`. -/
abbrev Column.uint64 (data : List Int) : Column := .vector (.int .UInt64) data

/-- `ColumnConstUInt64(size, value)`. -/
abbrev Column.constUInt64 (size : Nat) (value : Int) : Column := .const (.int .UInt64) size value

/-- `IColumn::size()`. -/
def Column.size : Column → Nat
  | .vector _ data => data.length
  | .const _ size _ => size
  | .string _ offsets => offsets.length
  | .fixedString n chars => chars.length / n
  | .constString size _ => size
  | .array _ offsets => offsets.length
  | .tuple [] => 0
  | .tuple (c :: _) => c.size
  | .constArray size _ => size
  | .constTuple size _ => size
  | .aggregateFunction size => size
  | .other _ size => size

/-- `ColumnWithTypeAndName`; `column` is `none` for a null `ColumnPtr`. -/
structure ColumnWithTypeAndName where
  column : Option Column
  type : DataType
  name : String

/-- `Block`: the columns in positional order. -/
abbrev Block := List ColumnWithTypeAndName

/-- What the width function takes from outside this file: the C library's `log10`, the
shortest-representation printers of `double_conversion` (`none` when the conversion reports
failure), the text serialization of a constant array or tuple value, and the function's
`getName()`. -/
structure Env where
  log10 : Double → Double
  toShortest : Int → Option Nat
  toShortestSingle : Int → Option Nat
  serializeTextEscaped : DataType → Field → List UInt8
  functionName : String

/-! ## Width of floats and strings -/

/-- `floatWidth(const double x)`. -/
def floatWidth (env : Env) (x : Int) : Except Exception Nat :=
  match env.toShortest x with
  | none => .error ⟨"Cannot print double number", .CANNOT_PRINT_FLOAT_OR_DOUBLE_NUMBER⟩
  | some position => .ok position

/-- `floatWidth(const float x)`. -/
def floatWidthSingle (env : Env) (x : Int) : Except Exception Nat :=
  match env.toShortestSingle x with
  | none => .error ⟨"Cannot print float number", .CANNOT_PRINT_FLOAT_OR_DOUBLE_NUMBER⟩
  | some position => .ok position

/-- Modelled from the spec: `stringWidth(begin, end)` is declared in a header that is not
among the sources; the specification gives the width of a string as the byte length of its
stored bytes.  The argument is the byte range `[begin, end)`. -/
def stringWidth (bytes : List UInt8) : Nat := bytes.length

/-- Modelled from the spec: `stringWidthConstant(data, res)` of the same header, the width of
the bytes of `data`. -/
def stringWidthConstant (data : List UInt8) : Nat := stringWidth data

/-- The half-open index ranges `[begin, end)` that `stringWidthVector` hands to `stringWidth`,
one per row: `begin = prev_offset`, `end = offsets[i] - 1`. -/
def stringWidthVectorRanges : Nat → List Nat → List (Nat × Nat)
  | _, [] => []
  | prevOffset, offset :: rest => (prevOffset, offset - 1) :: stringWidthVectorRanges offset rest

/-- The bytes of `data` in `[begin, end)` (empty when `end <= begin`, as the scan
`for (; pos < end; ++pos)` then reads nothing). -/
def byteRange (data : List UInt8) (range : Nat × Nat) : List UInt8 :=
  (data.drop range.1).take (range.2 - range.1)

/-- `stringWidthVector(data, offsets, res)`; the result is the contents of `res`. -/
def stringWidthVector (data : List UInt8) (offsets : List Nat) : List Nat :=
  (stringWidthVectorRanges 0 offsets).map fun range => stringWidth (byteRange data range)

/-- `stringWidthFixedVector(data, n, res)`. -/
def stringWidthFixedVector (data : List UInt8) (n : Nat) : List Nat :=
  (List.range (data.length / n)).map fun i => stringWidth (byteRange data (i * n, (i + 1) * n))


/-! ## `namespace VisibleWidth` and `FunctionVisibleWidth::execute` -/

/-- The test repeated in the array and tuple branches: the element type is one of `Date`,
`DateTime`, `String`, `FixedString`, `Enum8`, `Enum16`, whose values are shown in quotes. -/
def DataType.isQuoted : DataType → Bool
  | .Date | .DateTime | .String | .FixedString _ | .Enum8 _ | .Enum16 _ => true
  | _ => false

/-- Modelled from the spec: `DataTypeEnum::getNameForValue` is declared in a header that is not
among the sources; the specification gives an enumeration an encoding-to-name table.  A value
without an entry has no name, reported as a `LOGICAL_ERROR`. -/
def getNameForValue (values : List (List UInt8 × Int)) (value : Int) :
    Except Exception (List UInt8) :=
  match values.find? (fun entry => entry.2 == value) with
  | some entry => .ok entry.1
  | none => .error ⟨"Unexpected value for type Enum", .LOGICAL_ERROR⟩

/-- The assignment `block.getByPosition(result).column = ...`: `resultValid` tells whether
`result` is a position of the block.  `Block::getByPosition` is not among the sources, so a
position outside the block is given no result here. -/
def checkResultPosition (resultValid : Bool) : Except Exception Unit :=
  if resultValid then .ok () else .error ⟨"position outside the block", .UNDEFINED_BEHAVIOUR⟩

/-- The template argument of `executeEnum`: `DataTypeEnum8` or `DataTypeEnum16`. -/
inductive EnumKind
  | Enum8
  | Enum16
  deriving DecidableEq, Repr

/-- `DataTypeEnum::FieldType`: the integer type of the encoding column. -/
def EnumKind.fieldType : EnumKind → IntType
  | .Enum8 => .Int8
  | .Enum16 => .Int16

/-- `typeid_cast<const DataTypeEnum *>(type_ptr.get())`: the (name, value) table when the
type is this enumeration type. -/
def EnumKind.cast : EnumKind → DataType → Option (List (List UInt8 × Int))
  | .Enum8, .Enum8 values => some values
  | .Enum16, .Enum16 values => some values
  | _, _ => none

/-- `VisibleWidth::executeEnum<DataTypeEnum>`: `none` is the `false` return (the type is not
this enumeration, or the column is neither its dense nor its constant encoding column). -/
def VisibleWidth.executeEnum (kind : EnumKind) (resultValid : Bool) (type : DataType)
    (column : Column) : Option (Except Exception Column) :=
  match kind.cast type with
  | none => none
  | some values =>
    match column with
    | .vector (.int T) data =>
      if T = kind.fieldType then
        some do
          checkResultPosition resultValid
          let out ← data.mapM fun idx => do
            let name ← getNameForValue values idx
            pure (Int.ofNat (stringWidth name))
          pure (Column.uint64 out)
      else none
    | .const (.int T) size data =>
      if T = kind.fieldType then
        some do
          let name ← getNameForValue values data
          checkResultPosition resultValid
          pure (Column.constUInt64 size (Int.ofNat (stringWidth name)))
      else none
    | _ => none

/-- The condition `executeEnum<DataTypeEnum8>(...) || executeEnum<DataTypeEnum16>(...)` of
`execute`: the second call is made only when the first returns `false`. -/
def VisibleWidth.executeEnums (resultValid : Bool) (type : DataType) (column : Column) :
    Option (Except Exception Column) :=
  match VisibleWidth.executeEnum .Enum8 resultValid type column with
  | some outcome => some outcome
  | none => VisibleWidth.executeEnum .Enum16 resultValid type column

/-- `VisibleWidth::executeConstNumber<T>` for the `T` of the constant column at hand (the chain
over the ten `T` matches the one the column was instantiated with). -/
def VisibleWidth.executeConstNumber (env : Env) (resultValid : Bool) (T : NumType) (size : Nat)
    (data : Int) : Except Exception Column := do
  let res ← match T with
    | .int T => pure (numWidthConstant env.log10 T data)
    | .Float64 => floatWidth env data
    | .Float32 => floatWidthSingle env data
  checkResultPosition resultValid
  pure (Column.constUInt64 size (Int.ofNat res))

/-- `VisibleWidth::executeNumber<T>` for the `T` of the dense column at hand. -/
def VisibleWidth.executeNumber (env : Env) (resultValid : Bool) (T : NumType)
    (data : List Int) : Except Exception Column := do
  checkResultPosition resultValid
  let res ← match T with
    | .int T => pure (numWidthVector env.log10 T data)
    | .Float64 => data.mapM (floatWidth env)
    | .Float32 => data.mapM (floatWidthSingle env)
  pure (Column.uint64 (res.map Int.ofNat))

/-- The array branch when the nested result is a `ColumnUInt64`: the loop over the rows with
the running element index `j`; additions are in `UInt64`. -/
def arrayWidthsVector (additionalSymbols : Nat) (nestedRes : List Int) : Nat → List Nat → List Int
  | _, [] => []
  | j, offset :: rest =>
    let init : Nat := if j = offset then 2 else 1
    let v := (List.range' j (offset - j)).foldl
      (fun v k => (v + (1 + additionalSymbols + (nestedRes.getD k 0).toNat)) % 2 ^ 64) init
    Int.ofNat v :: arrayWidthsVector additionalSymbols nestedRes (max j offset) rest

/-- The array branch when the nested result is a `ColumnConstUInt64`: row `i` has
`offsets[i] - offsets[i - 1]` elements (`offsets[0]` for the first row), in `size_t`
arithmetic.  `previous` is `none` for `i == 0`. -/
def arrayWidthsConst (nestedLength : Nat) : Option Nat → List Nat → List Int
  | _, [] => []
  | previous, offset :: rest =>
    let count : Nat := match previous with
      | none => offset
      | some p => (offset + 2 ^ 64 - p % 2 ^ 64) % 2 ^ 64
    Int.ofNat ((1 + max 1 (count * nestedLength % 2 ^ 64)) % 2 ^ 64) ::
      arrayWidthsConst nestedLength (some offset) rest

/-- Modelled from the spec: `FunctionPlus::execute` (declared in `FunctionsArithmetic.h`, not
among the sources) on two `UInt64` width columns: the numeric addition of the two columns,
constant when both are.  Another argument is refused as `FunctionPlus` refuses a column it
has no branch for. -/
def plusUInt64 (a b : Column) : Except Exception Column :=
  match a, b with
  | .vector (.int .UInt64) xs, .vector (.int .UInt64) ys =>
    .ok (Column.uint64 (List.zipWith (fun x y => (x + y) % 2 ^ 64) xs ys))
  | .vector (.int .UInt64) xs, .const (.int .UInt64) _ y =>
    .ok (Column.uint64 (xs.map fun x => (x + y) % 2 ^ 64))
  | .const (.int .UInt64) _ x, .vector (.int .UInt64) ys =>
    .ok (Column.uint64 (ys.map fun y => (x + y) % 2 ^ 64))
  | .const (.int .UInt64) size x, .const (.int .UInt64) _ y =>
    .ok (Column.constUInt64 size ((x + y) % 2 ^ 64))
  | _, _ => .error ⟨"Illegal column of argument of function plus", .ILLEGAL_COLUMN⟩

/-- The end of the tuple branch: the surcharge `2 + additional_symbols` added in place to the
last column of the nested block, constant (when not empty) or dense (on the first `rows`
entries). -/
def addTupleSurcharge (rows : Nat) (additionalSymbols : Nat) : Column → Except Exception Column
  | .const (.int .UInt64) size data =>
    .ok (Column.constUInt64 size
      (if size ≠ 0 then (data + Int.ofNat (2 + additionalSymbols)) % 2 ^ 64 else data))
  | .const _ _ _ => .error ⟨"Bad cast to ColumnConst<UInt64>", .BAD_CAST⟩
  | .vector (.int .UInt64) data =>
    .ok (Column.uint64 (data.enum.map fun entry =>
      if entry.1 < rows then (entry.2 + Int.ofNat (2 + additionalSymbols)) % 2 ^ 64 else entry.2))
  | _ => .error ⟨"Bad cast to ColumnVector<UInt64>", .BAD_CAST⟩

/-- `additional_symbols` of the tuple branch: the commas and two quotes for every quoted
element type among the first `columns` element types. -/
def tupleAdditionalSymbols (elems : List DataType) (columns : Nat) : Nat :=
  (columns - 1) + 2 * ((elems.take columns).filter DataType.isQuoted).length

/-- The first tests of the `if ... else if` chain of `execute`, which look at the type:
`DataTypeDate`, `DataTypeDateTime`, then `executeEnum<DataTypeEnum8> || executeEnum<DataTypeEnum16>`.
`none` when none of them applies and the chain goes on to the tests on the column class
(in `executeColumn`: the outcome found here, or else the branch of the column class). -/
def FunctionVisibleWidth.executeByType (resultValid : Bool) (type : DataType)
    (column : Column) : Option (Except Exception Column) :=
  match type with
  | .Date => some do
    checkResultPosition resultValid
    pure (Column.constUInt64 column.size (Int.ofNat "0000-00-00".length))
  | .DateTime => some do
    checkResultPosition resultValid
    pure (Column.constUInt64 column.size (Int.ofNat "0000-00-00 00:00:00".length))
  | _ => VisibleWidth.executeEnums resultValid type column

/-- The `ColumnConstString` branch: the result column is built from `res` while `res` is
still `0`; `stringWidthConstant(col->getData(), res)` runs afterwards, on the local `res`. -/
def FunctionVisibleWidth.executeConstString (resultValid : Bool) (rows : Nat)
    (data : List UInt8) : Except Exception Column := do
  let res : Nat := 0
  checkResultPosition resultValid
  let stored := Column.constUInt64 rows (Int.ofNat res)
  let _res := stringWidthConstant data
  pure stored

/-- The array branch after the recursive call: `nestedResult` is the column the call left at
position 1 of the nested block. -/
def FunctionVisibleWidth.executeArrayRows (resultValid : Bool) (offsets : List Nat)
    (nestedType : DataType) (nestedResult : Column) : Except Exception Column := do
  checkResultPosition resultValid
  let additionalSymbols : Nat := if nestedType.isQuoted then 2 else 0
  match nestedResult with
  | .vector (.int .UInt64) nestedRes =>
    pure (Column.uint64 (arrayWidthsVector additionalSymbols nestedRes 0 offsets))
  | .const (.int .UInt64) _ nestedData =>
    let nestedLength := (nestedData.toNat + additionalSymbols + 1) % 2 ^ 64
    pure (Column.uint64 (arrayWidthsConst nestedLength none offsets))
  | _ => throw ⟨"result rows left unwritten", .UNDEFINED_BEHAVIOUR⟩

/-- `typeid_cast<const DataTypeArray &>(*type).getNestedType()`: the element type, `none` when
the type is not an array type (the reference cast then fails). -/
def DataType.arrayNested : DataType → Option DataType
  | .Array nested => some nested
  | _ => none

/-- `static_cast<const DataTypeTuple &>(*type).getElements()`: the element types, `none` when
the type is not a tuple type (the unchecked cast then has no meaning). -/
def DataType.tupleElements : DataType → Option (List DataType)
  | .Tuple elems => some elems
  | _ => none

/-- The tuple branch after the loop: `folded` is the last column of the nested block (`none`
when the block has no column, so that position `columns() - 1` does not exist). -/
def FunctionVisibleWidth.executeTupleSurcharge (resultValid : Bool) (rows : Nat)
    (elems : Option (List DataType)) (columns : Nat) (folded : Option Column) :
    Except Exception Column :=
  match folded, elems with
  | some nestedResultColumn, some elems => do
    let res ← addTupleSurcharge rows (tupleAdditionalSymbols elems columns) nestedResultColumn
    checkResultPosition resultValid
    pure res
  | _, _ => throw ⟨"no last column in the nested block", .UNDEFINED_BEHAVIOUR⟩

mutual
/-- `FunctionVisibleWidth::execute` on the argument column and its type; the result is the
column assigned to `block.getByPosition(result).column`.  The recursive calls of the source
go through a nested block holding the child column and an empty result column; they are
made here on that child and its type, with a valid result position. -/
def FunctionVisibleWidth.executeColumn (env : Env) (resultValid : Bool) (type : DataType)
    (column : Column) : Except Exception Column :=
  (FunctionVisibleWidth.executeByType resultValid type column).getD <|
    match column with
    | .const T size data => VisibleWidth.executeConstNumber env resultValid T size data
    | .vector T data => VisibleWidth.executeNumber env resultValid T data
    | .string chars offsets => do
      checkResultPosition resultValid
      pure (Column.uint64 ((stringWidthVector chars offsets).map Int.ofNat))
    | .fixedString n chars => do
      checkResultPosition resultValid
      pure (Column.uint64 ((stringWidthFixedVector chars n).map Int.ofNat))
    | .constString size data =>
      FunctionVisibleWidth.executeConstString resultValid size data
    | .array data offsets =>
      match type.arrayNested with
      | some nested =>
        (FunctionVisibleWidth.executeColumn env true nested data).bind
          (FunctionVisibleWidth.executeArrayRows resultValid offsets nested)
      | none => .error ⟨"Bad cast to DataTypeArray", .BAD_CAST⟩
    | .tuple columns =>
      (FunctionVisibleWidth.executeTupleElements env type.tupleElements 0 none columns).bind
        (FunctionVisibleWidth.executeTupleSurcharge resultValid (Column.tuple columns).size
          type.tupleElements columns.length)
    | .constArray size data | .constTuple size data => do
      let s := env.serializeTextEscaped type data
      checkResultPosition resultValid
      pure (Column.constUInt64 size (Int.ofNat s.length))
    | .aggregateFunction size => do
      checkResultPosition resultValid
      pure (Column.constUInt64 size 10)
    | .other name _ =>
      .error ⟨"Illegal column " ++ name ++ " of argument of function " ++ env.functionName,
        .ILLEGAL_COLUMN⟩

/-- The loop `for (size_t i = 0; i < columns; ++i)` of the tuple branch from index `i` on:
`folded` is the last column of the nested block so far (the running sum of the widths),
`elems` the element types of the `DataTypeTuple`. -/
def FunctionVisibleWidth.executeTupleElements (env : Env) (elems : Option (List DataType))
    (i : Nat) (folded : Option Column) : List Column → Except Exception (Option Column)
  | [] => .ok folded
  | column :: rest =>
    match elems.bind (fun es => es.get? i) with
    | none => .error ⟨"element type read outside the tuple type", .UNDEFINED_BEHAVIOUR⟩
    | some elementType =>
      (FunctionVisibleWidth.executeColumn env true elementType column).bind fun width =>
        (match folded with
          | none => Except.ok width
          | some previous => plusUInt64 previous width).bind fun sum =>
            FunctionVisibleWidth.executeTupleElements env elems (i + 1) (some sum) rest
end



/-- The value of row `i` of a width column (`ColumnUInt64` or `ColumnConstUInt64`); `none`
outside the column or for another column class. -/
def Column.uint64At : Column → Nat → Option Nat
  | .vector (.int .UInt64) data, i =>
    match data.get? i with
    | some (Int.ofNat n) => some n
    | _ => none
  | .const (.int .UInt64) size (Int.ofNat n), i => if i < size then some n else none
  | _, _ => none

/-- The column is a `ColumnUInt64` or a `ColumnConstUInt64`. -/
def Column.isWidthColumn : Column → Bool
  | .vector (.int .UInt64) _ => true
  | .const (.int .UInt64) _ _ => true
  | _ => false

/-- Index of the first element of row `i` of an array column: `offsets[i - 1]`, with
`offsets[-1] = 0`. -/
def rowBegin (offsets : List Nat) (i : Nat) : Nat :=
  match i with
  | 0 => 0
  | k + 1 => offsets.getD k 0

/-- Index one past the last element of row `i` of an array column: `offsets[i]`. -/
def rowEnd (offsets : List Nat) (i : Nat) : Nat := offsets.getD i 0

/-- The columns on which `execute` is invoked while it runs on `(type, column)`: the
argument itself, the child of an array (with the element type), and an element of a tuple
(with its element type) once the elements before it have been processed without error. -/
inductive Reached (env : Env) : DataType → Column → DataType → Column → Prop
  | self (type : DataType) (column : Column) : Reached env type column type column
  | arrayChild (nested : DataType) (data : Column) (offsets : List Nat) (type : DataType)
      (column : Column) :
      Reached env nested data type column →
      Reached env (.Array nested) (.array data offsets) type column
  | tupleElement (elems : List DataType) (columns : List Column) (i : Nat)
      (elementType : DataType) (element : Column) (type : DataType) (column : Column) :
      elems.get? i = some elementType → columns.get? i = some element →
      (∀ j, j < i → ∃ t c res, elems.get? j = some t ∧ columns.get? j = some c ∧
        FunctionVisibleWidth.executeColumn env true t c = .ok res) →
      Reached env elementType element type column →
      Reached env (.Tuple elems) (.tuple columns) type column

mutual
/-- The invariant of `ColumnTuple` that the size of a result depends on: the columns of a
tuple form a block, all of one size (the size of the tuple column), and so for the element
columns that are tuples themselves.  (The result of another column class has one row per
row of the column whatever its children.) -/
def Column.tupleRowsAgree : Column → Bool
  | .tuple columns =>
    columns.all (fun c => c.size == (Column.tuple columns).size) &&
      Column.tupleRowsAgreeAll columns
  | _ => true

/-- `Column.tupleRowsAgree` for every column of a list. -/
def Column.tupleRowsAgreeAll : List Column → Bool
  | [] => true
  | c :: cs => c.tupleRowsAgree && Column.tupleRowsAgreeAll cs
end

/-- An environment for concrete instances: `log10Approx` as `log10`, printers that always
fail, an empty serialization, and the function name `visibleWidth`. -/
def exampleEnv : Env :=
  ⟨log10Approx, fun _ => none, fun _ => none, fun _ _ => [], "visibleWidth"⟩

/-- `FunctionVisibleWidth::execute(block, arguments, result)`; the result is the block after
the call.  `arguments[0]` and the argument column are read without a check in the source:
an empty `arguments`, a position outside the block or a null column are given no result. -/
def FunctionVisibleWidth.execute (env : Env) (block : Block) (arguments : List Nat)
    (result : Nat) : Except Exception Block :=
  match arguments with
  | [] => .error ⟨"arguments[0] read from an empty vector", .UNDEFINED_BEHAVIOUR⟩
  | position :: _ =>
    match block.get? position with
    | none => .error ⟨"position outside the block", .UNDEFINED_BEHAVIOUR⟩
    | some argument =>
      match argument.column with
      | none => .error ⟨"null column", .UNDEFINED_BEHAVIOUR⟩
      | some column =>
        match FunctionVisibleWidth.executeColumn env (decide (result < block.length))
            argument.type column with
        | .error e => .error e
        | .ok res =>
          match block.get? result with
          | none => .error ⟨"position outside the block", .UNDEFINED_BEHAVIOUR⟩
          | some entry => .ok (block.set result { entry with column := some res })

/-! ## `FunctionHasColumnInTable::getReturnTypeAndPrerequisites` -/

/-- Modelled from the spec: `number_of_arguments` is a member declared in a header that is not
among the sources; the specification (as the error message and the table of position names
of the source) speaks of three arguments. -/
def FunctionHasColumnInTable.number_of_arguments : Nat := 3

/-- `arg_pos_description`. -/
def FunctionHasColumnInTable.arg_pos_description : List String := ["First", "Second", "Third"]

/-- Modelled from the spec: `typeid_cast<const ColumnConstString *>(argument.column.get())`
is not null.  `typeid_cast` is declared in a header that is not among the sources; it yields
the pointer when the column is a `ColumnConstString` and the null pointer for any other
column.  For a null column pointer (an argument that is not a constant carries no column
when the function is bound) the specification has the bind phase fail naming the position
of the argument, as for any argument that is not a constant string: the cast yields the
null pointer there too. -/
def ColumnWithTypeAndName.isConstString (argument : ColumnWithTypeAndName) : Bool :=
  match argument.column with
  | some (.constString _ _) => true
  | _ => false

/-- The loop `for (size_t i = 0; i < number_of_arguments; ++i)` from index `i` on, with
`remaining = number_of_arguments - i` iterations left.  `getName()` is the parameter `name`. -/
def FunctionHasColumnInTable.checkArguments (name : String)
    (arguments : List ColumnWithTypeAndName) (i : Nat) : Nat → Except Exception Unit
  | 0 => .ok ()
  | remaining + 1 =>
    match arguments.get? i with
    | none => .error ⟨"arguments[i] read outside the vector", .UNDEFINED_BEHAVIOUR⟩
    | some argument =>
      if !argument.isConstString then
        .error ⟨FunctionHasColumnInTable.arg_pos_description.getD i "" ++
          " argument for function " ++ name ++ " must be const String.",
          .ILLEGAL_TYPE_OF_ARGUMENT⟩
      else FunctionHasColumnInTable.checkArguments name arguments (i + 1) remaining

/-- `FunctionHasColumnInTable::getReturnTypeAndPrerequisites(arguments, out_return_type,
out_prerequisites)`; the result is the value left in `out_return_type` (nothing is added to
`out_prerequisites`). -/
def FunctionHasColumnInTable.getReturnTypeAndPrerequisites (name : String)
    (arguments : List ColumnWithTypeAndName) : Except Exception DataType :=
  if arguments.length ≠ FunctionHasColumnInTable.number_of_arguments then
    .error ⟨"Function " ++ name ++ " requires exactly three arguments.",
      .NUMBER_OF_ARGUMENTS_DOESNT_MATCH⟩
  else do
    FunctionHasColumnInTable.checkArguments name arguments 0
      FunctionHasColumnInTable.number_of_arguments
    pure (.number (.int .UInt8))

/-! ## `JSONRowOutputStream` -/

/-- What the stream takes from outside the file: `writeJSONString` (the quoted and escaped
form of a string) and the text `writeText(watch.elapsedSeconds(), ostr)` writes. -/
structure JSONEnv where
  writeJSONString : String → String
  elapsedSeconds : String

/-- Modelled from the spec: `writeIntText` and `writeText` on an unsigned integer
(`WriteHelpers.h`, not among the sources) write its decimal text. -/
def writeIntText (n : Nat) : String := toString n

/-- A column of the sample block as the constructor reads it: its name, `type->getName()`
and `type->isNumeric()`. -/
structure SampleColumn where
  name : String
  typeName : String
  isNumeric : Bool

/-- `NameAndTypePair`; of the type, the stream uses `getName()`. -/
structure NameAndTypePair where
  name : String
  typeName : String

/-- A column of the totals or extremes block: its name and the text
`type->serializeTextJSON(column, row_num, ostr, force_quoting_64bit_integers)` writes. -/
structure JSONColumn where
  name : String
  serializeTextJSON : Nat → Bool → String

/-- The members of `JSONRowOutputStream`.  `validating` tells that `ostr` is the
`WriteBufferValidUTF8` around `dst_ostr` rather than `dst_ostr` itself; `out` is what was
written to `*ostr`.  `field_number`, `row_count`, `rows_before_limit` and the progress
counters are `size_t`. -/
structure JSONRowOutputStream where
  fields : List NameAndTypePair
  validating : Bool
  write_statistics : Bool
  force_quoting_64bit_integers : Bool
  field_number : Nat
  row_count : Nat
  applied_limit : Bool
  rows_before_limit : Nat
  totals : Option (List JSONColumn)
  extremes : Option (List JSONColumn)
  progress_rows : Nat
  progress_bytes : Nat
  out : String

/-- Modelled from the spec: `writeCString`, `writeString` and `writeChar` (`WriteHelpers.h`,
not among the sources) append the bytes they are given to the buffer. -/
def JSONRowOutputStream.write (s : JSONRowOutputStream) (text : String) : JSONRowOutputStream :=
  { s with out := s.out ++ text }

/-- `JSONRowOutputStream::JSONRowOutputStream(ostr_, sample_, write_statistics_,
force_quoting_64bit_integers_)`.  Modelled from the spec: the members the constructor does
not set are initialised in a header that is not among the sources; the specification starts
the counters at zero, with no totals, no extremes and no limit applied. -/
def JSONRowOutputStream.create (env : JSONEnv) (sample : List SampleColumn)
    (write_statistics force_quoting_64bit_integers : Bool) : JSONRowOutputStream :=
  let fields : List NameAndTypePair := sample.map fun column => ⟨column.name, column.typeName⟩
  let have_non_numeric_columns : Bool :=
    sample.foldl (fun found column => if !column.isNumeric then true else found) false
  let fields := fields.map fun field => { field with name := env.writeJSONString field.name }
  { fields := fields
    validating := have_non_numeric_columns
    write_statistics := write_statistics
    force_quoting_64bit_integers := force_quoting_64bit_integers
    field_number := 0
    row_count := 0
    applied_limit := false
    rows_before_limit := 0
    totals := none
    extremes := none
    progress_rows := 0
    progress_bytes := 0
    out := "" }

/-- The loop of `writePrefix` over the fields from index `i` on; `size` is `fields.size()`. -/
def JSONRowOutputStream.writePrefixFields (env : JSONEnv) (size : Nat) :
    Nat → List NameAndTypePair → String
  | _, [] => ""
  | i, field :: rest =>
    "\t\t\x7b\n" ++ "\t\t\t\"name\": " ++ field.name ++ ",\n" ++ "\t\t\t\"type\": " ++
      env.writeJSONString field.typeName ++ "\n" ++ "\t\t\x7d" ++
      (if i + 1 < size then "," else "") ++ "\n" ++
      JSONRowOutputStream.writePrefixFields env size (i + 1) rest

/-- `JSONRowOutputStream::writePrefix()`. -/
def JSONRowOutputStream.writePrefix (env : JSONEnv) (s : JSONRowOutputStream) :
    JSONRowOutputStream :=
  let s := s.write ("\x7b\n" ++ "\t\"meta\":\n" ++ "\t[\n")
  let s := s.write (JSONRowOutputStream.writePrefixFields env s.fields.length 0 s.fields)
  s.write ("\t],\n" ++ "\n" ++ "\t\"data\":\n" ++ "\t[\n")

/-- `JSONRowOutputStream::writeField(column, type, row_num)`; `value` is the text
`type.serializeTextJSON(column, row_num, *ostr, force_quoting_64bit_integers)` writes.
`fields[field_number]` is read without a check: outside the fields there is no result. -/
def JSONRowOutputStream.writeField (s : JSONRowOutputStream) (value : Bool → String) :
    Option JSONRowOutputStream :=
  match s.fields.get? s.field_number with
  | none => none
  | some field =>
    let s := s.write ("\t\t\t" ++ field.name ++ ": " ++ value s.force_quoting_64bit_integers)
    some { s with field_number := (s.field_number + 1) % 2 ^ 64 }

/-- `JSONRowOutputStream::writeFieldDelimiter()`. -/
def JSONRowOutputStream.writeFieldDelimiter (s : JSONRowOutputStream) : JSONRowOutputStream :=
  s.write ",\n"

/-- `JSONRowOutputStream::writeRowStartDelimiter()`. -/
def JSONRowOutputStream.writeRowStartDelimiter (s : JSONRowOutputStream) :
    JSONRowOutputStream :=
  let s := if s.row_count > 0 then s.write ",\n" else s
  s.write "\t\t\x7b\n"

/-- `JSONRowOutputStream::writeRowEndDelimiter()`. -/
def JSONRowOutputStream.writeRowEndDelimiter (s : JSONRowOutputStream) : JSONRowOutputStream :=
  let s := s.write ("\n" ++ "\t\t\x7d")
  { s with field_number := 0, row_count := (s.row_count + 1) % 2 ^ 64 }

/-- The loops over the columns in `writeTotals` (with `indent` two tabs) and in
`writeExtremesElement` (three tabs), from index `i` on. -/
def JSONRowOutputStream.writeColumns (env : JSONEnv) (indent : String) (row_num : Nat)
    (force_quoting_64bit_integers : Bool) : Nat → List JSONColumn → String
  | _, [] => ""
  | i, column :: rest =>
    (if i ≠ 0 then ",\n" else "") ++ indent ++ env.writeJSONString column.name ++ ": " ++
      column.serializeTextJSON row_num force_quoting_64bit_integers ++
      JSONRowOutputStream.writeColumns env indent row_num force_quoting_64bit_integers (i + 1)
        rest

/-- `JSONRowOutputStream::writeTotals()`.  Modelled from the spec: `if (totals)` goes through
the conversion of a block to `bool`, declared in a header that is not among the sources; the
specification makes it the test that a totals block was supplied. -/
def JSONRowOutputStream.writeTotals (env : JSONEnv) (s : JSONRowOutputStream) :
    JSONRowOutputStream :=
  match s.totals with
  | none => s
  | some totals =>
    s.write (",\n" ++ "\n" ++ "\t\"totals\":\n" ++ "\t\x7b\n" ++
      JSONRowOutputStream.writeColumns env "\t\t" 0 s.force_quoting_64bit_integers 0 totals ++
      "\n" ++ "\t\x7d")

/-- `writeExtremesElement(title, extremes, row_num, ostr, force_quoting_64bit_integers)`; the
result is the text written to `ostr`. -/
def writeExtremesElement (env : JSONEnv) (title : String) (extremes : List JSONColumn)
    (row_num : Nat) (force_quoting_64bit_integers : Bool) : String :=
  "\t\t\"" ++ title ++ "\":\n" ++ "\t\t\x7b\n" ++
    JSONRowOutputStream.writeColumns env "\t\t\t" row_num force_quoting_64bit_integers 0
      extremes ++
    "\n" ++ "\t\t\x7d"

/-- `JSONRowOutputStream::writeExtremes()`; the test `if (extremes)` as in `writeTotals`. -/
def JSONRowOutputStream.writeExtremes (env : JSONEnv) (s : JSONRowOutputStream) :
    JSONRowOutputStream :=
  match s.extremes with
  | none => s
  | some extremes =>
    s.write (",\n" ++ "\n" ++ "\t\"extremes\":\n" ++ "\t\x7b\n" ++
      writeExtremesElement env "min" extremes 0 s.force_quoting_64bit_integers ++ ",\n" ++
      writeExtremesElement env "max" extremes 1 s.force_quoting_64bit_integers ++
      "\n" ++ "\t\x7d")

/-- `JSONRowOutputStream::writeRowsBeforeLimitAtLeast()`. -/
def JSONRowOutputStream.writeRowsBeforeLimitAtLeast (s : JSONRowOutputStream) :
    JSONRowOutputStream :=
  if s.applied_limit then
    s.write (",\n\n" ++ "\t\"rows_before_limit_at_least\": " ++ writeIntText s.rows_before_limit)
  else s

/-- `JSONRowOutputStream::writeStatistics()`. -/
def JSONRowOutputStream.writeStatistics (env : JSONEnv) (s : JSONRowOutputStream) :
    JSONRowOutputStream :=
  s.write (",\n\n" ++ "\t\"statistics\":\n" ++ "\t\x7b\n" ++
    "\t\t\"elapsed\": " ++ env.elapsedSeconds ++ ",\n" ++
    "\t\t\"rows_read\": " ++ writeIntText s.progress_rows ++ ",\n" ++
    "\t\t\"bytes_read\": " ++ writeIntText s.progress_bytes ++ "\n" ++
    "\t\x7d")

/-- `JSONRowOutputStream::writeSuffix()` (the final `ostr->next()` writes nothing). -/
def JSONRowOutputStream.writeSuffix (env : JSONEnv) (s : JSONRowOutputStream) :
    JSONRowOutputStream :=
  let s := s.write ("\n" ++ "\t]")
  let s := s.writeTotals env
  let s := s.writeExtremes env
  let s := s.write (",\n\n" ++ "\t\"rows\": " ++ writeIntText s.row_count)
  let s := s.writeRowsBeforeLimitAtLeast
  let s := if s.write_statistics then s.writeStatistics env else s
  s.write ("\n" ++ "\x7d\n")

/-- The calls a row producer makes on the stream between `writePrefix` and `writeSuffix`. -/
inductive StreamCall
  | writePrefix
  | writeRowStartDelimiter
  | writeField (value : Bool → String)
  | writeFieldDelimiter
  | writeRowEndDelimiter

/-- One call on the stream. -/
def JSONRowOutputStream.call (env : JSONEnv) (s : JSONRowOutputStream) :
    StreamCall → Option JSONRowOutputStream
  | .writePrefix => some (s.writePrefix env)
  | .writeRowStartDelimiter => some s.writeRowStartDelimiter
  | .writeField value => s.writeField value
  | .writeFieldDelimiter => some s.writeFieldDelimiter
  | .writeRowEndDelimiter => some s.writeRowEndDelimiter

/-- A sequence of calls on the stream, in order. -/
def JSONRowOutputStream.calls (env : JSONEnv) (s : JSONRowOutputStream) :
    List StreamCall → Option JSONRowOutputStream
  | [] => some s
  | c :: rest => (s.call env c).bind fun s => s.calls env rest

/-- Number of `writeRowEndDelimiter` calls in a sequence. -/
def rowEndCalls : List StreamCall → Nat
  | [] => 0
  | .writeRowEndDelimiter :: rest => rowEndCalls rest + 1
  | _ :: rest => rowEndCalls rest

/-- Number of `writeField` calls of a sequence since its last `writeRowEndDelimiter`; the
sequence is given last call first. -/
def fieldCallsSinceRowEnd : List StreamCall → Nat
  | [] => 0
  | .writeRowEndDelimiter :: _ => 0
  | .writeField _ :: earlier => fieldCallsSinceRowEnd earlier + 1
  | _ :: earlier => fieldCallsSinceRowEnd earlier

/-- The bytes a method writes when called in the state `s`: what it appends to an empty
buffer (no method reads the buffer). -/
def JSONRowOutputStream.written (method : JSONRowOutputStream → JSONRowOutputStream)
    (s : JSONRowOutputStream) : String :=
  (method { s with out := "" }).out

/-- The text written by the calls made for the fields of one row (`writeField` and
`writeFieldDelimiter` in any order), the next `writeField` being for the field at index
`cursor`; `none` when a field is asked for outside `fields`, or for another call. -/
def fieldCallsText (fields : List NameAndTypePair) (force_quoting_64bit_integers : Bool) :
    Nat → List StreamCall → Option String
  | _, [] => some ""
  | cursor, .writeField value :: rest =>
    match fields.get? cursor with
    | none => none
    | some field =>
      (fieldCallsText fields force_quoting_64bit_integers ((cursor + 1) % 2 ^ 64) rest).map
        fun text => "\t\t\t" ++ field.name ++ ": " ++ value force_quoting_64bit_integers ++ text
  | cursor, .writeFieldDelimiter :: rest =>
    (fieldCallsText fields force_quoting_64bit_integers cursor rest).map fun text =>
      ",\n" ++ text
  | _, _ :: _ => none

/-- The calls for a sequence of rows, each row given by the calls for its fields:
`writeRowStartDelimiter`, the fields, `writeRowEndDelimiter`. -/
def rowsCalls : List (List StreamCall) → List StreamCall
  | [] => []
  | row :: rest =>
    [StreamCall.writeRowStartDelimiter] ++ row ++ [StreamCall.writeRowEndDelimiter] ++
      rowsCalls rest

/-- The rows with the texts `bodies` between their braces, with one separator between two
rows, none before the first and none after the last. -/
def rowsText : List String → String
  | [] => ""
  | [body] => "\t\t\x7b\n" ++ body ++ "\n\t\t\x7d"
  | body :: rest => "\t\t\x7b\n" ++ body ++ "\n\t\t\x7d" ++ ",\n" ++ rowsText rest

/-- Concatenation of blank separators and tokens, a separator before each token and one at
the end: two texts made of the same tokens differ in white space between tokens only. -/
def weave : List String → List String → String
  | separator :: separators, token :: tokens => separator ++ token ++ weave separators tokens
  | separator :: _, [] => separator
  | [], _ => ""

/-- The text consists of spaces, tabs and line feeds only. -/
def isBlank (text : String) : Bool :=
  text.data.all fun c => c = ' ' || c = '\t' || c = '\n'

/-- The JSON tokens of the document for one row with one field: `name` and `type` are the
quoted field name and type name, `value` the text of the value. -/
def singleRowTokens (name type value : String) : List String :=
  ["\x7b", "\"meta\"", ":", "[", "\x7b", "\"name\"", ":", name, ",", "\"type\"", ":", type,
    "\x7d", "]", ",", "\"data\"", ":", "[", "\x7b", name, ":", value, "\x7d", "]", ",",
    "\"rows\"", ":", "1", "\x7d"]

/-- The white space the stream puts before each token of `singleRowTokens`, and at the end. -/
def singleRowStreamLayout : List String :=
  ["", "\n\t", "", "\n\t", "\n\t\t", "\n\t\t\t", "", " ", "", "\n\t\t\t", "", " ",
    "\n\t\t", "\n\t", "", "\n\n\t", "", "\n\t", "\n\t\t", "\n\t\t\t", "", " ", "\n\t\t",
    "\n\t", "", "\n\n\t", "", " ", "\n", "\n"]

/-- The white space of the one-line form of the document: a space before the value and
before the row count, nothing elsewhere. -/
def singleRowCompactLayout : List String :=
  ["", "", "", "", "", "", "", "", "", "", "", "", "", "", "", "", "", "", "", "", "", " ",
    "", "", "", "", "", " ", "", ""]

/-- An environment for concrete instances: a `writeJSONString` that puts the text between
quotes (what it does to a text without a character to escape) and an elapsed time. -/
def exampleJSONEnv : JSONEnv := ⟨fun text => "\"" ++ text ++ "\"", "0.001"⟩

/-! ## `FunctionVisibleWidth::execute` with the columns held by pointer

The definitions above pass columns by value.  To follow what `execute` writes to, the same
function is embedded here over a heap of column objects: a `ColumnPtr` is an address, the
blocks hold addresses, `std::make_shared` allocates a new object, and the surcharge of the
tuple branch is added to the object in place. -/

/-- A `ColumnWithTypeAndName` whose `ColumnPtr` is an address of the heap (`none` for null). -/
structure HeapEntry where
  column : Option Nat
  type : DataType
  name : String

/-- A column object: a `ColumnArray` holds the address of its data column and its offsets, a
`ColumnTuple` holds a block; an object of a class without child columns is given by its
value. -/
inductive HeapColumn
  | flat (column : Column)
  | array (data : Nat) (offsets : List Nat)
  | tuple (data : List HeapEntry)

/-- The objects allocated so far; the address of an object is its index. -/
abbrev Heap := List HeapColumn

/-- A `Block` of entries holding addresses. -/
abbrev HeapBlock := List HeapEntry

/-- `column->size()` for the object at `address`; a `ColumnTuple` has the size of the first
column of its block.  `fuel` bounds the chain of first columns followed. -/
def heapSize : Nat → Heap → Nat → Option Nat
  | 0, _, _ => none
  | fuel + 1, heap, address =>
    match heap.get? address with
    | none => none
    | some (.flat column) => some column.size
    | some (.array _ offsets) => some offsets.length
    | some (.tuple []) => some 0
    | some (.tuple (first :: _)) =>
      match first.column with
      | none => none
      | some child => heapSize fuel heap child

/-- `block.getByPosition(result).column = std::make_shared<...>(...)`: the new object `res` is
allocated at the next address and the entry at `result` is made to point to it. -/
def storeResult (heap : Heap) (block : HeapBlock) (result : Nat) (res : Column) :
    Except Exception (Heap × HeapBlock) :=
  match block.get? result with
  | none => .error ⟨"position outside the block", .UNDEFINED_BEHAVIOUR⟩
  | some entry => .ok (heap ++ [.flat res], block.set result { entry with column := some heap.length })

/-- The width column at an address: the object there when it is held by value. -/
def heapWidthColumn (heap : Heap) (address : Option Nat) : Except Exception Column :=
  match address.bind heap.get? with
  | some (.flat column) => .ok column
  | _ => .error ⟨"no width column at the address", .UNDEFINED_BEHAVIOUR⟩

/-- The call `func_plus.execute(nested_block, plus_argument_numbers, columns() - 1)` of the
tuple branch, after `plus_result` was inserted: the sum (`plusUInt64`) of the columns at the
positions `columns() - 3` and `columns() - 2` is allocated and stored at the last position. -/
def plusHeap (heap : Heap) (block : HeapBlock) : Except Exception (Heap × HeapBlock) :=
  match block.get? (block.length - 3), block.get? (block.length - 2) with
  | some a, some b =>
    (heapWidthColumn heap a.column).bind fun x =>
      (heapWidthColumn heap b.column).bind fun y =>
        (plusUInt64 x y).bind fun sum => storeResult heap block (block.length - 1) sum
  | _, _ => .error ⟨"position outside the block", .UNDEFINED_BEHAVIOUR⟩

mutual
/-- `FunctionVisibleWidth::execute(block, arguments, result)` on a heap; the result is the
heap and the block after the call.  `fuel` bounds the depth of the recursion (a heap can
hold a cycle of addresses, which no real column does); when it runs out there is no result.
An object held by value is handled by `executeColumn`.  For a `ColumnArray` or a
`ColumnTuple` the tests on `Date` and `DateTime` come first as in the source; the enum
handlers return `false` for them, the column being no encoding column. -/
def FunctionVisibleWidth.executeHeap (env : Env) :
    Nat → Heap → HeapBlock → List Nat → Nat → Except Exception (Heap × HeapBlock)
  | 0, _, _, _, _ => .error ⟨"recursion bound reached", .UNDEFINED_BEHAVIOUR⟩
  | fuel + 1, heap, block, arguments, result =>
    match arguments with
    | [] => .error ⟨"arguments[0] read from an empty vector", .UNDEFINED_BEHAVIOUR⟩
    | position :: _ =>
      match block.get? position with
      | none => .error ⟨"position outside the block", .UNDEFINED_BEHAVIOUR⟩
      | some argument =>
        match argument.column with
        | none => .error ⟨"null column", .UNDEFINED_BEHAVIOUR⟩
        | some address =>
          match heap.get? address, heapSize (fuel + 1) heap address with
          | some (.flat column), _ =>
            (FunctionVisibleWidth.executeColumn env (decide (result < block.length))
              argument.type column).bind (storeResult heap block result)
          | some (.array data offsets), some rows =>
            match argument.type with
            | .Date => storeResult heap block result (Column.constUInt64 rows 10)
            | .DateTime => storeResult heap block result (Column.constUInt64 rows 19)
            | type =>
              match type.arrayNested with
              | none => .error ⟨"Bad cast to DataTypeArray", .BAD_CAST⟩
              | some nested =>
                (FunctionVisibleWidth.executeHeap env fuel heap
                  [⟨some data, nested, ""⟩, ⟨none, .number (.int .UInt64), ""⟩] [0] 1).bind
                  fun state =>
                    (heapWidthColumn state.1 ((state.2.get? 1).bind HeapEntry.column)).bind
                      fun nestedResult =>
                        (FunctionVisibleWidth.executeArrayRows (decide (result < block.length))
                          offsets nested nestedResult).bind (storeResult state.1 block result)
          | some (.tuple data), some rows =>
            match argument.type with
            | .Date => storeResult heap block result (Column.constUInt64 rows 10)
            | .DateTime => storeResult heap block result (Column.constUInt64 rows 19)
            | type =>
              (FunctionVisibleWidth.executeHeapTuple env fuel heap data type.tupleElements 0
                data.length).bind fun state =>
                let additionalSymbols : Nat := (data.length - 1) +
                  2 * ((state.2.take data.length).filter fun entry => entry.type.isQuoted).length
                match state.2.getLast?.bind HeapEntry.column, block.get? result with
                | some last, some entry =>
                  (heapWidthColumn state.1 (some last)).bind fun folded =>
                    (addTupleSurcharge rows additionalSymbols folded).bind fun res =>
                      .ok (state.1.set last (.flat res),
                        block.set result { entry with column := some last })
                | _, _ => .error ⟨"position outside the block", .UNDEFINED_BEHAVIOUR⟩
          | _, _ => .error ⟨"no column object at the address", .UNDEFINED_BEHAVIOUR⟩

/-- The loop `for (size_t i = 0; i < columns; ++i)` of the tuple branch on a heap, from index
`i` on with `remaining = columns - i`: the element type is written into the copy of the
block, a result entry is inserted and filled by `execute`, and from the second element on a
further entry is inserted and filled with the sum of the two entries before it. -/
def FunctionVisibleWidth.executeHeapTuple (env : Env) :
    Nat → Heap → HeapBlock → Option (List DataType) → Nat → Nat →
      Except Exception (Heap × HeapBlock)
  | 0, _, _, _, _, _ => .error ⟨"recursion bound reached", .UNDEFINED_BEHAVIOUR⟩
  | _ + 1, heap, nestedBlock, _, _, 0 => .ok (heap, nestedBlock)
  | fuel + 1, heap, nestedBlock, elems, i, remaining + 1 =>
    match elems.bind (fun es => es.get? i), nestedBlock.get? i with
    | some elementType, some element =>
      (FunctionVisibleWidth.executeHeap env fuel heap
        (nestedBlock.set i { element with type := elementType } ++
          [⟨none, .number (.int .UInt64), ""⟩]) [i] nestedBlock.length).bind fun state =>
        (if i ≠ 0 then
          plusHeap state.1 (state.2 ++ [⟨none, .number (.int .UInt64), ""⟩])
        else .ok state).bind fun state =>
          FunctionVisibleWidth.executeHeapTuple env fuel state.1 state.2 elems (i + 1) remaining
    | _, _ => .error ⟨"element read outside the tuple", .UNDEFINED_BEHAVIOUR⟩
end

/-- What a call given `heap`, `block` and `result` may have done when it left `heap'` and
`block'`: the objects of `heap` are all there, unchanged, followed by new ones; the block has
the same entries but for the column of the entry at `result`, which is a new object. -/
def HeapFrame (heap : Heap) (block : HeapBlock) (result : Nat) (heap' : Heap)
    (block' : HeapBlock) : Prop :=
  (∃ fresh, heap' = heap ++ fresh) ∧ block'.length = block.length ∧
    (∀ i, i ≠ result → block'.get? i = block.get? i) ∧
    ∃ entry address, block.get? result = some entry ∧
      block'.get? result = some ⟨some address, entry.type, entry.name⟩ ∧
      heap.length ≤ address ∧ address < heap'.length

/-! ## The recursive calls of `execute`

`execute` calls itself at two places: once in the array branch, on the nested block holding
the flattened child `col->getDataPtr()` with the type `getNestedType()`, and once per turn of
the loop of the tuple branch, on the column at position `i` of the tuple's block with the
type `getElements()[i]`.  The definitions below run `execute` together with the list of the
calls it makes itself. -/

/-- The first type is the element type of the array type, or one of the element types of the
tuple type, that the second type is: an immediate strict sub-term. -/
inductive DataType.IsElementOf : DataType → DataType → Prop
  | array (nested : DataType) : DataType.IsElementOf nested (.Array nested)
  | tuple (elems : List DataType) (t : DataType) :
      t ∈ elems → DataType.IsElementOf t (.Tuple elems)

mutual
/-- Nesting depth of a type: the number of array and tuple types on its longest branch. -/
def DataType.depth : DataType → Nat
  | .Array nested => nested.depth + 1
  | .Tuple elems => DataType.depthAll elems + 1
  | _ => 0

/-- The largest `DataType.depth` in a list of types. -/
def DataType.depthAll : List DataType → Nat
  | [] => 0
  | t :: ts => max t.depth (DataType.depthAll ts)
end

/-- The loop of the tuple branch from index `i` on (`executeTupleElements`), with the list
of the calls `execute(nested_block, nested_argument_numbers, columns() - 1)` it makes, each
given by the type and the column at the argument position `i` of the nested block.  A turn
whose element type cannot be read makes no call; a call that throws, or a `FunctionPlus`
that throws, ends the loop. -/
def FunctionVisibleWidth.executeTupleElementsLogged (env : Env)
    (elems : Option (List DataType)) (i : Nat) (folded : Option Column) :
    List Column → Except Exception (Option Column) × List (DataType × Column)
  | [] => (.ok folded, [])
  | column :: rest =>
    match elems.bind (fun es => es.get? i) with
    | none => (.error ⟨"element type read outside the tuple type", .UNDEFINED_BEHAVIOUR⟩, [])
    | some elementType =>
      match FunctionVisibleWidth.executeColumn env true elementType column with
      | .error e => (.error e, [(elementType, column)])
      | .ok width =>
        match (match folded with
          | none => Except.ok width
          | some previous => plusUInt64 previous width) with
        | .error e => (.error e, [(elementType, column)])
        | .ok sum =>
          let later :=
            FunctionVisibleWidth.executeTupleElementsLogged env elems (i + 1) (some sum) rest
          (later.1, (elementType, column) :: later.2)

/-- One invocation of `FunctionVisibleWidth::execute` on `(type, column)` with the list of
the calls of `execute` it makes itself, in order: none in the branches on the type and in
the branches of the flat column classes, the call on the flattened child in the array
branch, the calls of the loop in the tuple branch. -/
def FunctionVisibleWidth.executeColumnLogged (env : Env) (resultValid : Bool)
    (type : DataType) (column : Column) :
    Except Exception Column × List (DataType × Column) :=
  match FunctionVisibleWidth.executeByType resultValid type column with
  | some outcome => (outcome, [])
  | none =>
    match column with
    | .array data offsets =>
      match type.arrayNested with
      | some nested =>
        ((FunctionVisibleWidth.executeColumn env true nested data).bind
          (FunctionVisibleWidth.executeArrayRows resultValid offsets nested), [(nested, data)])
      | none => (.error ⟨"Bad cast to DataTypeArray", .BAD_CAST⟩, [])
    | .tuple columns =>
      let loop :=
        FunctionVisibleWidth.executeTupleElementsLogged env type.tupleElements 0 none columns
      (loop.1.bind (FunctionVisibleWidth.executeTupleSurcharge resultValid
        (Column.tuple columns).size type.tupleElements columns.length), loop.2)
    | _ => (FunctionVisibleWidth.executeColumn env resultValid type column, [])

/-- The calls of `execute` that the invocation on `(type, column)` makes itself. -/
def FunctionVisibleWidth.recursiveCalls (env : Env) (resultValid : Bool) (type : DataType)
    (column : Column) : List (DataType × Column) :=
  (FunctionVisibleWidth.executeColumnLogged env resultValid type column).2

/-- A chain of nested invocations of `execute`: each entry after the first is one of the
calls made by the invocation before it. -/
inductive FunctionVisibleWidth.CallChain (env : Env) : List (DataType × Column) → Prop
  | single (x : DataType × Column) : FunctionVisibleWidth.CallChain env [x]
  | cons (resultValid : Bool) (x y : DataType × Column) (rest : List (DataType × Column)) :
      y ∈ FunctionVisibleWidth.recursiveCalls env resultValid x.1 x.2 →
      FunctionVisibleWidth.CallChain env (y :: rest) →
      FunctionVisibleWidth.CallChain env (x :: y :: rest)

/-! ## Facts about the binary64 model -/

theorem log2Go_spec (k : Nat) : ∀ x : Nat, 0 < x → x < 2 ^ (2 ^ k) →
    2 ^ log2Go k x ≤ x ∧ x < 2 ^ (log2Go k x + 1) := by
  induction k with
  | zero =>
    intro x h0 h1
    have : x = 1 := by simp at h1; omega
    subst this
    simp [log2Go]
  | succ k ih =>
    intro x h0 h1
    have hpos : 0 < 2 ^ (2 ^ k) := Nat.pow_pos (by norm_num)
    have hsq : 2 ^ (2 ^ (k + 1)) = 2 ^ (2 ^ k) * 2 ^ (2 ^ k) := by
      rw [← pow_add]; congr 1; rw [pow_succ]; ring
    unfold log2Go
    rw [Nat.shiftRight_eq_div_pow]
    by_cases hz : x / 2 ^ (2 ^ k) = 0
    · rw [if_pos hz]
      have : x < 2 ^ (2 ^ k) := by
        exact (Nat.div_eq_zero_iff hpos).mp hz
      exact ih x h0 this
    · rw [if_neg hz]
      have hx' : 0 < x / 2 ^ (2 ^ k) := Nat.pos_of_ne_zero hz
      have hlt : x / 2 ^ (2 ^ k) < 2 ^ (2 ^ k) := by
        apply Nat.div_lt_of_lt_mul
        rw [← hsq]; exact h1
      obtain ⟨h2, h3⟩ := ih _ hx' hlt
      constructor
      · calc 2 ^ (2 ^ k + log2Go k (x / 2 ^ 2 ^ k))
            = 2 ^ (2 ^ k) * 2 ^ log2Go k (x / 2 ^ 2 ^ k) := by rw [pow_add]
          _ ≤ 2 ^ (2 ^ k) * (x / 2 ^ 2 ^ k) := Nat.mul_le_mul_left _ h2
          _ ≤ x := Nat.mul_div_le x _
      · calc x < 2 ^ (2 ^ k) * (x / 2 ^ 2 ^ k + 1) := Nat.lt_mul_div_succ x hpos
          _ ≤ 2 ^ (2 ^ k) * 2 ^ (log2Go k (x / 2 ^ 2 ^ k) + 1) := Nat.mul_le_mul_left _ h3
          _ = 2 ^ (2 ^ k + log2Go k (x / 2 ^ 2 ^ k) + 1) := by rw [← pow_add]; congr 1

theorem log2Floor_spec (x : Nat) (h0 : 0 < x) (h1 : x < 2 ^ 4096) :
    2 ^ log2Floor x ≤ x ∧ x < 2 ^ (log2Floor x + 1) :=
  log2Go_spec 12 x h0 (by
    have : (2 : Nat) ^ 12 = 4096 := by norm_num
    rw [this]; exact h1)


theorem roundToDouble_cases (x : Nat) (h53 : 2 ^ 53 ≤ x) (h : x < 2 ^ 4096) :
    ∃ sh q r, x = q * 2 ^ (sh + 1) + r ∧ r < 2 ^ (sh + 1) ∧ 2 ^ 52 ≤ q ∧ q < 2 ^ 53 ∧
      2 ^ (52 + (sh + 1)) ≤ x ∧ log2Floor x = 52 + (sh + 1) ∧
      ((roundToDouble x = q * 2 ^ (sh + 1) ∧ r ≤ 2 ^ sh) ∨
       (roundToDouble x = (q + 1) * 2 ^ (sh + 1) ∧ 2 ^ sh ≤ r)) := by
  have hx0 : 0 < x := lt_of_lt_of_le (by norm_num) h53
  obtain ⟨hlo, hhi⟩ := log2Floor_spec x hx0 h
  have he : 53 ≤ log2Floor x := by
    have : 2 ^ 53 < 2 ^ (log2Floor x + 1) := lt_of_le_of_lt h53 hhi
    have := (Nat.pow_lt_pow_iff_right (by norm_num : 1 < 2)).mp this
    omega
  obtain ⟨sh, hsh⟩ : ∃ sh, log2Floor x = 52 + (sh + 1) := ⟨log2Floor x - 53, by omega⟩
  have hp : 0 < 2 ^ (sh + 1) := Nat.pow_pos (by norm_num)
  refine ⟨sh, x / 2 ^ (sh + 1), x % 2 ^ (sh + 1), ?_, Nat.mod_lt _ hp, ?_, ?_, ?_, hsh, ?_⟩
  · rw [Nat.mul_comm]; exact (Nat.div_add_mod x _).symm
  · rw [Nat.le_div_iff_mul_le hp, ← pow_add, ← hsh]; exact hlo
  · rw [Nat.div_lt_iff_lt_mul hp, ← pow_add]
    have : 53 + (sh + 1) = log2Floor x + 1 := by omega
    rw [this]; exact hhi
  · rw [← hsh]; exact hlo
  · have hr : x - x / 2 ^ (sh + 1) * 2 ^ (sh + 1) = x % 2 ^ (sh + 1) := by
      have := Nat.div_add_mod x (2 ^ (sh + 1))
      rw [Nat.mul_comm] at this
      omega
    have hsub : log2Floor x - 52 = sh + 1 := by omega
    unfold roundToDouble
    rw [if_neg (by omega)]
    simp only [hsub, Nat.shiftRight_eq_div_pow, Nat.shiftLeft_eq, Nat.add_sub_cancel, one_mul, hr]
    split_ifs with h1 h2 h3
    · left; exact ⟨rfl, le_of_lt h1⟩
    · left; exact ⟨rfl, le_of_eq h2⟩
    · right; exact ⟨rfl, le_of_eq h2.symm⟩
    · right; exact ⟨rfl, by omega⟩

theorem roundToDouble_near (x : Nat) (h : x < 2 ^ 4096) :
    9007199254740992 * roundToDouble x ≤ 9007199254740993 * x ∧
      9007199254740991 * x ≤ 9007199254740992 * roundToDouble x := by
  by_cases h53 : 2 ^ 53 ≤ x
  · obtain ⟨sh, q, r, hx, hr, hq1, hq2, hle, -, hc⟩ := roundToDouble_cases x h53 h
    clear h h53
    have e1 : 2 ^ (52 + (sh + 1)) = 9007199254740992 * 2 ^ sh := by
      rw [pow_add, pow_succ]; ring
    have e2 : 2 ^ (sh + 1) = 2 * 2 ^ sh := by rw [pow_succ]; ring
    rw [e1] at hle
    rw [e2] at hx hr hc
    obtain ⟨P, hP⟩ : ∃ P, P = 2 ^ sh := ⟨_, rfl⟩
    rw [← hP] at hle hx hr hc
    have hres : (q + 1) * (2 * P) = q * (2 * P) + 2 * P := by ring
    rw [hres] at hc
    obtain ⟨A, hA⟩ : ∃ A, A = q * (2 * P) := ⟨_, rfl⟩
    rw [← hA] at hx hc
    rcases hc with ⟨hv, hb⟩ | ⟨hv, hb⟩ <;> rw [hv] <;> constructor <;> linarith
  · have : roundToDouble x = x := by unfold roundToDouble; rw [if_pos (by omega)]
    rw [this]
    clear h h53 this
    constructor <;> linarith

theorem pow_two_le_roundToDouble (x e : Nat) (h : x < 2 ^ 4096) (he : 2 ^ e ≤ x) :
    2 ^ e ≤ roundToDouble x := by
  by_cases h53 : 2 ^ 53 ≤ x
  · obtain ⟨sh, q, r, hx, hr, hq1, hq2, hle, hlog, hc⟩ := roundToDouble_cases x h53 h
    have hx0 : 0 < x := lt_of_lt_of_le (by norm_num) h53
    obtain ⟨hlo, hhi⟩ := log2Floor_spec x hx0 h
    have : e < log2Floor x + 1 :=
      (Nat.pow_lt_pow_iff_right (by norm_num : 1 < 2)).mp (lt_of_le_of_lt he hhi)
    have hee : e ≤ 52 + (sh + 1) := by omega
    have h2 : 2 ^ e ≤ 2 ^ (52 + (sh + 1)) := Nat.pow_le_pow_right (by norm_num) hee
    have h3 : 2 ^ (52 + (sh + 1)) ≤ q * 2 ^ (sh + 1) := by
      rw [pow_add]; exact Nat.mul_le_mul_right _ hq1
    have h4 : q * 2 ^ (sh + 1) ≤ (q + 1) * 2 ^ (sh + 1) := Nat.mul_le_mul_right _ (by omega)
    rcases hc with ⟨hv, hb⟩ | ⟨hv, hb⟩
    · rw [hv]; exact le_trans h2 h3
    · rw [hv]; exact le_trans h2 (le_trans h3 h4)
  · have : roundToDouble x = x := by unfold roundToDouble; rw [if_pos (by omega)]
    rw [this]; exact he


theorem le_logb_of_pow_le (n p q : Nat) (hn : 1 ≤ n) (hq : 0 < q) (h : 10 ^ p ≤ n ^ q) :
    (p : ℝ) / q ≤ Real.logb 10 n := by
  have hn' : (0 : ℝ) < n := by exact_mod_cast hn
  have hq' : (0 : ℝ) < q := by exact_mod_cast hq
  have h1 : Real.logb 10 ((10 : ℝ) ^ p) ≤ Real.logb 10 ((n : ℝ) ^ q) := by
    apply Real.logb_le_logb_of_le (by norm_num) (by positivity)
    exact_mod_cast h
  rw [Real.logb_pow, Real.logb_pow, Real.logb_self_eq_one (by norm_num), mul_one] at h1
  rw [div_le_iff₀ hq']
  linarith

theorem logb_le_of_le_pow (n p q : Nat) (hn : 1 ≤ n) (hq : 0 < q) (h : n ^ q ≤ 10 ^ p) :
    Real.logb 10 n ≤ (p : ℝ) / q := by
  have hn' : (0 : ℝ) < n := by exact_mod_cast hn
  have hq' : (0 : ℝ) < q := by exact_mod_cast hq
  have h1 : Real.logb 10 ((n : ℝ) ^ q) ≤ Real.logb 10 ((10 : ℝ) ^ p) := by
    apply Real.logb_le_logb_of_le (by norm_num) (by positivity)
    exact_mod_cast h
  rw [Real.logb_pow, Real.logb_pow, Real.logb_self_eq_one (by norm_num), mul_one] at h1
  rw [le_div_iff₀ hq']
  linarith

theorem log10Approx_accurate : Log10Accurate log10Approx := by
  intro n h1 h2
  have hsh : (log10Approx ⟨n <<< 1074⟩).units = Nat.log 10 (n ^ 64) * 2 ^ 1068 := by
    unfold log10Approx
    rw [Nat.shiftLeft_eq, Nat.shiftRight_eq_div_pow, Nat.shiftLeft_eq,
      Nat.mul_div_cancel _ (Nat.two_pow_pos 1074)]
  rw [hsh]
  have hpow : n ^ 64 ≠ 0 := by positivity
  have hlo := Nat.pow_log_le_self 10 hpow
  have hhi := Nat.lt_pow_succ_log_self (by norm_num : 1 < 10) (n ^ 64)
  have b1 := le_logb_of_pow_le n _ 64 h1 (by norm_num) hlo
  have b2 := logb_le_of_le_pow n _ 64 h1 (by norm_num) (le_of_lt hhi)
  have e : ((Nat.log 10 (n ^ 64) * 2 ^ 1068 : Nat) : ℝ) / 2 ^ 1074 = (Nat.log 10 (n ^ 64) : ℝ) / 64 := by
    push_cast
    rw [show (2 : ℝ) ^ 1074 = 64 * 2 ^ 1068 by rw [show (64 : ℝ) = 2 ^ 6 by norm_num, ← pow_add]]
    exact mul_div_mul_right _ _ (by positivity)
  rw [e, abs_le]
  push_cast at b1 b2
  constructor <;> linarith


theorem two_pow_1074 : (2 : Nat) ^ 1074 = 64 * 2 ^ 1068 := by
  rw [show (64 : Nat) = 2 ^ 6 from rfl, ← pow_add]

theorem two_pow_1074_real : (2 : ℝ) ^ 1074 = 64 * 2 ^ 1068 := by
  rw [show (64 : ℝ) = 2 ^ 6 by norm_num, ← pow_add]

theorem toUInt64_add_of_bounds (c k : Nat) (x : Double) (hck : c + k < 2 ^ 20)
    (hlo : (k * 64 + 1) * 2 ^ 1068 ≤ x.units) (hhi : x.units + 2 ^ 1068 ≤ (k + 1) * 64 * 2 ^ 1068) :
    doubleToUInt64 (doubleAdd ⟨c <<< 1074⟩ x) = c + k := by
  obtain ⟨V, hV⟩ : ∃ V, V = 2 ^ 1068 := ⟨_, rfl⟩
  have hVpos : 0 < V := by rw [hV]; exact Nat.two_pow_pos 1068
  have hU : 2 ^ 1074 = 64 * V := by rw [hV]; exact two_pow_1074
  rw [← hV] at hlo hhi
  simp only [doubleToUInt64, doubleAdd, Nat.shiftLeft_eq, Nat.shiftRight_eq_div_pow]
  rw [hU]
  obtain ⟨y, hy⟩ : ∃ y, y = c * (64 * V) + x.units := ⟨_, rfl⟩
  rw [← hy]
  have hM : (c + k) * V ≤ 2 ^ 20 * V := Nat.mul_le_mul_right _ (le_of_lt hck)
  have hylt : y < 2 ^ 4096 := by
    have h1 : y ≤ 2 ^ 26 * V := by
      have : (2 : Nat) ^ 26 = 67108864 := by norm_num
      rw [this]
      have : (2 : Nat) ^ 20 = 1048576 := by norm_num
      rw [this] at hM
      nlinarith
    have h2 : 2 ^ 26 * V < 2 ^ 4096 := by
      rw [hV, ← pow_add]
      exact Nat.pow_lt_pow_right (by norm_num) (by norm_num)
    exact lt_of_le_of_lt h1 h2
  obtain ⟨hn1, hn2⟩ := roundToDouble_near y hylt
  have h20 : (2 : Nat) ^ 20 = 1048576 := by norm_num
  rw [h20] at hM
  apply Nat.div_eq_of_lt_le
  · nlinarith
  · nlinarith


theorem toUInt64_add_log10 (log10 : Double → Double) (hL : Log10Accurate log10)
    (n c k p1 q1 p2 q2 : Nat) (hn1 : 1 ≤ n) (hn2 : n ≤ 2 ^ 64) (hck : c + k < 2 ^ 20)
    (hq1 : 0 < q1) (hq2 : 0 < q2) (h1 : 10 ^ p1 ≤ n ^ q1) (h2 : n ^ q2 ≤ 10 ^ p2)
    (hk1 : 32 * k * q1 + q1 ≤ 32 * p1) (hk2 : 32 * p2 + q2 ≤ 32 * (k + 1) * q2) :
    doubleToUInt64 (doubleAdd ⟨c <<< 1074⟩ (log10 ⟨n <<< 1074⟩)) = c + k := by
  have h := hL n hn1 hn2
  rw [abs_le] at h
  have b1 := le_logb_of_pow_le n p1 q1 hn1 hq1 h1
  have b2 := logb_le_of_le_pow n p2 q2 hn1 hq2 h2
  have hq1' : (0 : ℝ) < q1 := by exact_mod_cast hq1
  have hq2' : (0 : ℝ) < q2 := by exact_mod_cast hq2
  have c1 : (k : ℝ) + 1 / 32 ≤ (p1 : ℝ) / q1 := by
    rw [le_div_iff₀ hq1']
    have : ((32 * k * q1 + q1 : Nat) : ℝ) ≤ ((32 * p1 : Nat) : ℝ) := by exact_mod_cast hk1
    push_cast at this
    linarith
  have c2 : (p2 : ℝ) / q2 ≤ (k : ℝ) + 1 - 1 / 32 := by
    rw [div_le_iff₀ hq2']
    have : ((32 * p2 + q2 : Nat) : ℝ) ≤ ((32 * (k + 1) * q2 : Nat) : ℝ) := by exact_mod_cast hk2
    push_cast at this
    linarith
  obtain ⟨X, hX⟩ : ∃ X, X = (log10 ⟨n <<< 1074⟩).units := ⟨_, rfl⟩
  rw [← hX] at h
  have hVpos : (0 : ℝ) < 2 ^ 1068 := by positivity
  have hU : (2 : ℝ) ^ 1074 = 64 * 2 ^ 1068 := two_pow_1074_real
  rw [hU] at h
  obtain ⟨h3, h4⟩ := h
  have d1 : (k : ℝ) + 1 / 64 ≤ (X : ℝ) / (64 * 2 ^ 1068) := by linarith
  have d2 : (X : ℝ) / (64 * 2 ^ 1068) ≤ (k : ℝ) + 1 - 1 / 64 := by linarith
  rw [le_div_iff₀ (by positivity)] at d1
  rw [div_le_iff₀ (by positivity)] at d2
  have e1 : (k * 64 + 1) * 2 ^ 1068 ≤ X := by
    have : (((k * 64 + 1) * 2 ^ 1068 : Nat) : ℝ) ≤ (X : ℝ) := by
      push_cast; linarith
    exact_mod_cast this
  have e2 : X + 2 ^ 1068 ≤ (k + 1) * 64 * 2 ^ 1068 := by
    have : ((X + 2 ^ 1068 : Nat) : ℝ) ≤ (((k + 1) * 64 * 2 ^ 1068 : Nat) : ℝ) := by
      push_cast; linarith
    exact_mod_cast this
  have := toUInt64_add_of_bounds c k ⟨X⟩ hck e1 e2
  rw [hX] at this
  exact this


/-- With an accurate `log10`, `1 + log10(1)` truncates to `1`. -/
theorem toUInt64_one_add_log10_one (log10 : Double → Double) (hL : Log10Accurate log10) :
    doubleToUInt64 (doubleAdd ⟨1 <<< 1074⟩ (log10 ⟨1 <<< 1074⟩)) = 1 := by
  have h := hL 1 (le_refl 1) (by norm_num)
  rw [abs_le] at h
  obtain ⟨X, hX⟩ : ∃ X, X = (log10 ⟨1 <<< 1074⟩).units := ⟨_, rfl⟩
  rw [← hX] at h
  rw [two_pow_1074_real] at h
  simp only [Nat.cast_one, Real.logb_one, sub_zero] at h
  obtain ⟨-, h4⟩ := h
  rw [div_le_iff₀ (by positivity)] at h4
  have e2 : X ≤ 2 ^ 1068 := by
    have : (X : ℝ) ≤ ((2 ^ 1068 : Nat) : ℝ) := by push_cast; linarith
    exact_mod_cast this
  have hgoal : doubleToUInt64 (doubleAdd ⟨1 <<< 1074⟩ (log10 ⟨1 <<< 1074⟩)) =
      roundToDouble (2 ^ 1074 + X) / 2 ^ 1074 := by
    rw [hX]
    simp only [doubleToUInt64, doubleAdd, Nat.shiftLeft_eq, Nat.shiftRight_eq_div_pow, one_mul]
  rw [hgoal]
  have hbig : 2 * 2 ^ 1074 < 2 ^ 4096 := by
    calc 2 * 2 ^ 1074 = 2 ^ 1075 := by rw [pow_succ]; ring
      _ < 2 ^ 4096 := Nat.pow_lt_pow_right (by norm_num) (by norm_num)
  have hUV := two_pow_1074
  obtain ⟨V, hV⟩ : ∃ V, V = 2 ^ 1068 := ⟨_, rfl⟩
  have hVpos : 0 < V := by rw [hV]; exact Nat.two_pow_pos 1068
  rw [← hV] at e2 hUV
  obtain ⟨U, hU⟩ : ∃ U, U = 2 ^ 1074 := ⟨_, rfl⟩
  rw [← hU] at hUV hbig ⊢
  have hylt : U + X < 2 ^ 4096 := by omega
  have hlow : U ≤ roundToDouble (U + X) := by
    rw [hU]
    exact pow_two_le_roundToDouble _ 1074 (by rw [← hU]; exact hylt) (Nat.le_add_right _ _)
  obtain ⟨hn1, -⟩ := roundToDouble_near (U + X) hylt
  clear hylt hbig hU hV hX hgoal
  apply Nat.div_eq_of_lt_le
  · omega
  · nlinarith

/-! ## Width of integers -/

theorem doubleOfNat_two : doubleOfNat 2 = ⟨2 <<< 1074⟩ := by decide

theorem doubleOfNat_one : doubleOfNat 1 = ⟨1 <<< 1074⟩ := by decide

theorem numWidthVector_singleton (log10 : Double → Double) (T : IntType) (a : Int) :
    numWidthVector log10 T [a] = [numWidthConstant log10 T a] := rfl

theorem numWidthConstant_min_eq (log10 : Double → Double) (T : IntType)
    (hT : T.isSigned = true) :
    numWidthConstant log10 T T.min =
      doubleToUInt64 (doubleAdd (doubleOfNat 2) (log10 (doubleOfNat T.max.toNat))) := by
  cases T <;> first | (exact absurd hT (by decide)) | rfl

theorem int8_min_width (log10 : Double → Double) (hL : Log10Accurate log10) :
    numWidthConstant log10 .Int8 (-128) = 4 := by
  have e : doubleOfNat 127 = ⟨127 <<< 1074⟩ := by decide
  have := toUInt64_add_log10 log10 hL 127 2 2 33 16 5 2 (by norm_num) (by norm_num) (by norm_num)
    (by norm_num) (by norm_num) (by norm_num) (by norm_num) (by norm_num) (by norm_num)
  show doubleToUInt64 (doubleAdd (doubleOfNat 2) (log10 (doubleOfNat 127))) = 4
  rw [doubleOfNat_two, e]
  exact this

theorem int16_min_width (log10 : Double → Double) (hL : Log10Accurate log10) :
    numWidthConstant log10 .Int16 (-32768) = 6 := by
  have e : doubleOfNat 32767 = ⟨32767 <<< 1074⟩ := by decide
  have := toUInt64_add_log10 log10 hL 32767 2 4 9 2 19 4 (by norm_num) (by norm_num)
    (by norm_num) (by norm_num) (by norm_num) (by norm_num) (by norm_num) (by norm_num)
    (by norm_num)
  show doubleToUInt64 (doubleAdd (doubleOfNat 2) (log10 (doubleOfNat 32767))) = 6
  rw [doubleOfNat_two, e]
  exact this

theorem int32_min_width (log10 : Double → Double) (hL : Log10Accurate log10) :
    numWidthConstant log10 .Int32 (-2147483648) = 11 := by
  have e : doubleOfNat 2147483647 = ⟨2147483647 <<< 1074⟩ := by decide
  have := toUInt64_add_log10 log10 hL 2147483647 2 9 37 4 19 2 (by norm_num) (by norm_num)
    (by norm_num) (by norm_num) (by norm_num) (by norm_num) (by norm_num) (by norm_num)
    (by norm_num)
  show doubleToUInt64 (doubleAdd (doubleOfNat 2) (log10 (doubleOfNat 2147483647))) = 11
  rw [doubleOfNat_two, e]
  exact this

/-- The conversion of `max(Int64) = 2^63 - 1` to `double` rounds up to `2^63`. -/
theorem doubleOfNat_int64_max : doubleOfNat 9223372036854775807 = ⟨9223372036854775808 <<< 1074⟩ := by
  decide

theorem int64_min_width (log10 : Double → Double) (hL : Log10Accurate log10) :
    numWidthConstant log10 .Int64 (-9223372036854775808) = 20 := by
  have hpow : 9223372036854775808 ^ 29 ≤ 10 ^ 550 := by
    rw [show (550 : Nat) = 55 * 10 from rfl, pow_mul]
    norm_num
  have := toUInt64_add_log10 log10 hL 9223372036854775808 2 18 37 2 550 29 (by norm_num)
    (by norm_num) (by norm_num) (by norm_num) (by norm_num) (by norm_num) hpow (by norm_num)
    (by norm_num)
  show doubleToUInt64 (doubleAdd (doubleOfNat 2) (log10 (doubleOfNat 9223372036854775807))) = 20
  rw [doubleOfNat_two, doubleOfNat_int64_max]
  exact this

theorem digitCount_max_values :
    digitCount 127 = 3 ∧ digitCount 32767 = 5 ∧ digitCount 2147483647 = 10 ∧
      digitCount 9223372036854775807 = 19 := by
  refine ⟨by decide, by decide, by decide, by decide⟩

theorem decimalTextLength_min_values :
    decimalTextLength (-128) = 4 ∧ decimalTextLength (-32768) = 6 ∧
      decimalTextLength (-2147483648) = 11 ∧ decimalTextLength (-9223372036854775808) = 20 := by
  refine ⟨by decide, by decide, by decide, by decide⟩

/-- Width of the minimum of each signed type, with an accurate `log10`. -/
theorem numWidthConstant_min (log10 : Double → Double) (hL : Log10Accurate log10) (T : IntType)
    (hT : T.isSigned = true) :
    numWidthConstant log10 T T.min = 1 + digitCount T.max.toNat ∧
    numWidthConstant log10 T T.min = 2 + Nat.log 10 T.max.toNat ∧
    numWidthConstant log10 T T.min = decimalTextLength T.min := by
  have l8 : Nat.log 10 127 = 2 := by rw [Nat.log_eq_iff] <;> norm_num
  have l16 : Nat.log 10 32767 = 4 := by rw [Nat.log_eq_iff] <;> norm_num
  have l32 : Nat.log 10 2147483647 = 9 := by rw [Nat.log_eq_iff] <;> norm_num
  have l64 : Nat.log 10 9223372036854775807 = 18 := by rw [Nat.log_eq_iff] <;> norm_num
  obtain ⟨d8, d16, d32, d64⟩ := digitCount_max_values
  obtain ⟨t8, t16, t32, t64⟩ := decimalTextLength_min_values
  cases T with
  | UInt8 | UInt16 | UInt32 | UInt64 => exact absurd hT (by decide)
  | Int8 =>
    have h : numWidthConstant log10 .Int8 (IntType.min .Int8) = 4 := int8_min_width log10 hL
    refine ⟨h.trans ?_, h.trans ?_, h.trans ?_⟩
    · show 4 = 1 + digitCount 127
      rw [d8]
    · have hmax : (IntType.max .Int8).toNat = 127 := rfl
      rw [hmax, l8]
    · show 4 = decimalTextLength (-128)
      rw [t8]
  | Int16 =>
    have h : numWidthConstant log10 .Int16 (IntType.min .Int16) = 6 := int16_min_width log10 hL
    refine ⟨h.trans ?_, h.trans ?_, h.trans ?_⟩
    · show 6 = 1 + digitCount 32767
      rw [d16]
    · have hmax : (IntType.max .Int16).toNat = 32767 := rfl
      rw [hmax, l16]
    · show 6 = decimalTextLength (-32768)
      rw [t16]
  | Int32 =>
    have h : numWidthConstant log10 .Int32 (IntType.min .Int32) = 11 := int32_min_width log10 hL
    refine ⟨h.trans ?_, h.trans ?_, h.trans ?_⟩
    · show 11 = 1 + digitCount 2147483647
      rw [d32]
    · have hmax : (IntType.max .Int32).toNat = 2147483647 := rfl
      rw [hmax, l32]
    · show 11 = decimalTextLength (-2147483648)
      rw [t32]
  | Int64 =>
    have h : numWidthConstant log10 .Int64 (IntType.min .Int64) = 20 := int64_min_width log10 hL
    refine ⟨h.trans ?_, h.trans ?_, h.trans ?_⟩
    · show 20 = 1 + digitCount 9223372036854775807
      rw [d64]
    · have hmax : (IntType.max .Int64).toNat = 9223372036854775807 := rfl
      rw [hmax, l64]
    · show 20 = decimalTextLength (-9223372036854775808)
      rw [t64]

/-- C1, the code at the failing input: for `UInt64`, `10^16 - 1` (16 digits) and `10^16`
(17 digits) are converted to the same `double`, so whatever `log10` returns, both the scalar
and the per-row routine give them one and the same width; at most one of the two widths can
be the number of digits. -/
theorem numWidth_collision_at_1e16 (log10 : Double → Double) :
    numWidthConstant log10 .UInt64 9999999999999999 =
      numWidthConstant log10 .UInt64 10000000000000000 ∧
    numWidthVector log10 .UInt64 [9999999999999999] =
      numWidthVector log10 .UInt64 [10000000000000000] ∧
    digitCount 9999999999999999 = 16 ∧ digitCount 10000000000000000 = 17 := by
  have h : doubleOfNat 9999999999999999 = doubleOfNat 10000000000000000 := by decide
  have e : numWidthConstant log10 .UInt64 9999999999999999 =
      numWidthConstant log10 .UInt64 10000000000000000 := by
    show doubleToUInt64 (doubleAdd (doubleOfNat 1) (log10 (doubleOfNat 9999999999999999))) =
      doubleToUInt64 (doubleAdd (doubleOfNat 1) (log10 (doubleOfNat 10000000000000000)))
    rw [h]
  refine ⟨e, ?_, by decide, by decide⟩
  rw [numWidthVector_singleton, numWidthVector_singleton, e]

/-- C2, the code at the failing input: when `log10(999999999999996.0)` is the `double` next
below `15` (`15 - 2^-49`, the correctly rounded value and the one glibc returns), the width of
the `Int64` value `-999999999999996` is `17`, because `2 + log10(-a)` rounds up to `17.0`, while
the width of `999999999999996` is `15`; the claim asks for `1 + 15 = 16`. -/
theorem numWidth_negative_near_1e15 (log10 : Double → Double)
    (h : log10 (doubleOfNat 999999999999996) = ⟨(15 <<< 1074) - (1 <<< 1025)⟩) :
    numWidthConstant log10 .Int64 (-999999999999996) = 17 ∧
    numWidthConstant log10 .Int64 999999999999996 = 15 ∧
    numWidthVector log10 .Int64 [-999999999999996] = [17] := by
  have e1 : numWidthConstant log10 .Int64 (-999999999999996) = 17 := by
    show doubleToUInt64 (doubleAdd (doubleOfNat 2) (log10 (doubleOfNat 999999999999996))) = 17
    rw [h]
    decide
  have e2 : numWidthConstant log10 .Int64 999999999999996 = 15 := by
    show doubleToUInt64 (doubleAdd (doubleOfNat 1) (log10 (doubleOfNat 999999999999996))) = 15
    rw [h]
    decide
  refine ⟨e1, e2, ?_⟩
  rw [numWidthVector_singleton, e1]

/-- Witness of `numWidth_negative_near_1e15`: a `log10` returning `15 - 2^-49`. -/
theorem numWidth_negative_near_1e15_witness :
    numWidthConstant (fun _ => ⟨(15 <<< 1074) - (1 <<< 1025)⟩) .Int64 (-999999999999996) = 17 ∧
    numWidthConstant (fun _ => ⟨(15 <<< 1074) - (1 <<< 1025)⟩) .Int64 999999999999996 = 15 ∧
    numWidthVector (fun _ => ⟨(15 <<< 1074) - (1 <<< 1025)⟩) .Int64 [-999999999999996] = [17] :=
  numWidth_negative_near_1e15 _ rfl

/-- C3, counterexample: with the accurate `log10Approx`, the width of `min(Int8) = -128` is
`4`, not `2 + digitCount(127) = 5`. -/
theorem numWidth_int8_min_counterexample :
    Log10Accurate log10Approx ∧
    numWidthConstant log10Approx .Int8 (IntType.min .Int8) = 4 ∧
    numWidthConstant log10Approx .Int8 (IntType.min .Int8) ≠
      2 + digitCount (IntType.max .Int8).toNat := by
  have h := int8_min_width log10Approx log10Approx_accurate
  refine ⟨log10Approx_accurate, h, ?_⟩
  have e : numWidthConstant log10Approx .Int8 (IntType.min .Int8) = 4 := h
  rw [e]
  decide

theorem negate_of_negated_branch (T : IntType) (a : Int) (hr : T.InRange a)
    (hb : numWidthBranch T a = .negated) : negate T a = some (-a) := by
  unfold numWidthBranch at hb
  by_cases h0 : a ≥ 0
  · rw [if_pos h0] at hb; cases hb
  · rw [if_neg h0] at hb
    by_cases hm : (T.isSigned && a == T.min) = true
    · rw [if_pos hm] at hb; cases hb
    · cases T <;>
        simp [IntType.InRange, IntType.min, IntType.max, IntType.isSigned, IntType.bits] at hr hm <;>
        simp [negate, IntType.promoted, IntType.min, IntType.max, IntType.isSigned,
          IntType.bits] <;>
        omega

theorem numWidthConstantChecked_branch (log10 : Double → Double) (T : IntType) (a : Int) :
    numWidthConstantChecked log10 T a =
      match numWidthBranch T a with
      | .nonNegative =>
        some (doubleToUInt64 (if a ≠ 0 then
          doubleAdd (doubleOfNat 1) (log10 (doubleOfNat a.toNat)) else doubleOfNat 1))
      | .minimum =>
        some (doubleToUInt64 (doubleAdd (doubleOfNat 2) (log10 (doubleOfNat T.max.toNat))))
      | .negated =>
        (negate T a).map fun negated =>
          doubleToUInt64 (doubleAdd (doubleOfNat 2) (log10 (doubleOfNat negated.toNat))) := by
  unfold numWidthConstantChecked numWidthBranch
  by_cases h0 : a ≥ 0
  · simp only [if_pos h0]
  · simp only [if_neg h0]
    by_cases hm : (T.isSigned && a == T.min) = true
    · simp only [if_pos hm]
    · simp only [if_neg hm]

theorem numWidthBranch_min (T : IntType) (hT : T.isSigned = true) :
    numWidthBranch T T.min = .minimum := by
  cases T <;> first | (exact absurd hT (by decide)) | decide

/-- On the values of `T` no negation overflows: the checked routine returns the width the
routine over the integers returns. -/
theorem numWidthConstantChecked_inRange (log10 : Double → Double) (T : IntType) (a : Int)
    (hr : T.InRange a) :
    numWidthConstantChecked log10 T a = some (numWidthConstant log10 T a) := by
  rw [numWidthConstantChecked_branch]
  cases hb : numWidthBranch T a with
  | nonNegative =>
    unfold numWidthBranch at hb
    unfold numWidthConstant
    by_cases h0 : a ≥ 0
    · simp only [if_pos h0]
    · rw [if_neg h0] at hb
      by_cases hm : (T.isSigned && a == T.min) = true
      · rw [if_pos hm] at hb; cases hb
      · rw [if_neg hm] at hb; cases hb
  | minimum =>
    unfold numWidthBranch at hb
    unfold numWidthConstant
    by_cases h0 : a ≥ 0
    · rw [if_pos h0] at hb; cases hb
    · rw [if_neg h0] at hb
      by_cases hm : (T.isSigned && a == T.min) = true
      · simp only [if_neg h0, if_pos hm]
      · rw [if_neg hm] at hb; cases hb
  | negated =>
    have hn := negate_of_negated_branch T a hr hb
    unfold numWidthBranch at hb
    unfold numWidthConstant
    by_cases h0 : a ≥ 0
    · rw [if_pos h0] at hb; cases hb
    · rw [if_neg h0] at hb
      by_cases hm : (T.isSigned && a == T.min) = true
      · rw [if_pos hm] at hb; cases hb
      · simp only [if_neg h0, if_neg hm, hn, Option.map_some']

theorem numWidthVectorChecked_singleton (log10 : Double → Double) (T : IntType) (a : Int) :
    numWidthVectorChecked log10 T [a] = (numWidthConstantChecked log10 T a).map fun c => [c] := by
  unfold numWidthVectorChecked numWidthConstantChecked
  simp only [numWidthVectorChecked, Option.map_some']
  cases (if a ≥ 0 then
      some (doubleToUInt64 (if a ≠ 0 then doubleAdd (doubleOfNat 1) (log10 (doubleOfNat a.toNat))
        else doubleOfNat 1))
    else if T.isSigned && a == T.min then
      some (doubleToUInt64 (doubleAdd (doubleOfNat 2) (log10 (doubleOfNat T.max.toNat))))
    else
      (negate T a).map fun negated =>
        doubleToUInt64 (doubleAdd (doubleOfNat 2) (log10 (doubleOfNat negated.toNat)))) <;> rfl

/-- C3, amended: for every signed type the routines take their dedicated branch at
`min(T)`, which forms no negation: evaluated with the unary minus of the machine, the scalar
and the per-row routine return the truncation of `2 + log10(max(T))` for every `log10`
(while `-min(T)` itself overflows for `Int32` and `Int64`, and is exact after promotion for
`Int8` and `Int16`); the negation of the last branch is formed only for values whose
negation is exact, so no value of `T` makes a routine overflow; and, when `log10` is
accurate, the width of `min(T)` is `1 + digitCount(max(T))`. -/
theorem numWidth_min_one_plus_digits (log10 : Double → Double) (T : IntType)
    (hT : T.isSigned = true) :
    numWidthBranch T T.min = .minimum ∧
    (∀ a, numWidthConstantChecked log10 T a =
      match numWidthBranch T a with
      | .nonNegative =>
        some (doubleToUInt64 (if a ≠ 0 then
          doubleAdd (doubleOfNat 1) (log10 (doubleOfNat a.toNat)) else doubleOfNat 1))
      | .minimum =>
        some (doubleToUInt64 (doubleAdd (doubleOfNat 2) (log10 (doubleOfNat T.max.toNat))))
      | .negated =>
        (negate T a).map fun negated =>
          doubleToUInt64 (doubleAdd (doubleOfNat 2) (log10 (doubleOfNat negated.toNat)))) ∧
    numWidthConstantChecked log10 T T.min =
      some (doubleToUInt64 (doubleAdd (doubleOfNat 2) (log10 (doubleOfNat T.max.toNat)))) ∧
    numWidthVectorChecked log10 T [T.min] =
      some [doubleToUInt64 (doubleAdd (doubleOfNat 2) (log10 (doubleOfNat T.max.toNat)))] ∧
    negate T T.min = (if T.bits ≤ 16 then some (-T.min) else none) ∧
    (∀ a, T.InRange a → numWidthBranch T a = .negated → negate T a = some (-a)) ∧
    (∀ a, T.InRange a →
      numWidthConstantChecked log10 T a = some (numWidthConstant log10 T a) ∧
      numWidthVectorChecked log10 T [a] = some (numWidthVector log10 T [a])) ∧
    (Log10Accurate log10 →
      numWidthConstantChecked log10 T T.min = some (1 + digitCount T.max.toNat) ∧
      numWidthVectorChecked log10 T [T.min] = some [1 + digitCount T.max.toNat] ∧
      numWidthConstant log10 T T.min = 1 + digitCount T.max.toNat ∧
      numWidthVector log10 T [T.min] = [1 + digitCount T.max.toNat]) := by
  have hmin : T.InRange T.min := by
    cases T <;> simp [IntType.InRange, IntType.min, IntType.max, IntType.isSigned, IntType.bits]
  have hc : numWidthConstantChecked log10 T T.min =
      some (doubleToUInt64 (doubleAdd (doubleOfNat 2) (log10 (doubleOfNat T.max.toNat)))) := by
    rw [numWidthConstantChecked_inRange log10 T T.min hmin, numWidthConstant_min_eq log10 T hT]
  refine ⟨numWidthBranch_min T hT, numWidthConstantChecked_branch log10 T, hc, ?_, ?_,
    fun a hr hb => negate_of_negated_branch T a hr hb, ?_, ?_⟩
  · rw [numWidthVectorChecked_singleton, hc]
    rfl
  · cases T <;> first | (exact absurd hT (by decide)) | decide
  · intro a hr
    refine ⟨numWidthConstantChecked_inRange log10 T a hr, ?_⟩
    rw [numWidthVectorChecked_singleton, numWidthConstantChecked_inRange log10 T a hr]
    rfl
  · intro hL
    have h := (numWidthConstant_min log10 hL T hT).1
    have hc2 := numWidthConstantChecked_inRange log10 T T.min hmin
    rw [h] at hc2
    refine ⟨hc2, ?_, h, ?_⟩
    · rw [numWidthVectorChecked_singleton, hc2]
      rfl
    · rw [numWidthVector_singleton, h]

/-- Witness of `numWidth_min_one_plus_digits` at `Int32` with `log10Approx`: the width of
`min(Int32)` is defined and is `1 + digitCount(max(Int32))`, while `-min(Int32)` overflows. -/
theorem numWidth_min_one_plus_digits_witness :
    numWidthConstantChecked log10Approx .Int32 (IntType.min .Int32) =
      some (doubleToUInt64 (doubleAdd (doubleOfNat 2)
        (log10Approx (doubleOfNat (IntType.max .Int32).toNat)))) ∧
    negate .Int32 (IntType.min .Int32) = none ∧
    numWidthConstantChecked log10Approx .Int32 (IntType.min .Int32) =
      some (1 + digitCount (IntType.max .Int32).toNat) ∧
    numWidthVector log10Approx .Int32 [IntType.min .Int32] =
      [1 + digitCount (IntType.max .Int32).toNat] :=
  have h := numWidth_min_one_plus_digits log10Approx .Int32 rfl
  have hv := h.2.2.2.2.2.2.2 log10Approx_accurate
  ⟨h.2.2.1, h.2.2.2.2.1, hv.1, hv.2.2.2⟩

/-- C4: with an accurate `log10`, for every signed type the width of `min(T)` is
`2 + floor(log10(max(T)))`, which is the length of the decimal text of `min(T)` with its
minus sign; `-128` gives 4, `-32768` gives 6, `-2147483648` gives 11 and
`-9223372036854775808` gives 20, from the scalar and from the per-row routine. -/
theorem numWidth_min_text_length (log10 : Double → Double) (hL : Log10Accurate log10) :
    (∀ T : IntType, T.isSigned = true →
      numWidthConstant log10 T T.min = 2 + Nat.log 10 T.max.toNat ∧
      numWidthConstant log10 T T.min = decimalTextLength T.min ∧
      numWidthVector log10 T [T.min] = [decimalTextLength T.min]) ∧
    numWidthConstant log10 .Int8 (-128) = 4 ∧
    numWidthConstant log10 .Int16 (-32768) = 6 ∧
    numWidthConstant log10 .Int32 (-2147483648) = 11 ∧
    numWidthConstant log10 .Int64 (-9223372036854775808) = 20 := by
  refine ⟨?_, int8_min_width log10 hL, int16_min_width log10 hL, int32_min_width log10 hL,
    int64_min_width log10 hL⟩
  intro T hT
  obtain ⟨-, h2, h3⟩ := numWidthConstant_min log10 hL T hT
  refine ⟨h2, h3, ?_⟩
  rw [numWidthVector_singleton, h3]

/-- Witness of `numWidth_min_text_length` with `log10Approx`. -/
theorem numWidth_min_text_length_witness :
    (∀ T : IntType, T.isSigned = true →
      numWidthConstant log10Approx T T.min = 2 + Nat.log 10 T.max.toNat ∧
      numWidthConstant log10Approx T T.min = decimalTextLength T.min ∧
      numWidthVector log10Approx T [T.min] = [decimalTextLength T.min]) ∧
    numWidthConstant log10Approx .Int8 (-128) = 4 ∧
    numWidthConstant log10Approx .Int16 (-32768) = 6 ∧
    numWidthConstant log10Approx .Int32 (-2147483648) = 11 ∧
    numWidthConstant log10Approx .Int64 (-9223372036854775808) = 20 :=
  numWidth_min_text_length log10Approx log10Approx_accurate

/-! ## The dispatch of `executeColumn` -/

theorem except_bind_eq_ok {ε α β : Type} (x : Except ε α) (f : α → Except ε β) (r : β) :
    Except.bind x f = .ok r ↔ ∃ a, x = .ok a ∧ f a = .ok r := by
  cases x with
  | error e => simp [Except.bind]
  | ok a => simp [Except.bind]

theorem except_bind_eq_error {ε α β : Type} (x : Except ε α) (f : α → Except ε β) (e : ε) :
    Except.bind x f = .error e ↔ x = .error e ∨ ∃ a, x = .ok a ∧ f a = .error e := by
  cases x with
  | error e => simp [Except.bind]
  | ok a => simp [Except.bind]

theorem except_pure_eq_ok {ε α : Type} (a r : α) :
    (Except.pure a : Except ε α) = .ok r ↔ a = r := by
  simp [Except.pure]

theorem checkResultPosition_true : checkResultPosition true = .ok () := rfl

theorem checkResultPosition_code (resultValid : Bool) (e : Exception)
    (h : checkResultPosition resultValid = .error e) : e.code = .UNDEFINED_BEHAVIOUR := by
  cases resultValid
  · cases h; rfl
  · cases h

/-- When one of the tests on the type applies, its outcome is the outcome of `execute`. -/
theorem executeColumn_of_byType (env : Env) (resultValid : Bool) (type : DataType)
    (column : Column) (outcome : Except Exception Column)
    (h : FunctionVisibleWidth.executeByType resultValid type column = some outcome) :
    FunctionVisibleWidth.executeColumn env resultValid type column = outcome := by
  unfold FunctionVisibleWidth.executeColumn
  rw [h]
  rfl

theorem executeColumn_date (env : Env) (column : Column) :
    FunctionVisibleWidth.executeColumn env true .Date column =
      .ok (Column.constUInt64 column.size 10) :=
  executeColumn_of_byType env true .Date column _ rfl

theorem executeColumn_dateTime (env : Env) (column : Column) :
    FunctionVisibleWidth.executeColumn env true .DateTime column =
      .ok (Column.constUInt64 column.size 19) :=
  executeColumn_of_byType env true .DateTime column _ rfl

/-- The enum handlers apply to dense and constant integer columns only. -/
theorem executeEnum_eq_none (kind : EnumKind) (resultValid : Bool) (type : DataType)
    (column : Column) (hv : ∀ T data, column ≠ .vector T data)
    (hc : ∀ T size data, column ≠ .const T size data) :
    VisibleWidth.executeEnum kind resultValid type column = none := by
  unfold VisibleWidth.executeEnum
  cases kind.cast type with
  | none => rfl
  | some values =>
    cases column with
    | vector T data => exact absurd rfl (hv T data)
    | const T size data => exact absurd rfl (hc T size data)
    | _ => rfl

theorem executeEnums_eq_none (resultValid : Bool) (type : DataType)
    (column : Column) (hv : ∀ T data, column ≠ .vector T data)
    (hc : ∀ T size data, column ≠ .const T size data) :
    VisibleWidth.executeEnums resultValid type column = none := by
  unfold VisibleWidth.executeEnums
  rw [executeEnum_eq_none .Enum8 resultValid type column hv hc,
    executeEnum_eq_none .Enum16 resultValid type column hv hc]

/-- Away from `Date` and `DateTime`, a column that is neither dense nor constant numeric
passes the tests on the type. -/
theorem executeByType_eq_none (resultValid : Bool) (type : DataType) (column : Column)
    (hd : type ≠ .Date) (hdt : type ≠ .DateTime)
    (hv : ∀ T data, column ≠ .vector T data)
    (hc : ∀ T size data, column ≠ .const T size data) :
    FunctionVisibleWidth.executeByType resultValid type column = none := by
  have h := executeEnums_eq_none resultValid type column hv hc
  cases type <;> first | exact absurd rfl hd | exact absurd rfl hdt | exact h

theorem executeColumn_const (env : Env) (resultValid : Bool) (type : DataType) (T : NumType)
    (size : Nat) (data : Int)
    (h : FunctionVisibleWidth.executeByType resultValid type (.const T size data) = none) :
    FunctionVisibleWidth.executeColumn env resultValid type (.const T size data) =
      VisibleWidth.executeConstNumber env resultValid T size data := by
  conv => lhs; unfold FunctionVisibleWidth.executeColumn
  rw [h]; rfl

theorem executeColumn_vector (env : Env) (resultValid : Bool) (type : DataType) (T : NumType)
    (data : List Int)
    (h : FunctionVisibleWidth.executeByType resultValid type (.vector T data) = none) :
    FunctionVisibleWidth.executeColumn env resultValid type (.vector T data) =
      VisibleWidth.executeNumber env resultValid T data := by
  conv => lhs; unfold FunctionVisibleWidth.executeColumn
  rw [h]; rfl

theorem executeColumn_string (env : Env) (resultValid : Bool) (type : DataType)
    (chars : List UInt8) (offsets : List Nat) (hd : type ≠ .Date) (hdt : type ≠ .DateTime) :
    FunctionVisibleWidth.executeColumn env resultValid type (.string chars offsets) =
      (checkResultPosition resultValid).bind fun _ =>
        .ok (Column.uint64 ((stringWidthVector chars offsets).map Int.ofNat)) := by
  conv => lhs; unfold FunctionVisibleWidth.executeColumn
  rw [executeByType_eq_none _ _ _ hd hdt (by simp) (by simp)]; rfl

theorem executeColumn_fixedString (env : Env) (resultValid : Bool) (type : DataType)
    (n : Nat) (chars : List UInt8) (hd : type ≠ .Date) (hdt : type ≠ .DateTime) :
    FunctionVisibleWidth.executeColumn env resultValid type (.fixedString n chars) =
      (checkResultPosition resultValid).bind fun _ =>
        .ok (Column.uint64 ((stringWidthFixedVector chars n).map Int.ofNat)) := by
  conv => lhs; unfold FunctionVisibleWidth.executeColumn
  rw [executeByType_eq_none _ _ _ hd hdt (by simp) (by simp)]; rfl

theorem executeColumn_constString (env : Env) (resultValid : Bool) (type : DataType)
    (size : Nat) (data : List UInt8) (hd : type ≠ .Date) (hdt : type ≠ .DateTime) :
    FunctionVisibleWidth.executeColumn env resultValid type (.constString size data) =
      FunctionVisibleWidth.executeConstString resultValid size data := by
  conv => lhs; unfold FunctionVisibleWidth.executeColumn
  rw [executeByType_eq_none _ _ _ hd hdt (by simp) (by simp)]; rfl

theorem executeColumn_constArray (env : Env) (resultValid : Bool) (type : DataType)
    (size : Nat) (data : Field) (hd : type ≠ .Date) (hdt : type ≠ .DateTime) :
    FunctionVisibleWidth.executeColumn env resultValid type (.constArray size data) =
      (checkResultPosition resultValid).bind fun _ =>
        .ok (Column.constUInt64 size (Int.ofNat (env.serializeTextEscaped type data).length)) := by
  conv => lhs; unfold FunctionVisibleWidth.executeColumn
  rw [executeByType_eq_none _ _ _ hd hdt (by simp) (by simp)]; rfl

theorem executeColumn_constTuple (env : Env) (resultValid : Bool) (type : DataType)
    (size : Nat) (data : Field) (hd : type ≠ .Date) (hdt : type ≠ .DateTime) :
    FunctionVisibleWidth.executeColumn env resultValid type (.constTuple size data) =
      (checkResultPosition resultValid).bind fun _ =>
        .ok (Column.constUInt64 size (Int.ofNat (env.serializeTextEscaped type data).length)) := by
  conv => lhs; unfold FunctionVisibleWidth.executeColumn
  rw [executeByType_eq_none _ _ _ hd hdt (by simp) (by simp)]; rfl

theorem executeColumn_aggregateFunction (env : Env) (resultValid : Bool) (type : DataType)
    (size : Nat) (hd : type ≠ .Date) (hdt : type ≠ .DateTime) :
    FunctionVisibleWidth.executeColumn env resultValid type (.aggregateFunction size) =
      (checkResultPosition resultValid).bind fun _ => .ok (Column.constUInt64 size 10) := by
  conv => lhs; unfold FunctionVisibleWidth.executeColumn
  rw [executeByType_eq_none _ _ _ hd hdt (by simp) (by simp)]; rfl

theorem executeColumn_other (env : Env) (resultValid : Bool) (type : DataType)
    (name : String) (size : Nat) (hd : type ≠ .Date) (hdt : type ≠ .DateTime) :
    FunctionVisibleWidth.executeColumn env resultValid type (.other name size) =
      .error ⟨"Illegal column " ++ name ++ " of argument of function " ++ env.functionName,
        .ILLEGAL_COLUMN⟩ := by
  conv => lhs; unfold FunctionVisibleWidth.executeColumn
  rw [executeByType_eq_none _ _ _ hd hdt (by simp) (by simp)]; rfl

/-- The array branch in general: a type that is not an array type fails the reference cast. -/
theorem executeColumn_array_any (env : Env) (resultValid : Bool) (type : DataType)
    (data : Column) (offsets : List Nat) (hd : type ≠ .Date) (hdt : type ≠ .DateTime) :
    FunctionVisibleWidth.executeColumn env resultValid type (.array data offsets) =
      match type.arrayNested with
      | some nested =>
        (FunctionVisibleWidth.executeColumn env true nested data).bind
          (FunctionVisibleWidth.executeArrayRows resultValid offsets nested)
      | none => .error ⟨"Bad cast to DataTypeArray", .BAD_CAST⟩ := by
  conv => lhs; unfold FunctionVisibleWidth.executeColumn
  rw [executeByType_eq_none _ _ _ hd hdt (by simp) (by simp)]; rfl

theorem executeColumn_tuple_any (env : Env) (resultValid : Bool) (type : DataType)
    (columns : List Column) (hd : type ≠ .Date) (hdt : type ≠ .DateTime) :
    FunctionVisibleWidth.executeColumn env resultValid type (.tuple columns) =
      (FunctionVisibleWidth.executeTupleElements env type.tupleElements 0 none columns).bind
        (FunctionVisibleWidth.executeTupleSurcharge resultValid (Column.tuple columns).size
          type.tupleElements columns.length) := by
  conv => lhs; unfold FunctionVisibleWidth.executeColumn
  rw [executeByType_eq_none _ _ _ hd hdt (by simp) (by simp)]; rfl

theorem executeColumn_array (env : Env) (resultValid : Bool) (nestedType : DataType)
    (data : Column) (offsets : List Nat) :
    FunctionVisibleWidth.executeColumn env resultValid (.Array nestedType) (.array data offsets) =
      (FunctionVisibleWidth.executeColumn env true nestedType data).bind
        (FunctionVisibleWidth.executeArrayRows resultValid offsets nestedType) := by
  rw [executeColumn_array_any env resultValid _ _ _ (by simp) (by simp)]
  rfl

theorem executeColumn_tuple (env : Env) (resultValid : Bool) (elems : List DataType)
    (columns : List Column) :
    FunctionVisibleWidth.executeColumn env resultValid (.Tuple elems) (.tuple columns) =
      (FunctionVisibleWidth.executeTupleElements env (some elems) 0 none columns).bind
        (FunctionVisibleWidth.executeTupleSurcharge resultValid (Column.tuple columns).size
          (some elems) columns.length) := by
  rw [executeColumn_tuple_any env resultValid _ _ (by simp) (by simp)]
  rfl

theorem executeTupleElements_nil (env : Env) (elems : Option (List DataType)) (i : Nat)
    (folded : Option Column) :
    FunctionVisibleWidth.executeTupleElements env elems i folded [] = .ok folded := by
  conv => lhs; unfold FunctionVisibleWidth.executeTupleElements

theorem executeTupleElements_cons (env : Env) (elems : Option (List DataType)) (i : Nat)
    (folded : Option Column) (column : Column) (rest : List Column) :
    FunctionVisibleWidth.executeTupleElements env elems i folded (column :: rest) =
      match elems.bind (fun es => es.get? i) with
      | none => .error ⟨"element type read outside the tuple type", .UNDEFINED_BEHAVIOUR⟩
      | some elementType =>
        (FunctionVisibleWidth.executeColumn env true elementType column).bind fun width =>
          (match folded with
            | none => Except.ok width
            | some previous => plusUInt64 previous width).bind fun sum =>
              FunctionVisibleWidth.executeTupleElements env elems (i + 1) (some sum) rest := by
  conv => lhs; unfold FunctionVisibleWidth.executeTupleElements

/-! ## Results of `executeColumn` are width columns -/

theorem executeEnum_isWidthColumn (kind : EnumKind) (resultValid : Bool) (type : DataType)
    (column res : Column)
    (h : VisibleWidth.executeEnum kind resultValid type column = some (.ok res)) :
    res.isWidthColumn = true := by
  unfold VisibleWidth.executeEnum at h
  split at h
  · cases h
  · split at h
    · split at h
      · simp only [Option.some.injEq, bind, pure, except_bind_eq_ok, except_pure_eq_ok] at h
        obtain ⟨_, _, _, _, h⟩ := h
        subst h; rfl
      · cases h
    · split at h
      · simp only [Option.some.injEq, bind, pure, except_bind_eq_ok, except_pure_eq_ok] at h
        obtain ⟨_, _, _, _, h⟩ := h
        subst h; rfl
      · cases h
    · cases h

theorem executeEnums_isWidthColumn (resultValid : Bool) (type : DataType)
    (column res : Column)
    (h : VisibleWidth.executeEnums resultValid type column = some (.ok res)) :
    res.isWidthColumn = true := by
  unfold VisibleWidth.executeEnums at h
  split at h
  · rename_i h8
    simp only [Option.some.injEq] at h
    subst h
    exact executeEnum_isWidthColumn _ _ _ _ _ h8
  · exact executeEnum_isWidthColumn _ _ _ _ _ h

theorem executeByType_isWidthColumn (resultValid : Bool) (type : DataType)
    (column res : Column)
    (h : FunctionVisibleWidth.executeByType resultValid type column = some (.ok res)) :
    res.isWidthColumn = true := by
  unfold FunctionVisibleWidth.executeByType at h
  split at h
  · simp only [Option.some.injEq, bind, pure, except_bind_eq_ok, except_pure_eq_ok] at h
    obtain ⟨_, _, h⟩ := h
    subst h; rfl
  · simp only [Option.some.injEq, bind, pure, except_bind_eq_ok, except_pure_eq_ok] at h
    obtain ⟨_, _, h⟩ := h
    subst h; rfl
  · exact executeEnums_isWidthColumn _ _ _ _ h

theorem executeConstNumber_isWidthColumn (env : Env) (resultValid : Bool) (T : NumType)
    (size : Nat) (data : Int) (res : Column)
    (h : VisibleWidth.executeConstNumber env resultValid T size data = .ok res) :
    res.isWidthColumn = true := by
  unfold VisibleWidth.executeConstNumber at h
  cases T <;>
    simp only [bind, pure, except_bind_eq_ok, except_pure_eq_ok] at h <;>
    (obtain ⟨_, _, _, _, h⟩ := h; subst h; rfl)

theorem executeNumber_isWidthColumn (env : Env) (resultValid : Bool) (T : NumType)
    (data : List Int) (res : Column)
    (h : VisibleWidth.executeNumber env resultValid T data = .ok res) :
    res.isWidthColumn = true := by
  unfold VisibleWidth.executeNumber at h
  cases T <;>
    simp only [bind, pure, except_bind_eq_ok, except_pure_eq_ok] at h <;>
    (obtain ⟨_, _, _, _, h⟩ := h; subst h; rfl)

theorem addTupleSurcharge_isWidthColumn (rows additionalSymbols : Nat) (column res : Column)
    (h : addTupleSurcharge rows additionalSymbols column = .ok res) :
    res.isWidthColumn = true := by
  unfold addTupleSurcharge at h
  split at h
  · cases h; rfl
  · cases h
  · cases h; rfl
  · cases h

theorem executeArrayRows_isWidthColumn (resultValid : Bool) (offsets : List Nat)
    (nestedType : DataType) (nestedResult res : Column)
    (h : FunctionVisibleWidth.executeArrayRows resultValid offsets nestedType nestedResult =
      .ok res) :
    res.isWidthColumn = true := by
  unfold FunctionVisibleWidth.executeArrayRows at h
  simp only [bind, pure, except_bind_eq_ok] at h
  obtain ⟨_, _, h⟩ := h
  split at h
  · cases h; rfl
  · cases h; rfl
  · cases h

theorem executeTupleSurcharge_isWidthColumn (resultValid : Bool) (rows : Nat)
    (elems : Option (List DataType)) (columns : Nat) (folded : Option Column) (res : Column)
    (h : FunctionVisibleWidth.executeTupleSurcharge resultValid rows elems columns folded =
      .ok res) :
    res.isWidthColumn = true := by
  unfold FunctionVisibleWidth.executeTupleSurcharge at h
  split at h
  · simp only [bind, pure, except_bind_eq_ok, except_pure_eq_ok] at h
    obtain ⟨_, h1, _, _, h2⟩ := h
    subst h2
    exact addTupleSurcharge_isWidthColumn _ _ _ _ h1
  · cases h

theorem executeConstString_eq (resultValid : Bool) (rows : Nat) (data : List UInt8) :
    FunctionVisibleWidth.executeConstString resultValid rows data =
      (checkResultPosition resultValid).bind fun _ => .ok (Column.constUInt64 rows 0) := rfl

/-- Every column `execute` produces is a `ColumnUInt64` or a `ColumnConstUInt64`. -/
theorem executeColumn_isWidthColumn (env : Env) (resultValid : Bool) (type : DataType)
    (column res : Column)
    (h : FunctionVisibleWidth.executeColumn env resultValid type column = .ok res) :
    res.isWidthColumn = true := by
  unfold FunctionVisibleWidth.executeColumn at h
  cases hB : FunctionVisibleWidth.executeByType resultValid type column with
  | some outcome =>
    rw [hB] at h
    simp only [Option.getD_some] at h
    subst h
    exact executeByType_isWidthColumn _ _ _ _ hB
  | none =>
    rw [hB] at h
    simp only [Option.getD_none] at h
    cases column <;>
      simp only [bind, pure, except_bind_eq_ok, except_pure_eq_ok, executeConstString_eq,
        reduceCtorEq] at h
    case const => exact executeConstNumber_isWidthColumn _ _ _ _ _ _ h
    case vector => exact executeNumber_isWidthColumn _ _ _ _ _ h
    case array =>
      split at h
      · simp only [except_bind_eq_ok] at h
        obtain ⟨_, _, h⟩ := h
        exact executeArrayRows_isWidthColumn _ _ _ _ _ h
      · cases h
    case tuple =>
      obtain ⟨_, _, h⟩ := h
      exact executeTupleSurcharge_isWidthColumn _ _ _ _ _ _ h
    all_goals (obtain ⟨_, _, h⟩ := h; cases h; rfl)

/-! ## The array branch -/

theorem foldl_add_mod (f : Nat → Nat) (M : Nat) :
    ∀ (l : List Nat) (init : Nat), init + (l.map f).sum < M →
      l.foldl (fun v k => (v + f k) % M) init = init + (l.map f).sum := by
  intro l
  induction l with
  | nil => intro init _; simp
  | cons a l ih =>
    intro init h
    simp only [List.map_cons, List.sum_cons] at h
    simp only [List.foldl_cons, List.map_cons, List.sum_cons]
    rw [Nat.mod_eq_of_lt (by omega), ih _ (by omega)]
    omega

/-- Row `i` of the dense array loop, started with element index `j` not above the offsets. -/
theorem arrayWidthsVector_get (q : Nat) (nested : List Int) :
    ∀ (offsets : List Nat) (j i : Nat), List.Chain (· ≤ ·) j offsets → i < offsets.length →
      (arrayWidthsVector q nested j offsets).get? i =
        some (Int.ofNat ((List.range' (match i with | 0 => j | k + 1 => offsets.getD k 0)
            (offsets.getD i 0 - (match i with | 0 => j | k + 1 => offsets.getD k 0))).foldl
          (fun v k => (v + (1 + q + (nested.getD k 0).toNat)) % 2 ^ 64)
          (if (match i with | 0 => j | k + 1 => offsets.getD k 0) = offsets.getD i 0
            then 2 else 1))) := by
  intro offsets
  induction offsets with
  | nil => intro j i _ hi; simp at hi
  | cons o rest ih =>
    intro j i hchain hi
    rw [List.chain_cons] at hchain
    obtain ⟨hjo, hrest⟩ := hchain
    cases i with
    | zero => simp [arrayWidthsVector]
    | succ k =>
      have hk : k < rest.length := by simpa using hi
      have hmax : max j o = o := max_eq_right hjo
      simp only [arrayWidthsVector, List.get?_cons_succ, hmax]
      rw [ih o k hrest hk]
      cases k with
      | zero => simp
      | succ m => simp

/-! ## Offsets -/

/-- The element before row `i` in a chain started at `a`: `a` for the first row. -/
theorem chain_rel_rows {R : Nat → Nat → Prop} :
    ∀ (l : List Nat) (a i : Nat), List.Chain R a l → i < l.length →
      R (match i with | 0 => a | k + 1 => l.getD k 0) (l.getD i 0) := by
  intro l
  induction l with
  | nil => intro a i _ hi; simp at hi
  | cons x rest ih =>
    intro a i hchain hi
    rw [List.chain_cons] at hchain
    cases i with
    | zero => simpa using hchain.1
    | succ k =>
      have hk : k < rest.length := by simpa using hi
      have := ih x k hchain.2 hk
      cases k with
      | zero => simpa using this
      | succ m => simpa using this

theorem rowBegin_eq (offsets : List Nat) (i : Nat) :
    rowBegin offsets i = (match i with | 0 => 0 | k + 1 => offsets.getD k 0) := by
  cases i <;> rfl

theorem chain_lt_le_getLast :
    ∀ (l : List Nat) (a L : Nat), List.Chain (· < ·) a l → l.getLast? = some L →
      ∀ i, i < l.length → l.getD i 0 ≤ L := by
  intro l
  induction l with
  | nil => intro a L _ _ i hi; simp at hi
  | cons x rest ih =>
    intro a L hchain hlast i hi
    rw [List.chain_cons] at hchain
    cases rest with
    | nil =>
      simp at hlast
      have : i = 0 := by simpa using hi
      subst this
      simp [hlast]
    | cons y r =>
      have hlast2 : (y :: r).getLast? = some L := by simpa [List.getLast?_cons_cons] using hlast
      have hrest := ih x L hchain.2 hlast2
      cases i with
      | zero =>
        have h0 := hrest 0 (by simp)
        have hxy : x < y := by
          have := hchain.2
          rw [List.chain_cons] at this
          exact this.1
        simp at h0 ⊢
        omega
      | succ k =>
        have hk : k < (y :: r).length := by simpa using hi
        simpa using hrest k hk

theorem stringWidthVectorRanges_get :
    ∀ (offsets : List Nat) (previous i : Nat), i < offsets.length →
      (stringWidthVectorRanges previous offsets).get? i =
        some ((match i with | 0 => previous | k + 1 => offsets.getD k 0), offsets.getD i 0 - 1) := by
  intro offsets
  induction offsets with
  | nil => intro p i hi; simp at hi
  | cons x rest ih =>
    intro p i hi
    cases i with
    | zero => simp [stringWidthVectorRanges]
    | succ k =>
      have hk : k < rest.length := by simpa using hi
      simp only [stringWidthVectorRanges, List.get?_cons_succ]
      rw [ih x k hk]
      cases k <;> simp

theorem uint64At_uint64_map (values : List Nat) (i : Nat) :
    (Column.uint64 (values.map Int.ofNat)).uint64At i = values.get? i := by
  simp only [Column.uint64At, List.get?_map]
  cases values.get? i <;> rfl

theorem byteRange_length (data : List UInt8) (b e : Nat) (h : e ≤ data.length) :
    (byteRange data (b, e)).length = e - b := by
  simp only [byteRange, List.length_take, List.length_drop]
  omega

/-! ## `execute` on a block -/

theorem execute_of_column_ok (env : Env) (block : Block) (position : Nat) (rest : List Nat)
    (result : Nat) (argument entry : ColumnWithTypeAndName) (column res : Column)
    (hp : block.get? position = some argument) (hc : argument.column = some column)
    (hr : block.get? result = some entry)
    (hres : FunctionVisibleWidth.executeColumn env true argument.type column = .ok res) :
    FunctionVisibleWidth.execute env block (position :: rest) result =
      .ok (block.set result { entry with column := some res }) := by
  have hlt : result < block.length := by
    rcases Nat.lt_or_ge result block.length with h | h
    · exact h
    · rw [List.get?_eq_none.mpr h] at hr; cases hr
  unfold FunctionVisibleWidth.execute
  simp only [hp, hc, hlt, decide_True, hres, hr]

theorem execute_of_column_error (env : Env) (block : Block) (position : Nat) (rest : List Nat)
    (result : Nat) (argument : ColumnWithTypeAndName) (column : Column) (e : Exception)
    (hp : block.get? position = some argument) (hc : argument.column = some column)
    (hres : FunctionVisibleWidth.executeColumn env (decide (result < block.length))
      argument.type column = .error e) :
    FunctionVisibleWidth.execute env block (position :: rest) result = .error e := by
  unfold FunctionVisibleWidth.execute
  simp only [hp, hc, hres]

/-- C7: for a dense String column whose offsets increase strictly from 0 and end at the
length of the data (one terminating byte per value), `execute` succeeds; row `i` is given
the width of the byte range `[offsets[i-1], offsets[i] - 1)`, which lies inside the data and
holds the value without its terminator, so the width is the value's byte length
`offsets[i] - 1 - offsets[i-1]`; the column holding `hello` gets width 5. -/
theorem string_row_width (env : Env) (chars : List UInt8) (offsets : List Nat) (i : Nat)
    (hinc : List.Chain (· < ·) 0 offsets) (hlast : offsets.getLast? = some chars.length)
    (hi : i < offsets.length) :
    ∃ res, FunctionVisibleWidth.executeColumn env true .String (.string chars offsets) = .ok res ∧
      (stringWidthVectorRanges 0 offsets).get? i =
        some (rowBegin offsets i, rowEnd offsets i - 1) ∧
      rowBegin offsets i ≤ rowEnd offsets i - 1 ∧ rowEnd offsets i - 1 < chars.length ∧
      byteRange chars (rowBegin offsets i, rowEnd offsets i - 1) =
        (chars.drop (rowBegin offsets i)).take (rowEnd offsets i - 1 - rowBegin offsets i) ∧
      res.uint64At i =
        some (stringWidth (byteRange chars (rowBegin offsets i, rowEnd offsets i - 1))) ∧
      res.uint64At i = some (rowEnd offsets i - 1 - rowBegin offsets i) ∧
      FunctionVisibleWidth.executeColumn env true .String
        (.string [104, 101, 108, 108, 111, 0] [6]) = .ok (Column.uint64 [5]) := by
  have hrange := stringWidthVectorRanges_get offsets 0 i hi
  rw [← rowBegin_eq] at hrange
  have hlt : rowBegin offsets i < rowEnd offsets i := by
    have := chain_rel_rows offsets 0 i hinc hi
    rw [← rowBegin_eq] at this
    exact this
  have hle : rowEnd offsets i ≤ chars.length := chain_lt_le_getLast offsets 0 _ hinc hlast i hi
  have hexec : FunctionVisibleWidth.executeColumn env true .String (.string chars offsets) =
      .ok (Column.uint64 ((stringWidthVector chars offsets).map Int.ofNat)) := by
    rw [executeColumn_string env true .String chars offsets (by simp) (by simp)]
    rfl
  have hrow : (Column.uint64 ((stringWidthVector chars offsets).map Int.ofNat)).uint64At i =
      some (stringWidth (byteRange chars (rowBegin offsets i, rowEnd offsets i - 1))) := by
    rw [uint64At_uint64_map]
    unfold stringWidthVector
    rw [List.get?_map, hrange]
    rfl
  have hlen := byteRange_length chars (rowBegin offsets i) (rowEnd offsets i - 1) (by omega)
  refine ⟨_, hexec, hrange, by omega, by omega, rfl, hrow, ?_, ?_⟩
  · rw [hrow]
    unfold stringWidth
    rw [hlen]
  · rw [executeColumn_string env true .String _ _ (by simp) (by simp)]
    rfl

/-- Witness of `string_row_width`: the column holding the two values `hello` and `hi`. -/
theorem string_row_width_witness :
    ∃ res, FunctionVisibleWidth.executeColumn exampleEnv true .String
        (.string [104, 101, 108, 108, 111, 0, 104, 105, 0] [6, 9]) = .ok res ∧
      (stringWidthVectorRanges 0 [6, 9]).get? 1 =
        some (rowBegin [6, 9] 1, rowEnd [6, 9] 1 - 1) ∧
      rowBegin [6, 9] 1 ≤ rowEnd [6, 9] 1 - 1 ∧
      rowEnd [6, 9] 1 - 1 < [104, 101, 108, 108, 111, 0, 104, 105, (0 : UInt8)].length ∧
      byteRange [104, 101, 108, 108, 111, 0, 104, 105, 0] (rowBegin [6, 9] 1, rowEnd [6, 9] 1 - 1) =
        (([104, 101, 108, 108, 111, 0, 104, 105, 0] : List UInt8).drop (rowBegin [6, 9] 1)).take
          (rowEnd [6, 9] 1 - 1 - rowBegin [6, 9] 1) ∧
      res.uint64At 1 = some (stringWidth
        (byteRange [104, 101, 108, 108, 111, 0, 104, 105, 0]
          (rowBegin [6, 9] 1, rowEnd [6, 9] 1 - 1))) ∧
      res.uint64At 1 = some (rowEnd [6, 9] 1 - 1 - rowBegin [6, 9] 1) ∧
      FunctionVisibleWidth.executeColumn exampleEnv true .String
        (.string [104, 101, 108, 108, 111, 0] [6]) = .ok (Column.uint64 [5]) :=
  string_row_width exampleEnv [104, 101, 108, 108, 111, 0, 104, 105, 0] [6, 9] 1
    (List.Chain.cons (by decide) (List.Chain.cons (by decide) List.Chain.nil)) rfl (by decide)

/-- C8, the code at the failing input: for a constant String column of any size `N` holding
any value, `execute` stores the constant column `(N, 0)` at the result position: the
result column is built while `res` is still `0`, and the width that `stringWidthConstant`
computes afterwards (5 for `hello`) is left in the local variable. -/
theorem constString_width_is_zero (env : Env) (block : Block) (position : Nat)
    (rest : List Nat) (result N : Nat) (s : List UInt8) (name : String)
    (entry : ColumnWithTypeAndName)
    (hp : block.get? position = some ⟨some (.constString N s), .String, name⟩)
    (hr : block.get? result = some entry) :
    FunctionVisibleWidth.execute env block (position :: rest) result =
      .ok (block.set result { entry with column := some (Column.constUInt64 N 0) }) ∧
    stringWidthConstant [104, 101, 108, 108, 111] = 5 := by
  refine ⟨?_, rfl⟩
  apply execute_of_column_ok env block position rest result _ entry _ _ hp rfl hr
  rw [executeColumn_constString env true .String N s (by simp) (by simp)]
  rfl

/-- Witness of `constString_width_is_zero`: the constant `hello` over three rows. -/
theorem constString_width_is_zero_witness :
    FunctionVisibleWidth.execute exampleEnv
        [⟨some (.constString 3 [104, 101, 108, 108, 111]), .String, "s"⟩,
          ⟨none, .number (.int .UInt64), "w"⟩] [0] 1 =
      .ok (List.set [⟨some (.constString 3 [104, 101, 108, 108, 111]), .String, "s"⟩,
          ⟨none, .number (.int .UInt64), "w"⟩] 1
        { (⟨none, .number (.int .UInt64), "w"⟩ : ColumnWithTypeAndName) with
          column := some (Column.constUInt64 3 0) }) ∧
    stringWidthConstant [104, 101, 108, 108, 111] = 5 :=
  constString_width_is_zero exampleEnv _ 0 [] 1 3 [104, 101, 108, 108, 111] "s" _ rfl rfl

/-- C9: for an argument of type `Date` (respectively `DateTime`), whatever the class and the
contents of its column, `execute` stores at the result position the constant column of the
argument's size with value 10 (respectively 19); no handler of the column class is
consulted. -/
theorem temporal_width_constant (env : Env) (block : Block) (position : Nat)
    (rest : List Nat) (result : Nat) (argument entry : ColumnWithTypeAndName) (column : Column)
    (hp : block.get? position = some argument) (hc : argument.column = some column)
    (hr : block.get? result = some entry) :
    (argument.type = .Date →
      FunctionVisibleWidth.execute env block (position :: rest) result =
        .ok (block.set result { entry with column := some (Column.constUInt64 column.size 10) })) ∧
    (argument.type = .DateTime →
      FunctionVisibleWidth.execute env block (position :: rest) result =
        .ok (block.set result { entry with column := some (Column.constUInt64 column.size 19) })) := by
  constructor
  · intro ht
    apply execute_of_column_ok env block position rest result argument entry column _ hp hc hr
    rw [ht]
    exact executeColumn_date env column
  · intro ht
    apply execute_of_column_ok env block position rest result argument entry column _ hp hc hr
    rw [ht]
    exact executeColumn_dateTime env column

/-- Witness of `temporal_width_constant`: a dense `UInt16` column of type `Date` with three
rows gets the constant column `(3, 10)`. -/
theorem temporal_width_constant_witness :
    FunctionVisibleWidth.execute exampleEnv
        [⟨some (.vector (.int .UInt16) [17000, 0, 65535]), .Date, "d"⟩,
          ⟨none, .number (.int .UInt64), "w"⟩] [0] 1 =
      .ok [⟨some (.vector (.int .UInt16) [17000, 0, 65535]), .Date, "d"⟩,
        ⟨some (Column.constUInt64 3 10), .number (.int .UInt64), "w"⟩] :=
  (temporal_width_constant exampleEnv
    [⟨some (.vector (.int .UInt16) [17000, 0, 65535]), .Date, "d"⟩,
      ⟨none, .number (.int .UInt64), "w"⟩] 0 [] 1
    ⟨some (.vector (.int .UInt16) [17000, 0, 65535]), .Date, "d"⟩
    ⟨none, .number (.int .UInt64), "w"⟩ (.vector (.int .UInt16) [17000, 0, 65535])
    rfl rfl rfl).1 rfl

/-! ## Rows of an array column -/

theorem uint64At_vector (data : List Int) (j n : Nat)
    (h : (Column.uint64 data).uint64At j = some n) : (data.getD j 0).toNat = n := by
  simp only [Column.uint64At] at h
  cases hg : data.get? j with
  | none => rw [hg] at h; cases h
  | some v =>
    rw [hg] at h
    cases v with
    | ofNat m =>
      simp only [Option.some.injEq] at h
      subst h
      rw [List.get?_eq_getElem?] at hg
      simp [hg]
    | negSucc m => cases h

theorem uint64At_const (size : Nat) (v : Int) (j n : Nat)
    (h : (Column.constUInt64 size v).uint64At j = some n) : v = Int.ofNat n ∧ j < size := by
  cases v with
  | ofNat m =>
    simp only [Column.uint64At] at h
    split at h
    · simp only [Option.some.injEq] at h
      subst h
      exact ⟨rfl, by assumption⟩
    · cases h
  | negSucc m => simp [Column.uint64At] at h

theorem isWidthColumn_cases (column : Column) (h : column.isWidthColumn = true) :
    (∃ data, column = Column.uint64 data) ∨ ∃ size v, column = Column.constUInt64 size v := by
  cases column with
  | vector T data =>
    cases T with
    | int T => cases T <;> first | exact Or.inl ⟨_, rfl⟩ | cases h
    | _ => cases h
  | const T size v =>
    cases T with
    | int T => cases T <;> first | exact Or.inr ⟨_, _, rfl⟩ | cases h
    | _ => cases h
  | _ => cases h

/-- The difference of two offsets in `size_t` arithmetic. -/
theorem sub_mod_wrap (e b : Nat) (hle : b ≤ e) (hlt : e - b < 2 ^ 64) :
    (e + 2 ^ 64 - b % 2 ^ 64) % 2 ^ 64 = e - b := by
  have h264 : (2 : Nat) ^ 64 = 18446744073709551616 := by norm_num
  rw [h264] at hlt ⊢
  omega

theorem arrayWidthsConst_get (L : Nat) :
    ∀ (offsets : List Nat) (previous : Option Nat) (i : Nat), i < offsets.length →
      (arrayWidthsConst L previous offsets).get? i =
        some (Int.ofNat ((1 + max 1
          ((match (match i with | 0 => previous | k + 1 => some (offsets.getD k 0)) with
            | none => offsets.getD i 0
            | some p => (offsets.getD i 0 + 2 ^ 64 - p % 2 ^ 64) % 2 ^ 64) * L % 2 ^ 64)) %
          2 ^ 64)) := by
  intro offsets
  induction offsets with
  | nil => intro p i hi; simp at hi
  | cons o rest ih =>
    intro p i hi
    cases i with
    | zero => simp [arrayWidthsConst]
    | succ k =>
      have hk : k < rest.length := by simpa using hi
      simp only [arrayWidthsConst, List.get?_cons_succ]
      rw [ih (some o) k hk]
      cases k <;> simp

theorem sum_map_range_const (c : Nat) : ∀ (k a : Nat),
    ((List.range' a k).map fun _ => c).sum = k * c := by
  intro k
  induction k with
  | zero => intro a; simp
  | succ n ih =>
    intro a
    rw [List.range'_succ, List.map_cons, List.sum_cons, ih]
    ring

theorem sum_map_range_ge (f : Nat → Nat) : ∀ (k a : Nat),
    k ≤ ((List.range' a k).map fun j => 1 + f j).sum := by
  intro k
  induction k with
  | zero => intro a; simp
  | succ n ih =>
    intro a
    rw [List.range'_succ, List.map_cons, List.sum_cons]
    have := ih (a + 1)
    omega

theorem map_range_congr (f g : Nat → Nat) (a k : Nat)
    (h : ∀ j, a ≤ j → j < a + k → f j = g j) :
    (List.range' a k).map f = (List.range' a k).map g := by
  apply List.map_congr_left
  intro j hj
  rw [List.mem_range'_1] at hj
  exact h j hj.1 hj.2

/-- Row `i` of the result of the array branch, for a nested result whose entries over the
elements of the row are `w`. -/
theorem executeArrayRows_row (offsets : List Nat) (nestedType : DataType) (nested : Column)
    (i : Nat) (w : Nat → Nat) (hkind : nested.isWidthColumn = true)
    (hmono : List.Chain (· ≤ ·) 0 offsets) (hi : i < offsets.length)
    (hw : ∀ j, rowBegin offsets i ≤ j → j < rowEnd offsets i → nested.uint64At j = some (w j))
    (hfit : 1 + ((List.range' (rowBegin offsets i) (rowEnd offsets i - rowBegin offsets i)).map
      fun j => 1 + (if nestedType.isQuoted then 2 else 0) + w j).sum < 2 ^ 64) :
    ∃ res, FunctionVisibleWidth.executeArrayRows true offsets nestedType nested = .ok res ∧
      res.uint64At i = some (if rowEnd offsets i = rowBegin offsets i then 2 else
        1 + ((List.range' (rowBegin offsets i) (rowEnd offsets i - rowBegin offsets i)).map
          fun j => 1 + (if nestedType.isQuoted then 2 else 0) + w j).sum) := by
  have hle : rowBegin offsets i ≤ rowEnd offsets i := by
    have := chain_rel_rows offsets 0 i hmono hi
    rw [← rowBegin_eq] at this
    exact this
  obtain ⟨q, hq⟩ : ∃ q, q = (if nestedType.isQuoted then 2 else 0) := ⟨_, rfl⟩
  rw [← hq] at hfit ⊢
  obtain ⟨b, hb⟩ : ∃ b, b = rowBegin offsets i := ⟨_, rfl⟩
  obtain ⟨e, he⟩ : ∃ e, e = rowEnd offsets i := ⟨_, rfl⟩
  rw [← hb, ← he] at hfit hw hle ⊢
  rcases isWidthColumn_cases nested hkind with ⟨data, rfl⟩ | ⟨size, v, rfl⟩
  · refine ⟨Column.uint64 (arrayWidthsVector q data 0 offsets), ?_, ?_⟩
    · simp only [FunctionVisibleWidth.executeArrayRows, checkResultPosition_true, ← hq]
      rfl
    · have hget := arrayWidthsVector_get q data offsets 0 i hmono hi
      rw [← rowBegin_eq, ← hb] at hget
      have he2 : offsets.getD i 0 = e := by rw [he]; rfl
      rw [he2] at hget
      simp only [Column.uint64At, hget]
      have hcongr : (List.range' b (e - b)).map
          (fun k => 1 + q + (data.getD k 0).toNat) =
          (List.range' b (e - b)).map (fun j => 1 + q + w j) := by
        apply map_range_congr
        intro j hj1 hj2
        rw [uint64At_vector data j (w j) (hw j hj1 (by omega))]
      by_cases hbe : b = e
      · subst hbe
        simp
      · have hne : ¬ e = b := fun h => hbe h.symm
        rw [if_neg hbe, if_neg hne]
        rw [foldl_add_mod (fun k => 1 + q + (data.getD k 0).toNat) (2 ^ 64) _ 1
          (by rw [hcongr]; exact hfit), hcongr]
  · refine ⟨Column.uint64 (arrayWidthsConst ((v.toNat + q + 1) % 2 ^ 64) none offsets), ?_, ?_⟩
    · simp only [FunctionVisibleWidth.executeArrayRows, checkResultPosition_true, ← hq]
      rfl
    · have hget := arrayWidthsConst_get ((v.toNat + q + 1) % 2 ^ 64) offsets none i hi
      have he2 : offsets.getD i 0 = e := by rw [he]; rfl
      simp only [Column.uint64At, hget, he2]
      have hk := sum_map_range_ge (fun j => q + w j) (e - b) b
      have hk' : e - b ≤ ((List.range' b (e - b)).map fun j => 1 + q + w j).sum := by
        have e1 : (fun j => 1 + (q + w j)) = (fun j => 1 + q + w j) := by
          funext j; omega
        rw [e1] at hk
        exact hk
      have hcount2 : (match (match i with | 0 => none | k + 1 => some (offsets.getD k 0)) with
          | none => e
          | some p => (e + 2 ^ 64 - p % 2 ^ 64) % 2 ^ 64) = e - b := by
        cases i with
        | zero =>
          have : b = 0 := hb
          simp [this]
        | succ k =>
          have : b = offsets.getD k 0 := hb
          simp only [← this]
          exact sub_mod_wrap e b hle (by omega)
      rw [hcount2]
      by_cases hbe : e = b
      · subst hbe
        simp
      · rw [if_neg hbe]
        have hlt : b < e := by omega
        obtain ⟨hv, -⟩ := uint64At_const size v b (w b) (hw b (le_refl b) hlt)
        have hconst : (List.range' b (e - b)).map (fun j => 1 + q + w j) =
            (List.range' b (e - b)).map (fun _ => 1 + q + w b) := by
          apply map_range_congr
          intro j hj1 hj2
          obtain ⟨hv2, -⟩ := uint64At_const size v j (w j) (hw j hj1 (by omega))
          have : Int.ofNat (w j) = Int.ofNat (w b) := by rw [← hv, ← hv2]
          have : w j = w b := Int.ofNat.inj this
          rw [this]
        rw [hconst, sum_map_range_const] at hfit ⊢
        have hvn : v.toNat = w b := by rw [hv]; rfl
        rw [hvn]
        obtain ⟨k, hk⟩ : ∃ k, k = e - b := ⟨_, rfl⟩
        rw [← hk] at hfit ⊢
        have hkpos : 1 ≤ k := by omega
        obtain ⟨c, hc⟩ : ∃ c, c = 1 + q + w b := ⟨_, rfl⟩
        rw [← hc] at hfit ⊢
        have hcc : w b + q + 1 = c := by omega
        rw [hcc]
        have hcpos : 1 ≤ c := by omega
        have hckc : c ≤ k * c := Nat.le_mul_of_pos_left c hkpos
        have hkc1 : 1 ≤ k * c := by omega
        rw [Nat.mod_eq_of_lt (show c < 2 ^ 64 by omega),
          Nat.mod_eq_of_lt (show k * c < 2 ^ 64 by omega), max_eq_right hkc1,
          Nat.mod_eq_of_lt hfit]

theorem numWidth_one (log10 : Double → Double) (hL : Log10Accurate log10) (T : IntType) :
    numWidthConstant log10 T 1 = 1 := by
  show doubleToUInt64 (doubleAdd (doubleOfNat 1) (log10 (doubleOfNat 1))) = 1
  rw [doubleOfNat_one]
  exact toUInt64_one_add_log10_one log10 hL

theorem numWidth_two (log10 : Double → Double) (hL : Log10Accurate log10) (T : IntType) :
    numWidthConstant log10 T 2 = 1 := by
  have := toUInt64_add_log10 log10 hL 2 1 0 1 4 1 2 (by norm_num) (by norm_num) (by norm_num)
    (by norm_num) (by norm_num) (by norm_num) (by norm_num) (by norm_num) (by norm_num)
  show doubleToUInt64 (doubleAdd (doubleOfNat 1) (log10 (doubleOfNat 2))) = 1
  rw [doubleOfNat_one, doubleOfNat_two]
  exact this

theorem numWidth_three (log10 : Double → Double) (hL : Log10Accurate log10) (T : IntType) :
    numWidthConstant log10 T 3 = 1 := by
  have e : doubleOfNat 3 = ⟨3 <<< 1074⟩ := by decide
  have := toUInt64_add_log10 log10 hL 3 1 0 1 3 1 2 (by norm_num) (by norm_num) (by norm_num)
    (by norm_num) (by norm_num) (by norm_num) (by norm_num) (by norm_num) (by norm_num)
  show doubleToUInt64 (doubleAdd (doubleOfNat 1) (log10 (doubleOfNat 3))) = 1
  rw [doubleOfNat_one, e]
  exact this

/-- The nested call of scenario C: the `UInt8` values 1, 2, 3 have width 1 each. -/
theorem executeColumn_uint8_123 (env : Env) (hL : Log10Accurate env.log10) :
    FunctionVisibleWidth.executeColumn env true (.number (.int .UInt8))
      (.vector (.int .UInt8) [1, 2, 3]) = .ok (Column.uint64 [1, 1, 1]) := by
  rw [executeColumn_vector env true (.number (.int .UInt8)) (.int .UInt8) [1, 2, 3] rfl]
  have h : numWidthVector env.log10 .UInt8 [1, 2, 3] =
      [numWidthConstant env.log10 .UInt8 1, numWidthConstant env.log10 .UInt8 2,
        numWidthConstant env.log10 .UInt8 3] := rfl
  show (checkResultPosition true).bind (fun _ =>
    (Except.pure (numWidthVector env.log10 .UInt8 [1, 2, 3])).bind fun res =>
      Except.pure (Column.uint64 (res.map Int.ofNat))) = _
  rw [h, numWidth_one _ hL, numWidth_two _ hL, numWidth_three _ hL]
  rfl

/-- C5: for an array column with non-decreasing offsets whose flattened child is processed
without error, and a row `i` whose elements (the indices from `offsets[i-1]` up to
`offsets[i]`) have nested widths `w j` with a sum that fits in 64 bits, `execute` succeeds
and row `i` of the result is 2 for an empty row and otherwise
`1 + sum of (1 + q + w j)`, with `q = 2` for a quoted element type and `q = 0` otherwise;
a non-empty row of `k` unquoted elements of one width `c` gets `1 + k * (c + 1)`, and with an
accurate `log10` the array `[1,2,3]` of `UInt8` gets 7. -/
theorem array_row_width (env : Env) (nestedType : DataType) (data : Column)
    (offsets : List Nat) (nested : Column) (i : Nat) (w : Nat → Nat)
    (hnested : FunctionVisibleWidth.executeColumn env true nestedType data = .ok nested)
    (hmono : List.Chain (· ≤ ·) 0 offsets) (hi : i < offsets.length)
    (hw : ∀ j, rowBegin offsets i ≤ j → j < rowEnd offsets i → nested.uint64At j = some (w j))
    (hfit : 1 + ((List.range' (rowBegin offsets i) (rowEnd offsets i - rowBegin offsets i)).map
      fun j => 1 + (if nestedType.isQuoted then 2 else 0) + w j).sum < 2 ^ 64) :
    ∃ res, FunctionVisibleWidth.executeColumn env true (.Array nestedType)
        (.array data offsets) = .ok res ∧
      res.uint64At i = some (if rowEnd offsets i = rowBegin offsets i then 2 else
        1 + ((List.range' (rowBegin offsets i) (rowEnd offsets i - rowBegin offsets i)).map
          fun j => 1 + (if nestedType.isQuoted then 2 else 0) + w j).sum) ∧
      (∀ c, nestedType.isQuoted = false → rowBegin offsets i < rowEnd offsets i →
        (∀ j, rowBegin offsets i ≤ j → j < rowEnd offsets i → w j = c) →
        res.uint64At i = some (1 + (rowEnd offsets i - rowBegin offsets i) * (c + 1))) ∧
      (Log10Accurate env.log10 →
        FunctionVisibleWidth.executeColumn env true (.Array (.number (.int .UInt8)))
          (.array (.vector (.int .UInt8) [1, 2, 3]) [3]) = .ok (Column.uint64 [7])) := by
  obtain ⟨res, hres, hrow⟩ := executeArrayRows_row offsets nestedType nested i w
    (executeColumn_isWidthColumn env true nestedType data nested hnested) hmono hi hw hfit
  refine ⟨res, ?_, hrow, ?_, ?_⟩
  · rw [executeColumn_array, hnested]
    exact hres
  · intro c hq hlt hc
    rw [hrow, if_neg (by omega)]
    have hconst : (List.range' (rowBegin offsets i) (rowEnd offsets i - rowBegin offsets i)).map
        (fun j => 1 + (if nestedType.isQuoted then 2 else 0) + w j) =
        (List.range' (rowBegin offsets i) (rowEnd offsets i - rowBegin offsets i)).map
          (fun _ => c + 1) := by
      apply map_range_congr
      intro j hj1 hj2
      rw [hc j hj1 (by omega), hq]
      simp only [Bool.false_eq_true, if_false]
      omega
    rw [hconst, sum_map_range_const]
  · intro hL
    rw [executeColumn_array, executeColumn_uint8_123 env hL]
    rfl

/-- Witness of `array_row_width`: scenario C, the single row `[1,2,3]` of `UInt8`. -/
theorem array_row_width_witness :
    ∃ res, FunctionVisibleWidth.executeColumn exampleEnv true (.Array (.number (.int .UInt8)))
        (.array (.vector (.int .UInt8) [1, 2, 3]) [3]) = .ok res ∧
      res.uint64At 0 = some (if rowEnd [3] 0 = rowBegin [3] 0 then 2 else
        1 + ((List.range' (rowBegin [3] 0) (rowEnd [3] 0 - rowBegin [3] 0)).map
          fun j => 1 + (if (DataType.number (.int .UInt8)).isQuoted then 2 else 0) +
            (fun _ => 1) j).sum) ∧
      (∀ c, (DataType.number (.int .UInt8)).isQuoted = false → rowBegin [3] 0 < rowEnd [3] 0 →
        (∀ j, rowBegin [3] 0 ≤ j → j < rowEnd [3] 0 → (fun _ => 1) j = c) →
        res.uint64At 0 = some (1 + (rowEnd [3] 0 - rowBegin [3] 0) * (c + 1))) ∧
      (Log10Accurate exampleEnv.log10 →
        FunctionVisibleWidth.executeColumn exampleEnv true (.Array (.number (.int .UInt8)))
          (.array (.vector (.int .UInt8) [1, 2, 3]) [3]) = .ok (Column.uint64 [7])) :=
  array_row_width exampleEnv (.number (.int .UInt8)) (.vector (.int .UInt8) [1, 2, 3]) [3]
    (Column.uint64 [1, 1, 1]) 0 (fun _ => 1)
    (executeColumn_uint8_123 exampleEnv log10Approx_accurate)
    (List.Chain.cons (by decide) List.Chain.nil) (by decide)
    (fun j _ hj => by
      have hj3 : j < 3 := hj
      have h3 : j = 0 ∨ j = 1 ∨ j = 2 := by omega
      rcases h3 with h | h | h <;> subst h <;> rfl)
    (by decide)

/-! ## Rows of a tuple column -/

theorem uint64At_eq_some (column : Column) (r n : Nat) (h : column.uint64At r = some n) :
    (∃ data, column = Column.uint64 data ∧ data.get? r = some (Int.ofNat n)) ∨
      ∃ size, column = Column.constUInt64 size (Int.ofNat n) ∧ r < size := by
  have hk : column.isWidthColumn = true := by
    cases column with
    | vector T data =>
      cases T with
      | int T => cases T <;> first | rfl | (simp [Column.uint64At] at h)
      | _ => simp [Column.uint64At] at h
    | const T size v =>
      cases T with
      | int T => cases T <;> first | rfl | (simp [Column.uint64At] at h)
      | _ => simp [Column.uint64At] at h
    | _ => simp [Column.uint64At] at h
  rcases isWidthColumn_cases column hk with ⟨data, rfl⟩ | ⟨size, v, rfl⟩
  · left
    refine ⟨data, rfl, ?_⟩
    simp only [Column.uint64At] at h
    cases hg : data.get? r with
    | none => rw [hg] at h; cases h
    | some v =>
      rw [hg] at h
      cases v with
      | ofNat m =>
        simp only [Option.some.injEq] at h
        rw [h]
      | negSucc m => cases h
  · right
    obtain ⟨hv, hr⟩ := uint64At_const size v r n h
    exact ⟨size, by rw [hv], hr⟩

theorem uint64At_uint64_of_get (data : List Int) (r n : Nat)
    (h : data.get? r = some (Int.ofNat n)) : (Column.uint64 data).uint64At r = some n := by
  simp only [Column.uint64At, h]

theorem uint64At_const_of_lt (size r n : Nat) (h : r < size) :
    (Column.constUInt64 size (Int.ofNat n)).uint64At r = some n := by
  simp only [Column.uint64At, h, if_true]

theorem ofNat_add_emod (x y : Nat) (h : x + y < 2 ^ 64) :
    (Int.ofNat x + Int.ofNat y) % 2 ^ 64 = Int.ofNat (x + y) := by
  have h1 : (Int.ofNat x + Int.ofNat y) = Int.ofNat (x + y) := rfl
  rw [h1]
  apply Int.emod_eq_of_lt
  · exact Int.ofNat_nonneg _
  · have : ((x + y : Nat) : Int) < ((2 ^ 64 : Nat) : Int) := by exact_mod_cast h
    simpa using this

/-- Row `r` of the sum column `FunctionPlus` leaves. -/
theorem plusUInt64_row (a b : Column) (r x y : Nat) (ha : a.uint64At r = some x)
    (hb : b.uint64At r = some y) (hfit : x + y < 2 ^ 64) :
    ∃ s, plusUInt64 a b = .ok s ∧ s.uint64At r = some (x + y) := by
  rcases uint64At_eq_some a r x ha with ⟨xs, rfl, hx⟩ | ⟨sa, rfl, hx⟩ <;>
    rcases uint64At_eq_some b r y hb with ⟨ys, rfl, hy⟩ | ⟨sb, rfl, hy⟩
  · refine ⟨_, rfl, ?_⟩
    apply uint64At_uint64_of_get
    rw [List.get?_eq_getElem?] at hx hy ⊢
    rw [List.getElem?_zipWith, hx, hy]
    simp only [Option.map_some', Option.bind_some]
    rw [ofNat_add_emod x y hfit]
  · refine ⟨_, rfl, ?_⟩
    apply uint64At_uint64_of_get
    rw [List.get?_eq_getElem?] at hx ⊢
    rw [List.getElem?_map, hx]
    simp only [Option.map_some']
    rw [ofNat_add_emod x y hfit]
  · refine ⟨_, rfl, ?_⟩
    apply uint64At_uint64_of_get
    rw [List.get?_eq_getElem?] at hy ⊢
    rw [List.getElem?_map, hy]
    simp only [Option.map_some']
    rw [ofNat_add_emod x y hfit]
  · refine ⟨_, rfl, ?_⟩
    show (Column.constUInt64 sa ((Int.ofNat x + Int.ofNat y) % 2 ^ 64)).uint64At r = _
    rw [ofNat_add_emod x y hfit]
    exact uint64At_const_of_lt sa r (x + y) hx

/-- Row `r` of the folded column after the surcharge was added. -/
theorem addTupleSurcharge_row (rows additionalSymbols : Nat) (folded : Column) (r x : Nat)
    (hf : folded.uint64At r = some x) (hr : r < rows)
    (hfit : x + (2 + additionalSymbols) < 2 ^ 64) :
    ∃ res, addTupleSurcharge rows additionalSymbols folded = .ok res ∧
      res.uint64At r = some (x + (2 + additionalSymbols)) := by
  rcases uint64At_eq_some folded r x hf with ⟨xs, rfl, hx⟩ | ⟨size, rfl, hx⟩
  · refine ⟨_, rfl, ?_⟩
    apply uint64At_uint64_of_get
    rw [List.get?_eq_getElem?] at hx ⊢
    rw [List.getElem?_map, List.getElem?_enum, hx]
    simp only [Option.map_some', hr, if_true]
    rw [ofNat_add_emod x _ hfit]
  · refine ⟨_, rfl, ?_⟩
    have hs : size ≠ 0 := by omega
    show (Column.constUInt64 size (if size ≠ 0 then
      (Int.ofNat x + Int.ofNat (2 + additionalSymbols)) % 2 ^ 64 else Int.ofNat x)).uint64At r = _
    rw [if_pos hs, ofNat_add_emod x _ hfit]
    exact uint64At_const_of_lt size r _ hx

theorem executeTupleElements_cons_ok (env : Env) (elems : List DataType) (i : Nat)
    (folded : Option Column) (column : Column) (rest : List Column) (t : DataType)
    (wc : Column) (ht : elems.get? i = some t)
    (hwc : FunctionVisibleWidth.executeColumn env true t column = .ok wc) :
    FunctionVisibleWidth.executeTupleElements env (some elems) i folded (column :: rest) =
      (match folded with
        | none => Except.ok wc
        | some previous => plusUInt64 previous wc).bind fun sum =>
          FunctionVisibleWidth.executeTupleElements env (some elems) (i + 1) (some sum) rest := by
  rw [executeTupleElements_cons]
  show (match elems.get? i with
    | none => _
    | some elementType => _) = _
  rw [ht]
  show Except.bind (FunctionVisibleWidth.executeColumn env true t column) _ = _
  rw [hwc]
  rfl

/-- The loop over the elements of a tuple from index `i` on: `acc` is row `r` of the sum
folded so far. -/
theorem executeTupleElements_row (env : Env) (elems : List DataType) (r : Nat)
    (w : Nat → Nat) :
    ∀ (rest : List Column) (i : Nat) (folded : Option Column) (acc : Nat),
      (∀ p c, rest.get? p = some c → ∃ t wc, elems.get? (i + p) = some t ∧
        FunctionVisibleWidth.executeColumn env true t c = .ok wc ∧
        wc.uint64At r = some (w (i + p))) →
      (folded = none ∧ acc = 0 ∨ ∃ f, folded = some f ∧ f.uint64At r = some acc) →
      acc + ((List.range' i rest.length).map w).sum < 2 ^ 64 →
      (folded = none → rest ≠ []) →
      ∃ f, FunctionVisibleWidth.executeTupleElements env (some elems) i folded rest =
          .ok (some f) ∧
        f.uint64At r = some (acc + ((List.range' i rest.length).map w).sum) := by
  intro rest
  induction rest with
  | nil =>
    intro i folded acc _ hfold _ hne
    rcases hfold with ⟨h, _⟩ | ⟨f, hf, hrow⟩
    · exact absurd rfl (hne h)
    · refine ⟨f, ?_, ?_⟩
      · rw [executeTupleElements_nil, hf]
      · simpa using hrow
  | cons column rest ih =>
    intro i folded acc hexec hfold hfit _
    obtain ⟨t, wc, ht, hwc, hrow⟩ := hexec 0 column rfl
    rw [Nat.add_zero] at ht hrow
    simp only [List.length_cons, List.range'_succ, List.map_cons, List.sum_cons] at hfit ⊢
    have hrest : ∀ p c, rest.get? p = some c → ∃ t wc, elems.get? (i + 1 + p) = some t ∧
        FunctionVisibleWidth.executeColumn env true t c = .ok wc ∧
        wc.uint64At r = some (w (i + 1 + p)) := by
      intro p c hp
      have := hexec (p + 1) c (by simpa using hp)
      have e : i + (p + 1) = i + 1 + p := by omega
      rw [e] at this
      exact this
    rw [executeTupleElements_cons_ok env elems i folded column rest t wc ht hwc]
    rcases hfold with ⟨hnone, hacc⟩ | ⟨f, hf, hfrow⟩
    · subst hnone
      subst hacc
      obtain ⟨out, hout, houtrow⟩ := ih (i + 1) (some wc) (w i) hrest
        (Or.inr ⟨wc, rfl, hrow⟩) (by omega) (by simp)
      refine ⟨out, ?_, by rw [houtrow]; congr 1; omega⟩
      show FunctionVisibleWidth.executeTupleElements env (some elems) (i + 1) (some wc) rest = _
      exact hout
    · subst hf
      obtain ⟨s, hs, hsrow⟩ := plusUInt64_row f wc r acc (w i) hfrow hrow (by omega)
      obtain ⟨out, hout, houtrow⟩ := ih (i + 1) (some s) (acc + w i) hrest
        (Or.inr ⟨s, rfl, hsrow⟩) (by omega) (by simp)
      refine ⟨out, ?_, by rw [houtrow]; congr 1; omega⟩
      show Except.bind (plusUInt64 f wc) _ = _
      rw [hs]
      exact hout

theorem executeTupleSurcharge_some (rows : Nat) (elems : List DataType) (columns : Nat)
    (folded : Column) :
    FunctionVisibleWidth.executeTupleSurcharge true rows (some elems) columns (some folded) =
      addTupleSurcharge rows (tupleAdditionalSymbols elems columns) folded := by
  show (addTupleSurcharge rows (tupleAdditionalSymbols elems columns) folded).bind
    (fun res => (checkResultPosition true).bind fun _ => Except.pure res) = _
  cases addTupleSurcharge rows (tupleAdditionalSymbols elems columns) folded <;> rfl

/-- C6: for a tuple column with `n >= 1` element columns and as many element types, a row `r`
of the column, and element widths `w p` at row `r` (row `r` of the column `execute` produces
for element `p`) whose total fits in 64 bits, `execute` succeeds and row `r` of the result is
the sum of the `w p` plus `2 + (n - 1)` plus 2 for every quoted element type, whichever of
the element results are dense or constant; for `n = 1` the result is the width column of the
single element with the surcharge added, and no addition of columns is made. -/
theorem tuple_row_width (env : Env) (elems : List DataType) (columns : List Column) (r : Nat)
    (w : Nat → Nat) (hlen : elems.length = columns.length) (hn : 1 ≤ columns.length)
    (hr : r < (Column.tuple columns).size)
    (hexec : ∀ p c, columns.get? p = some c → ∃ t wc, elems.get? p = some t ∧
      FunctionVisibleWidth.executeColumn env true t c = .ok wc ∧ wc.uint64At r = some (w p))
    (hfit : ((List.range columns.length).map w).sum + 2 + (columns.length - 1) +
      2 * (elems.filter DataType.isQuoted).length < 2 ^ 64) :
    (∃ res, FunctionVisibleWidth.executeColumn env true (.Tuple elems) (.tuple columns) =
        .ok res ∧
      res.uint64At r = some (((List.range columns.length).map w).sum + 2 +
        (columns.length - 1) + 2 * (elems.filter DataType.isQuoted).length)) ∧
    (∀ t c wc, elems = [t] → columns = [c] →
      FunctionVisibleWidth.executeColumn env true t c = .ok wc →
      FunctionVisibleWidth.executeColumn env true (.Tuple elems) (.tuple columns) =
        addTupleSurcharge c.size (if t.isQuoted then 2 else 0) wc) := by
  constructor
  · have hloop := executeTupleElements_row env elems r w columns 0 none 0
      (by
        intro p c hp
        obtain ⟨t, wc, h1, h2, h3⟩ := hexec p c hp
        exact ⟨t, wc, by rw [Nat.zero_add]; exact h1, h2, by rw [Nat.zero_add]; exact h3⟩)
      (Or.inl ⟨rfl, rfl⟩)
      (by rw [← List.range_eq_range']; omega)
      (by
        intro _ h
        rw [h] at hn
        exact absurd hn (by decide))
    obtain ⟨f, hf, hfrow⟩ := hloop
    rw [← List.range_eq_range', Nat.zero_add] at hfrow
    have hsym : tupleAdditionalSymbols elems columns.length =
        (columns.length - 1) + 2 * (elems.filter DataType.isQuoted).length := by
      unfold tupleAdditionalSymbols
      rw [List.take_of_length_le (by omega)]
    obtain ⟨res, hres, hrow⟩ := addTupleSurcharge_row (Column.tuple columns).size
      (tupleAdditionalSymbols elems columns.length) f r _ hfrow hr (by rw [hsym]; omega)
    refine ⟨res, ?_, ?_⟩
    · rw [executeColumn_tuple, hf]
      show FunctionVisibleWidth.executeTupleSurcharge true _ (some elems) _ (some f) = _
      rw [executeTupleSurcharge_some]
      exact hres
    · rw [hrow, hsym]
      congr 1
      omega
  · intro t c wc he hc hwc
    subst he
    subst hc
    rw [executeColumn_tuple, executeTupleElements_cons_ok env [t] 0 none c [] t wc rfl hwc]
    show (FunctionVisibleWidth.executeTupleElements env (some [t]) 1 (some wc) []).bind _ = _
    rw [executeTupleElements_nil]
    show FunctionVisibleWidth.executeTupleSurcharge true _ (some [t]) _ (some wc) = _
    rw [executeTupleSurcharge_some]
    have hsym : tupleAdditionalSymbols [t] [c].length = if t.isQuoted then 2 else 0 := by
      unfold tupleAdditionalSymbols
      cases hq : t.isQuoted <;> simp [hq]
    rw [hsym]
    rfl

/-- Witness of `tuple_row_width`: the second row of a tuple column of type
`Tuple(Date, String)`, a constant width 10 added to the dense width of `c`. -/
theorem tuple_row_width_witness :
    (∃ res, FunctionVisibleWidth.executeColumn exampleEnv true (.Tuple [.Date, .String])
        (.tuple [.vector (.int .UInt16) [1, 2], .string [97, 98, 0, 99, 0] [3, 5]]) = .ok res ∧
      res.uint64At 1 = some (((List.range
        [Column.vector (.int .UInt16) [1, 2], .string [97, 98, 0, 99, 0] [3, 5]].length).map
          (fun p => if p = 0 then 10 else 1)).sum + 2 +
        ([Column.vector (.int .UInt16) [1, 2], .string [97, 98, 0, 99, 0] [3, 5]].length - 1) +
        2 * ([DataType.Date, .String].filter DataType.isQuoted).length)) ∧
    (∀ t c wc, [DataType.Date, .String] = [t] →
      [Column.vector (.int .UInt16) [1, 2], .string [97, 98, 0, 99, 0] [3, 5]] = [c] →
      FunctionVisibleWidth.executeColumn exampleEnv true t c = .ok wc →
      FunctionVisibleWidth.executeColumn exampleEnv true (.Tuple [.Date, .String])
        (.tuple [.vector (.int .UInt16) [1, 2], .string [97, 98, 0, 99, 0] [3, 5]]) =
        addTupleSurcharge c.size (if t.isQuoted then 2 else 0) wc) :=
  tuple_row_width exampleEnv [.Date, .String]
    [.vector (.int .UInt16) [1, 2], .string [97, 98, 0, 99, 0] [3, 5]] 1
    (fun p => if p = 0 then 10 else 1) rfl (by decide) (by decide)
    (fun p c hp => by
      rcases p with _ | _ | p
      · simp only [List.get?_cons_zero, Option.some.injEq] at hp
        subst hp
        exact ⟨.Date, Column.constUInt64 2 10, rfl, executeColumn_date _ _, rfl⟩
      · simp only [List.get?_cons_succ, List.get?_cons_zero, Option.some.injEq] at hp
        subst hp
        refine ⟨.String, Column.uint64 [2, 1], rfl, ?_, rfl⟩
        rw [executeColumn_string exampleEnv true .String _ _ (by simp) (by simp)]
        rfl
      · simp at hp)
    (by decide)

/-! ## The `ILLEGAL_COLUMN` error -/

theorem except_pure_ne_error {ε α : Type} (a : α) (e : ε) :
    (Except.pure a : Except ε α) = .error e ↔ False := by
  simp [Except.pure]

theorem mapM_error_of {α β : Type} (f : α → Except Exception β) (P : Exception → Prop)
    (hf : ∀ x e, f x = .error e → P e) :
    ∀ (l : List α) (e : Exception), l.mapM f = .error e → P e := by
  intro l
  induction l with
  | nil =>
    intro e h
    rw [List.mapM_nil] at h
    cases h
  | cons a l ih =>
    intro e h
    rw [List.mapM_cons] at h
    simp only [bind, pure, except_bind_eq_error, except_pure_ne_error, and_false, exists_false,
      or_false] at h
    rcases h with h | ⟨_, _, h⟩
    · exact hf a e h
    · exact ih e h

theorem checkResultPosition_not_illegal (resultValid : Bool) (e : Exception)
    (h : checkResultPosition resultValid = .error e) : e.code ≠ .ILLEGAL_COLUMN := by
  rw [checkResultPosition_code resultValid e h]
  decide

theorem getNameForValue_not_illegal (values : List (List UInt8 × Int)) (value : Int)
    (e : Exception) (h : getNameForValue values value = .error e) :
    e.code ≠ .ILLEGAL_COLUMN := by
  unfold getNameForValue at h
  split at h
  · cases h
  · cases h
    decide

theorem floatWidth_not_illegal (env : Env) (x : Int) (e : Exception)
    (h : floatWidth env x = .error e) : e.code ≠ .ILLEGAL_COLUMN := by
  unfold floatWidth at h
  split at h
  · cases h
    decide
  · cases h

theorem floatWidthSingle_not_illegal (env : Env) (x : Int) (e : Exception)
    (h : floatWidthSingle env x = .error e) : e.code ≠ .ILLEGAL_COLUMN := by
  unfold floatWidthSingle at h
  split at h
  · cases h
    decide
  · cases h

theorem executeEnum_not_illegal (kind : EnumKind) (resultValid : Bool) (type : DataType)
    (column : Column) (e : Exception)
    (h : VisibleWidth.executeEnum kind resultValid type column = some (.error e)) :
    e.code ≠ .ILLEGAL_COLUMN := by
  unfold VisibleWidth.executeEnum at h
  split at h
  · cases h
  · rename_i values _
    split at h
    · split at h
      · simp only [Option.some.injEq, bind, pure, except_bind_eq_error, except_pure_ne_error,
          and_false, exists_false, or_false] at h
        rcases h with h | ⟨_, _, h⟩
        · exact checkResultPosition_not_illegal _ _ h
        · refine mapM_error_of _ (fun e => e.code ≠ .ILLEGAL_COLUMN) ?_ _ e h
          intro x e' hx
          simp only [bind, pure, except_bind_eq_error, except_pure_ne_error,
            and_false, exists_false, or_false] at hx
          exact getNameForValue_not_illegal _ _ _ hx
      · cases h
    · split at h
      · simp only [Option.some.injEq, bind, pure, except_bind_eq_error, except_pure_ne_error,
          and_false, exists_false, or_false] at h
        rcases h with h | ⟨_, _, h⟩
        · exact getNameForValue_not_illegal _ _ _ h
        · exact checkResultPosition_not_illegal _ _ h
      · cases h
    · cases h

theorem executeByType_not_illegal (resultValid : Bool) (type : DataType)
    (column : Column) (e : Exception)
    (h : FunctionVisibleWidth.executeByType resultValid type column = some (.error e)) :
    e.code ≠ .ILLEGAL_COLUMN := by
  unfold FunctionVisibleWidth.executeByType at h
  split at h
  · simp only [Option.some.injEq, bind, pure, except_bind_eq_error, except_pure_ne_error,
      and_false, exists_false, or_false] at h
    exact checkResultPosition_not_illegal _ _ h
  · simp only [Option.some.injEq, bind, pure, except_bind_eq_error, except_pure_ne_error,
      and_false, exists_false, or_false] at h
    exact checkResultPosition_not_illegal _ _ h
  · unfold VisibleWidth.executeEnums at h
    split at h
    · rename_i h8
      simp only [Option.some.injEq] at h
      subst h
      exact executeEnum_not_illegal _ _ _ _ _ h8
    · exact executeEnum_not_illegal _ _ _ _ _ h

theorem executeConstNumber_not_illegal (env : Env) (resultValid : Bool) (T : NumType)
    (size : Nat) (data : Int) (e : Exception)
    (h : VisibleWidth.executeConstNumber env resultValid T size data = .error e) :
    e.code ≠ .ILLEGAL_COLUMN := by
  unfold VisibleWidth.executeConstNumber at h
  cases T <;>
    simp only [bind, pure, except_bind_eq_error, except_pure_ne_error, except_pure_eq_ok,
      and_false, exists_false, or_false, false_or] at h
  · obtain ⟨_, _, h⟩ := h
    exact checkResultPosition_not_illegal _ _ h
  · rcases h with h | ⟨_, _, h⟩
    · exact floatWidthSingle_not_illegal _ _ _ h
    · exact checkResultPosition_not_illegal _ _ h
  · rcases h with h | ⟨_, _, h⟩
    · exact floatWidth_not_illegal _ _ _ h
    · exact checkResultPosition_not_illegal _ _ h

theorem executeNumber_not_illegal (env : Env) (resultValid : Bool) (T : NumType)
    (data : List Int) (e : Exception)
    (h : VisibleWidth.executeNumber env resultValid T data = .error e) :
    e.code ≠ .ILLEGAL_COLUMN := by
  unfold VisibleWidth.executeNumber at h
  cases T <;>
    simp only [bind, pure, except_bind_eq_error, except_pure_ne_error, except_pure_eq_ok,
      and_false, exists_false, or_false, false_or] at h
  · exact checkResultPosition_not_illegal _ _ h
  · rcases h with h | ⟨_, _, h⟩
    · exact checkResultPosition_not_illegal _ _ h
    · exact mapM_error_of _ (fun e => e.code ≠ .ILLEGAL_COLUMN)
        (floatWidthSingle_not_illegal env) _ e h
  · rcases h with h | ⟨_, _, h⟩
    · exact checkResultPosition_not_illegal _ _ h
    · exact mapM_error_of _ (fun e => e.code ≠ .ILLEGAL_COLUMN)
        (floatWidth_not_illegal env) _ e h

theorem executeArrayRows_not_illegal (resultValid : Bool) (offsets : List Nat)
    (nestedType : DataType) (nestedResult : Column) (e : Exception)
    (h : FunctionVisibleWidth.executeArrayRows resultValid offsets nestedType nestedResult =
      .error e) : e.code ≠ .ILLEGAL_COLUMN := by
  unfold FunctionVisibleWidth.executeArrayRows at h
  simp only [bind, pure, except_bind_eq_error] at h
  rcases h with h | ⟨_, _, h⟩
  · exact checkResultPosition_not_illegal _ _ h
  · split at h
    · cases h
    · cases h
    · cases h
      decide

theorem addTupleSurcharge_not_illegal (rows additionalSymbols : Nat) (column : Column)
    (e : Exception) (h : addTupleSurcharge rows additionalSymbols column = .error e) :
    e.code ≠ .ILLEGAL_COLUMN := by
  unfold addTupleSurcharge at h
  split at h
  · cases h
  · cases h
    decide
  · cases h
  · cases h
    decide

theorem executeTupleSurcharge_not_illegal (resultValid : Bool) (rows : Nat)
    (elems : Option (List DataType)) (columns : Nat) (folded : Option Column) (e : Exception)
    (h : FunctionVisibleWidth.executeTupleSurcharge resultValid rows elems columns folded =
      .error e) : e.code ≠ .ILLEGAL_COLUMN := by
  unfold FunctionVisibleWidth.executeTupleSurcharge at h
  split at h
  · simp only [bind, pure, except_bind_eq_error, except_pure_ne_error,
      and_false, exists_false, or_false] at h
    rcases h with h | ⟨_, _, h⟩
    · exact addTupleSurcharge_not_illegal _ _ _ _ h
    · exact checkResultPosition_not_illegal _ _ h
  · cases h
    decide

/-- `FunctionPlus` accepts two width columns and gives a width column. -/
theorem plusUInt64_isWidthColumn (a b : Column) (ha : a.isWidthColumn = true)
    (hb : b.isWidthColumn = true) :
    ∃ s, plusUInt64 a b = .ok s ∧ s.isWidthColumn = true := by
  rcases isWidthColumn_cases a ha with ⟨xs, rfl⟩ | ⟨sa, x, rfl⟩ <;>
    rcases isWidthColumn_cases b hb with ⟨ys, rfl⟩ | ⟨sb, y, rfl⟩ <;>
    exact ⟨_, rfl, rfl⟩

theorem executeByType_none_ne (resultValid : Bool) (type : DataType) (column : Column)
    (h : FunctionVisibleWidth.executeByType resultValid type column = none) :
    type ≠ .Date ∧ type ≠ .DateTime := by
  constructor <;>
    (intro h'; subst h'; simp [FunctionVisibleWidth.executeByType] at h)

theorem arrayNested_eq_some (type nested : DataType) (h : type.arrayNested = some nested) :
    type = .Array nested := by
  cases type with
  | Array n =>
    simp only [DataType.arrayNested, Option.some.injEq] at h
    rw [h]
  | _ => simp [DataType.arrayNested] at h

theorem tupleElements_eq_some (type : DataType) (elems : List DataType)
    (h : type.tupleElements = some elems) : type = .Tuple elems := by
  cases type with
  | Tuple es =>
    simp only [DataType.tupleElements, Option.some.injEq] at h
    rw [h]
  | _ => simp [DataType.tupleElements] at h

/-- The loop of the tuple branch fails with the error of element `k` when the elements
before it were processed. -/
theorem executeTupleElements_error_at (env : Env) (elems : List DataType) (e : Exception) :
    ∀ (rest : List Column) (i0 : Nat) (folded : Option Column) (k : Nat)
      (elementType : DataType) (element : Column),
      (∀ f, folded = some f → f.isWidthColumn = true) →
      rest.get? k = some element → elems.get? (i0 + k) = some elementType →
      (∀ j, j < k → ∃ t c res, elems.get? (i0 + j) = some t ∧ rest.get? j = some c ∧
        FunctionVisibleWidth.executeColumn env true t c = .ok res) →
      FunctionVisibleWidth.executeColumn env true elementType element = .error e →
      FunctionVisibleWidth.executeTupleElements env (some elems) i0 folded rest = .error e := by
  intro rest
  induction rest with
  | nil => intro i0 folded k elementType element _ hk; simp at hk
  | cons column rest ih =>
    intro i0 folded k elementType element hfold hk ht hprev herr
    cases k with
    | zero =>
      simp only [List.get?_cons_zero, Option.some.injEq] at hk
      subst hk
      rw [Nat.add_zero] at ht
      rw [executeTupleElements_cons]
      show (match elems.get? i0 with
        | none => _
        | some elementType => _) = _
      rw [ht]
      show Except.bind (FunctionVisibleWidth.executeColumn env true elementType column) _ = _
      rw [herr]
      rfl
    | succ k =>
      obtain ⟨t, c, res, ht0, hc0, hres⟩ := hprev 0 (Nat.succ_pos k)
      rw [Nat.add_zero] at ht0
      simp only [List.get?_cons_zero, Option.some.injEq] at hc0
      subst hc0
      have hreswidth := executeColumn_isWidthColumn env true t column res hres
      rw [executeTupleElements_cons_ok env elems i0 folded column rest t res ht0 hres]
      have hk' : rest.get? k = some element := by simpa using hk
      have ht' : elems.get? (i0 + 1 + k) = some elementType := by
        have e1 : i0 + 1 + k = i0 + (k + 1) := by omega
        rw [e1]; exact ht
      have hprev' : ∀ j, j < k → ∃ t c res, elems.get? (i0 + 1 + j) = some t ∧
          rest.get? j = some c ∧ FunctionVisibleWidth.executeColumn env true t c = .ok res := by
        intro j hj
        obtain ⟨t, c, res, h1, h2, h3⟩ := hprev (j + 1) (by omega)
        have e1 : i0 + 1 + j = i0 + (j + 1) := by omega
        exact ⟨t, c, res, by rw [e1]; exact h1, by simpa using h2, h3⟩
      cases folded with
      | none =>
        show FunctionVisibleWidth.executeTupleElements env (some elems) (i0 + 1) (some res) rest = _
        exact ih (i0 + 1) (some res) k elementType element
          (by intro f hf; cases hf; exact hreswidth) hk' ht' hprev' herr
      | some previous =>
        obtain ⟨s, hs, hswidth⟩ := plusUInt64_isWidthColumn previous res
          (hfold previous rfl) hreswidth
        show Except.bind (plusUInt64 previous res) _ = _
        rw [hs]
        show FunctionVisibleWidth.executeTupleElements env (some elems) (i0 + 1) (some s) rest = _
        exact ih (i0 + 1) (some s) k elementType element
          (by intro f hf; cases hf; exact hswidth) hk' ht' hprev' herr

/-- An `ILLEGAL_COLUMN` error of the loop of the tuple branch is the error of one element,
met after the elements before it were processed. -/
theorem executeTupleElements_illegal (env : Env) (elems : Option (List DataType))
    (e : Exception) (hcode : e.code = .ILLEGAL_COLUMN) :
    ∀ (rest : List Column) (i0 : Nat) (folded : Option Column),
      (∀ f, folded = some f → f.isWidthColumn = true) →
      FunctionVisibleWidth.executeTupleElements env elems i0 folded rest = .error e →
      ∃ es k elementType element, elems = some es ∧ rest.get? k = some element ∧
        es.get? (i0 + k) = some elementType ∧
        (∀ j, j < k → ∃ t c res, es.get? (i0 + j) = some t ∧ rest.get? j = some c ∧
          FunctionVisibleWidth.executeColumn env true t c = .ok res) ∧
        FunctionVisibleWidth.executeColumn env true elementType element = .error e := by
  intro rest
  induction rest with
  | nil =>
    intro i0 folded _ h
    rw [executeTupleElements_nil] at h
    cases h
  | cons column rest ih =>
    intro i0 folded hfold h
    rw [executeTupleElements_cons] at h
    cases elems with
    | none =>
      have h' : (Except.error ⟨"element type read outside the tuple type",
          .UNDEFINED_BEHAVIOUR⟩ : Except Exception (Option Column)) = .error e := h
      cases h'
      cases hcode
    | some es =>
      cases hg : es.get? i0 with
      | none =>
        have h' : (match es.get? i0 with
          | none => (Except.error ⟨"element type read outside the tuple type",
              .UNDEFINED_BEHAVIOUR⟩ : Except Exception (Option Column))
          | some elementType =>
            (FunctionVisibleWidth.executeColumn env true elementType column).bind fun width =>
              (match folded with
                | none => Except.ok width
                | some previous => plusUInt64 previous width).bind fun sum =>
                  FunctionVisibleWidth.executeTupleElements env (some es) (i0 + 1) (some sum)
                    rest) = .error e := h
        rw [hg] at h'
        cases h'
        cases hcode
      | some t =>
        cases hx : FunctionVisibleWidth.executeColumn env true t column with
        | error e' =>
          have h' : (match es.get? i0 with
            | none => (Except.error ⟨"element type read outside the tuple type",
                .UNDEFINED_BEHAVIOUR⟩ : Except Exception (Option Column))
            | some elementType =>
              (FunctionVisibleWidth.executeColumn env true elementType column).bind fun width =>
                (match folded with
                  | none => Except.ok width
                  | some previous => plusUInt64 previous width).bind fun sum =>
                    FunctionVisibleWidth.executeTupleElements env (some es) (i0 + 1) (some sum)
                      rest) = .error e := h
          rw [hg] at h'
          have h'' : Except.bind (FunctionVisibleWidth.executeColumn env true t column) _ =
            .error e := h'
          rw [hx] at h''
          cases h''
          exact ⟨es, 0, t, column, rfl, rfl, hg, fun j hj => absurd hj (Nat.not_lt_zero j), hx⟩
        | ok wc =>
          have hwidth := executeColumn_isWidthColumn env true t column wc hx
          have h2 := h
          rw [← executeTupleElements_cons,
            executeTupleElements_cons_ok env es i0 folded column rest t wc hg hx] at h2
          have hshift : ∀ sum, sum.isWidthColumn = true →
              FunctionVisibleWidth.executeTupleElements env (some es) (i0 + 1) (some sum) rest =
                .error e →
              ∃ es' k elementType element, some es = some es' ∧
                (column :: rest).get? k = some element ∧
                es'.get? (i0 + k) = some elementType ∧
                (∀ j, j < k → ∃ t c res, es'.get? (i0 + j) = some t ∧
                  (column :: rest).get? j = some c ∧
                  FunctionVisibleWidth.executeColumn env true t c = .ok res) ∧
                FunctionVisibleWidth.executeColumn env true elementType element = .error e := by
            intro sum hsum hrec
            obtain ⟨es', k, elementType, element, hes, hk, ht, hprev, herr⟩ :=
              ih (i0 + 1) (some sum) (by intro f hf; cases hf; exact hsum) hrec
            cases hes
            refine ⟨es, k + 1, elementType, element, rfl, by simpa using hk, ?_, ?_, herr⟩
            · have e1 : i0 + (k + 1) = i0 + 1 + k := by omega
              rw [e1]; exact ht
            · intro j hj
              cases j with
              | zero => exact ⟨t, column, wc, hg, rfl, hx⟩
              | succ j =>
                obtain ⟨t', c', res', h1, h2, h3⟩ := hprev j (by omega)
                have e1 : i0 + (j + 1) = i0 + 1 + j := by omega
                exact ⟨t', c', res', by rw [e1]; exact h1, by simpa using h2, h3⟩
          cases folded with
          | none => exact hshift wc hwidth h2
          | some previous =>
            obtain ⟨s, hs, hswidth⟩ := plusUInt64_isWidthColumn previous wc
              (hfold previous rfl) hwidth
            have h3 : Except.bind (plusUInt64 previous wc) _ = .error e := h2
            rw [hs] at h3
            exact hshift s hswidth h3

/-- From a reached column without a handler to the error of `execute`. -/
theorem executeColumn_illegal_of_reached (env : Env) (type : DataType) (column : Column)
    (type' : DataType) (column' : Column) (h : Reached env type column type' column') :
    ∀ name size, column' = .other name size → type' ≠ .Date → type' ≠ .DateTime →
      ∀ resultValid, FunctionVisibleWidth.executeColumn env resultValid type column =
        .error ⟨"Illegal column " ++ name ++ " of argument of function " ++ env.functionName,
          .ILLEGAL_COLUMN⟩ := by
  induction h with
  | self type column =>
    intro name size hc hd hdt rv
    subst hc
    exact executeColumn_other env rv type name size hd hdt
  | arrayChild nested data offsets type column _ ih =>
    intro name size hc hd hdt rv
    rw [executeColumn_array, ih name size hc hd hdt true]
    rfl
  | tupleElement elems columns i elementType element type column ht hcol hprev _ ih =>
    intro name size hc hd hdt rv
    rw [executeColumn_tuple]
    rw [executeTupleElements_error_at env elems _ columns 0 none i elementType element
      (by intro f hf; cases hf) hcol (by rw [Nat.zero_add]; exact ht)
      (by
        intro j hj
        obtain ⟨t, c, res, h1, h2, h3⟩ := hprev j hj
        exact ⟨t, c, res, by rw [Nat.zero_add]; exact h1, h2, h3⟩)
      (ih name size hc hd hdt true)]
    rfl

/-- From an `ILLEGAL_COLUMN` error of `execute` to the reached column without a handler. -/
theorem reached_of_executeColumn_illegal (env : Env) :
    ∀ (n : Nat) (column : Column), sizeOf column < n →
      ∀ (type : DataType) (resultValid : Bool) (e : Exception), e.code = .ILLEGAL_COLUMN →
        FunctionVisibleWidth.executeColumn env resultValid type column = .error e →
        ∃ type' name size, Reached env type column type' (.other name size) ∧
          type' ≠ .Date ∧ type' ≠ .DateTime ∧
          e.message = "Illegal column " ++ name ++ " of argument of function " ++
            env.functionName := by
  intro n
  induction n with
  | zero => intro column h; exact absurd h (Nat.not_lt_zero _)
  | succ n ih =>
    intro column hsize type rv e hcode h
    unfold FunctionVisibleWidth.executeColumn at h
    cases hB : FunctionVisibleWidth.executeByType rv type column with
    | some outcome =>
      rw [hB] at h
      simp only [Option.getD_some] at h
      subst h
      exact absurd hcode (executeByType_not_illegal _ _ _ _ hB)
    | none =>
      obtain ⟨hd, hdt⟩ := executeByType_none_ne rv type column hB
      rw [hB] at h
      simp only [Option.getD_none] at h
      cases column with
      | const T size data => exact absurd hcode (executeConstNumber_not_illegal _ _ _ _ _ _ h)
      | vector T data => exact absurd hcode (executeNumber_not_illegal _ _ _ _ _ h)
      | string chars offsets =>
        simp only [bind, pure, except_bind_eq_error, except_pure_ne_error,
          and_false, exists_false, or_false] at h
        exact absurd hcode (checkResultPosition_not_illegal _ _ h)
      | fixedString m chars =>
        simp only [bind, pure, except_bind_eq_error, except_pure_ne_error,
          and_false, exists_false, or_false] at h
        exact absurd hcode (checkResultPosition_not_illegal _ _ h)
      | constString size data =>
        simp only [] at h
        rw [executeConstString_eq] at h
        simp only [except_bind_eq_error, reduceCtorEq, and_false, exists_false, or_false] at h
        exact absurd hcode (checkResultPosition_not_illegal _ _ h)
      | constArray size data =>
        simp only [bind, pure, except_bind_eq_error, except_pure_ne_error,
          and_false, exists_false, or_false] at h
        exact absurd hcode (checkResultPosition_not_illegal _ _ h)
      | constTuple size data =>
        simp only [bind, pure, except_bind_eq_error, except_pure_ne_error,
          and_false, exists_false, or_false] at h
        exact absurd hcode (checkResultPosition_not_illegal _ _ h)
      | aggregateFunction size =>
        simp only [bind, pure, except_bind_eq_error, except_pure_ne_error,
          and_false, exists_false, or_false] at h
        exact absurd hcode (checkResultPosition_not_illegal _ _ h)
      | other name size =>
        simp only [Except.error.injEq] at h
        subst h
        exact ⟨type, name, size, Reached.self _ _, hd, hdt, rfl⟩
      | array data offsets =>
        simp only [] at h
        split at h
        · rename_i nested hnested
          have htype := arrayNested_eq_some type nested hnested
          subst htype
          rw [except_bind_eq_error] at h
          rcases h with h | ⟨_, _, h⟩
          · have hlt : sizeOf data < n := by
              have : sizeOf (Column.array data offsets) = 1 + sizeOf data + sizeOf offsets := by
                simp
              omega
            obtain ⟨type', name, size, hreach, h1, h2, h3⟩ := ih data hlt nested true e hcode h
            exact ⟨type', name, size, Reached.arrayChild _ _ _ _ _ hreach, h1, h2, h3⟩
          · exact absurd hcode (executeArrayRows_not_illegal _ _ _ _ _ h)
        · cases h
          cases hcode
      | tuple columns =>
        simp only [] at h
        rw [except_bind_eq_error] at h
        rcases h with h | ⟨_, _, h⟩
        · obtain ⟨es, k, elementType, element, hes, hk, ht, hprev, herr⟩ :=
            executeTupleElements_illegal env _ e hcode columns 0 none
              (by intro f hf; cases hf) h
          have htype := tupleElements_eq_some type es hes
          subst htype
          rw [Nat.zero_add] at ht
          have hmem : element ∈ columns := List.get?_mem hk
          have hlt : sizeOf element < n := by
            have h1 := List.sizeOf_lt_of_mem hmem
            have : sizeOf (Column.tuple columns) = 1 + sizeOf columns := by simp
            omega
          obtain ⟨type', name, size, hreach, h1, h2, h3⟩ :=
            ih element hlt elementType true e hcode herr
          refine ⟨type', name, size, Reached.tupleElement _ _ k elementType element _ _ ht hk ?_
            hreach, h1, h2, h3⟩
          intro j hj
          obtain ⟨t, c, res, g1, g2, g3⟩ := hprev j hj
          exact ⟨t, c, res, by rw [Nat.zero_add] at g1; exact g1, g2, g3⟩
        · exact absurd hcode (executeTupleSurcharge_not_illegal _ _ _ _ _ _ h)

/-- C10: `execute` on the argument column of a block fails with `ILLEGAL_COLUMN` and a given
message exactly when some column on which it is invoked (the argument itself, the child of
an array, or an element of a tuple once the elements before it were processed) is of a class
without a handler while its type is neither `Date` nor `DateTime`; the message is then made
of that column's name and the function's name.  So no such error arises when every
column met has a handler. -/
theorem illegal_column_iff (env : Env) (block : Block) (position : Nat) (rest : List Nat)
    (result : Nat) (argument : ColumnWithTypeAndName) (column : Column) (message : String)
    (hp : block.get? position = some argument) (hc : argument.column = some column) :
    FunctionVisibleWidth.execute env block (position :: rest) result =
        .error ⟨message, .ILLEGAL_COLUMN⟩ ↔
      ∃ type' name size, Reached env argument.type column type' (.other name size) ∧
        type' ≠ .Date ∧ type' ≠ .DateTime ∧
        message = "Illegal column " ++ name ++ " of argument of function " ++
          env.functionName := by
  constructor
  · intro h
    unfold FunctionVisibleWidth.execute at h
    simp only [hp, hc] at h
    cases hx : FunctionVisibleWidth.executeColumn env (decide (result < block.length))
        argument.type column with
    | error e =>
      rw [hx] at h
      simp only [Except.error.injEq] at h
      subst h
      exact reached_of_executeColumn_illegal env (sizeOf column + 1) column (Nat.lt_succ_self _)
        argument.type _ _ rfl hx
    | ok res =>
      rw [hx] at h
      simp only [] at h
      split at h <;> cases h
  · rintro ⟨type', name, size, hreach, hd, hdt, hm⟩
    subst hm
    exact execute_of_column_error env block position rest result argument column _ hp hc
      (executeColumn_illegal_of_reached env _ _ _ _ hreach name size rfl hd hdt _)

/-- Witness of `illegal_column_iff`: an array column of strings whose child is of a class
without a handler fails with the error naming that child. -/
theorem illegal_column_iff_witness :
    FunctionVisibleWidth.execute exampleEnv
        [⟨some (.array (.other "ColumnSet" 0) [0]), .Array .String, "a"⟩,
          ⟨none, .number (.int .UInt64), "w"⟩] [0] 1 =
        .error ⟨"Illegal column ColumnSet of argument of function visibleWidth",
          .ILLEGAL_COLUMN⟩ :=
  (illegal_column_iff exampleEnv
      [⟨some (.array (.other "ColumnSet" 0) [0]), .Array .String, "a"⟩,
        ⟨none, .number (.int .UInt64), "w"⟩] 0 [] 1
      ⟨some (.array (.other "ColumnSet" 0) [0]), .Array .String, "a"⟩
      (.array (.other "ColumnSet" 0) [0])
      "Illegal column ColumnSet of argument of function visibleWidth" rfl rfl).mpr
    ⟨.String, "ColumnSet", 0,
      Reached.arrayChild .String (.other "ColumnSet" 0) [0] .String (.other "ColumnSet" 0)
        (Reached.self _ _),
      by simp, by simp, by decide⟩

/-! ## Number of rows of the result -/

theorem mapM_length {α β : Type} (f : α → Except Exception β) :
    ∀ (l : List α) (out : List β), l.mapM f = .ok out → out.length = l.length := by
  intro l
  induction l with
  | nil =>
    intro out h
    rw [List.mapM_nil] at h
    cases h
    rfl
  | cons a l ih =>
    intro out h
    rw [List.mapM_cons] at h
    simp only [bind, pure, except_bind_eq_ok, except_pure_eq_ok] at h
    obtain ⟨b, _, bs, hbs, h⟩ := h
    subst h
    simp [ih bs hbs]

theorem executeEnum_size (kind : EnumKind) (resultValid : Bool) (type : DataType)
    (column res : Column)
    (h : VisibleWidth.executeEnum kind resultValid type column = some (.ok res)) :
    res.size = column.size := by
  unfold VisibleWidth.executeEnum at h
  split at h
  · cases h
  · split at h
    · split at h
      · simp only [Option.some.injEq, bind, pure, except_bind_eq_ok, except_pure_eq_ok] at h
        obtain ⟨_, _, out, hout, h⟩ := h
        subst h
        exact mapM_length _ _ _ hout
      · cases h
    · split at h
      · simp only [Option.some.injEq, bind, pure, except_bind_eq_ok, except_pure_eq_ok] at h
        obtain ⟨_, _, _, _, h⟩ := h
        subst h; rfl
      · cases h
    · cases h

theorem executeByType_size (resultValid : Bool) (type : DataType) (column res : Column)
    (h : FunctionVisibleWidth.executeByType resultValid type column = some (.ok res)) :
    res.size = column.size := by
  unfold FunctionVisibleWidth.executeByType at h
  split at h
  · simp only [Option.some.injEq, bind, pure, except_bind_eq_ok, except_pure_eq_ok] at h
    obtain ⟨_, _, h⟩ := h
    subst h; rfl
  · simp only [Option.some.injEq, bind, pure, except_bind_eq_ok, except_pure_eq_ok] at h
    obtain ⟨_, _, h⟩ := h
    subst h; rfl
  · unfold VisibleWidth.executeEnums at h
    split at h
    · rename_i h8
      simp only [Option.some.injEq] at h
      subst h
      exact executeEnum_size _ _ _ _ _ h8
    · exact executeEnum_size _ _ _ _ _ h

theorem executeConstNumber_size (env : Env) (resultValid : Bool) (T : NumType)
    (size : Nat) (data : Int) (res : Column)
    (h : VisibleWidth.executeConstNumber env resultValid T size data = .ok res) :
    res.size = size := by
  unfold VisibleWidth.executeConstNumber at h
  cases T <;>
    simp only [bind, pure, except_bind_eq_ok, except_pure_eq_ok] at h <;>
    (obtain ⟨_, _, _, _, h⟩ := h; subst h; rfl)

theorem executeNumber_size (env : Env) (resultValid : Bool) (T : NumType)
    (data : List Int) (res : Column)
    (h : VisibleWidth.executeNumber env resultValid T data = .ok res) :
    res.size = data.length := by
  unfold VisibleWidth.executeNumber at h
  cases T <;>
    simp only [bind, pure, except_bind_eq_ok, except_pure_eq_ok] at h
  · obtain ⟨_, _, out, hout, h⟩ := h
    subst h
    subst hout
    simp [Column.size, numWidthVector]
  · obtain ⟨_, _, out, hout, h⟩ := h
    subst h
    simp [Column.size, mapM_length _ _ _ hout]
  · obtain ⟨_, _, out, hout, h⟩ := h
    subst h
    simp [Column.size, mapM_length _ _ _ hout]

theorem stringWidthVectorRanges_length :
    ∀ (offsets : List Nat) (previous : Nat),
      (stringWidthVectorRanges previous offsets).length = offsets.length := by
  intro offsets
  induction offsets with
  | nil => intro _; rfl
  | cons o rest ih => intro p; simp [stringWidthVectorRanges, ih]

theorem arrayWidthsVector_length (q : Nat) (nested : List Int) :
    ∀ (offsets : List Nat) (j : Nat),
      (arrayWidthsVector q nested j offsets).length = offsets.length := by
  intro offsets
  induction offsets with
  | nil => intro _; rfl
  | cons o rest ih => intro j; simp [arrayWidthsVector, ih]

theorem arrayWidthsConst_length (L : Nat) :
    ∀ (offsets : List Nat) (previous : Option Nat),
      (arrayWidthsConst L previous offsets).length = offsets.length := by
  intro offsets
  induction offsets with
  | nil => intro _; rfl
  | cons o rest ih => intro p; simp [arrayWidthsConst, ih]

theorem executeArrayRows_size (resultValid : Bool) (offsets : List Nat)
    (nestedType : DataType) (nestedResult res : Column)
    (h : FunctionVisibleWidth.executeArrayRows resultValid offsets nestedType nestedResult =
      .ok res) : res.size = offsets.length := by
  unfold FunctionVisibleWidth.executeArrayRows at h
  simp only [bind, pure, except_bind_eq_ok] at h
  obtain ⟨_, _, h⟩ := h
  split at h
  · cases h
    simp [Column.size, arrayWidthsVector_length]
  · cases h
    simp [Column.size, arrayWidthsConst_length]
  · cases h

theorem plusUInt64_size (a b s : Column) (N : Nat) (ha : a.size = N) (hb : b.size = N)
    (h : plusUInt64 a b = .ok s) : s.size = N := by
  unfold plusUInt64 at h
  split at h
  · cases h
    simp only [Column.size] at ha hb ⊢
    simp [ha, hb]
  · cases h
    simp only [Column.size] at ha ⊢
    simp [ha]
  · cases h
    simp only [Column.size] at hb ⊢
    simp [hb]
  · cases h
    exact ha
  · cases h

theorem addTupleSurcharge_size (rows additionalSymbols : Nat) (column res : Column)
    (h : addTupleSurcharge rows additionalSymbols column = .ok res) :
    res.size = column.size := by
  unfold addTupleSurcharge at h
  split at h
  · cases h; rfl
  · cases h
  · cases h
    simp [Column.size]
  · cases h

theorem tupleRowsAgreeAll_mem :
    ∀ (columns : List Column), Column.tupleRowsAgreeAll columns = true →
      ∀ c ∈ columns, c.tupleRowsAgree = true := by
  intro columns
  induction columns with
  | nil => intro _ c hc; cases hc
  | cons x rest ih =>
    intro h c hc
    rw [Column.tupleRowsAgreeAll, Bool.and_eq_true] at h
    rcases List.mem_cons.mp hc with rfl | hmem
    · exact h.1
    · exact ih h.2 c hmem

/-- The loop of the tuple branch keeps the number of rows of the folded column. -/
theorem executeTupleElements_size (env : Env) (elems : Option (List DataType)) (N : Nat) :
    ∀ (rest : List Column) (i0 : Nat) (folded out : Option Column),
      (∀ c ∈ rest, c.size = N) →
      (∀ c ∈ rest, ∀ t res, FunctionVisibleWidth.executeColumn env true t c = .ok res →
        res.size = c.size) →
      (∀ f, folded = some f → f.size = N) →
      FunctionVisibleWidth.executeTupleElements env elems i0 folded rest = .ok out →
      ∀ f, out = some f → f.size = N := by
  intro rest
  induction rest with
  | nil =>
    intro i0 folded out _ _ hfold h f hf
    rw [executeTupleElements_nil] at h
    cases h
    exact hfold f hf
  | cons column rest ih =>
    intro i0 folded out hsize hexec hfold h f hf
    rw [executeTupleElements_cons] at h
    split at h
    · cases h
    · rename_i elementType _
      rw [except_bind_eq_ok] at h
      obtain ⟨width, hwidth, h⟩ := h
      rw [except_bind_eq_ok] at h
      obtain ⟨sum, hsum, h⟩ := h
      have hw : width.size = N := by
        rw [hexec column (List.mem_cons_self _ _) elementType width hwidth]
        exact hsize column (List.mem_cons_self _ _)
      have hs : sum.size = N := by
        cases folded with
        | none =>
          simp only [Except.ok.injEq] at hsum
          rw [← hsum]; exact hw
        | some previous =>
          exact plusUInt64_size previous width sum N (hfold previous rfl) hw hsum
      exact ih (i0 + 1) (some sum) out
        (fun c hc => hsize c (List.mem_cons_of_mem _ hc))
        (fun c hc => hexec c (List.mem_cons_of_mem _ hc))
        (by intro g hg; cases hg; exact hs) h f hf

theorem executeTupleSurcharge_size (resultValid : Bool) (rows : Nat)
    (elems : Option (List DataType)) (columns : Nat) (folded : Option Column) (res : Column)
    (h : FunctionVisibleWidth.executeTupleSurcharge resultValid rows elems columns folded =
      .ok res) : ∃ f, folded = some f ∧ res.size = f.size := by
  unfold FunctionVisibleWidth.executeTupleSurcharge at h
  split at h
  · simp only [bind, pure, except_bind_eq_ok, except_pure_eq_ok] at h
    obtain ⟨_, h1, _, _, h2⟩ := h
    subst h2
    exact ⟨_, rfl, addTupleSurcharge_size _ _ _ _ h1⟩
  · cases h

/-- The column `execute` produces has as many rows as its argument. -/
theorem executeColumn_size (env : Env) :
    ∀ (n : Nat) (column : Column), sizeOf column < n →
      ∀ (type : DataType) (resultValid : Bool) (res : Column),
        column.tupleRowsAgree = true →
        FunctionVisibleWidth.executeColumn env resultValid type column = .ok res →
        res.size = column.size := by
  intro n
  induction n with
  | zero => intro column h; exact absurd h (Nat.not_lt_zero _)
  | succ n ih =>
    intro column hsize type rv res hwf h
    unfold FunctionVisibleWidth.executeColumn at h
    cases hB : FunctionVisibleWidth.executeByType rv type column with
    | some outcome =>
      rw [hB] at h
      simp only [Option.getD_some] at h
      subst h
      exact executeByType_size _ _ _ _ hB
    | none =>
      rw [hB] at h
      simp only [Option.getD_none] at h
      cases column with
      | const T size data => exact executeConstNumber_size _ _ _ _ _ _ h
      | vector T data => exact executeNumber_size _ _ _ _ _ h
      | string chars offsets =>
        simp only [bind, pure, except_bind_eq_ok, except_pure_eq_ok] at h
        obtain ⟨_, _, h⟩ := h
        subst h
        simp [Column.size, stringWidthVector, stringWidthVectorRanges_length]
      | fixedString m chars =>
        simp only [bind, pure, except_bind_eq_ok, except_pure_eq_ok] at h
        obtain ⟨_, _, h⟩ := h
        subst h
        simp [Column.size, stringWidthFixedVector]
      | constString size data =>
        simp only [] at h
        rw [executeConstString_eq] at h
        simp only [except_bind_eq_ok, Except.ok.injEq] at h
        obtain ⟨_, _, h⟩ := h
        subst h; rfl
      | constArray size data =>
        simp only [bind, pure, except_bind_eq_ok, except_pure_eq_ok] at h
        obtain ⟨_, _, h⟩ := h
        subst h; rfl
      | constTuple size data =>
        simp only [bind, pure, except_bind_eq_ok, except_pure_eq_ok] at h
        obtain ⟨_, _, h⟩ := h
        subst h; rfl
      | aggregateFunction size =>
        simp only [bind, pure, except_bind_eq_ok, except_pure_eq_ok] at h
        obtain ⟨_, _, h⟩ := h
        subst h; rfl
      | other name size => cases h
      | array data offsets =>
        simp only [] at h
        split at h
        · rw [except_bind_eq_ok] at h
          obtain ⟨_, _, h⟩ := h
          exact executeArrayRows_size _ _ _ _ _ h
        · cases h
      | tuple columns =>
        simp only [] at h
        rw [except_bind_eq_ok] at h
        obtain ⟨folded, hloop, h⟩ := h
        obtain ⟨f, hf, hres⟩ := executeTupleSurcharge_size _ _ _ _ _ _ h
        rw [Column.tupleRowsAgree, Bool.and_eq_true, List.all_eq_true] at hwf
        obtain ⟨hall, hrec⟩ := hwf
        have hmem := tupleRowsAgreeAll_mem columns hrec
        rw [hres]
        refine executeTupleElements_size env _ (Column.tuple columns).size columns 0 none folded
          ?_ ?_ (by intro g hg; cases hg) hloop f hf
        · intro c hc
          have := hall c hc
          simpa using this
        · intro c hc t r hr
          have hlt : sizeOf c < n := by
            have h1 := List.sizeOf_lt_of_mem hc
            have : sizeOf (Column.tuple columns) = 1 + sizeOf columns := by simp
            omega
          exact ih c hlt t true r (hmem c hc) hr

/-- What a successful call of `execute` did: it read the argument, computed its width column
with a valid result position, and stored that column at the result position. -/
theorem execute_ok_inv (env : Env) (block : Block) (arguments : List Nat) (result : Nat)
    (block' : Block) (h : FunctionVisibleWidth.execute env block arguments result = .ok block') :
    ∃ position rest argument column entry res, arguments = position :: rest ∧
      block.get? position = some argument ∧ argument.column = some column ∧
      block.get? result = some entry ∧
      FunctionVisibleWidth.executeColumn env true argument.type column = .ok res ∧
      block' = block.set result { entry with column := some res } := by
  unfold FunctionVisibleWidth.execute at h
  split at h
  · cases h
  · rename_i position rest
    split at h
    · cases h
    · rename_i argument hp
      split at h
      · cases h
      · rename_i column hc
        split at h
        · cases h
        · rename_i res hres
          split at h
          · cases h
          · rename_i entry hr
            have hlt : result < block.length := by
              rcases Nat.lt_or_ge result block.length with h' | h'
              · exact h'
              · rw [List.get?_eq_none.mpr h'] at hr; cases hr
            simp only [hlt, decide_True] at hres
            simp only [Except.ok.injEq] at h
            exact ⟨position, rest, argument, column, entry, res, rfl, hp, hc, hr, hres, h.symm⟩

/-- C11: when `execute` succeeds on a block whose argument column (with tuple columns made
of element columns of one size) has `N` rows, the column it stores at the result position is
a `ColumnUInt64` or `ColumnConstUInt64` with exactly `N` rows, for every column class with
a handler, arrays and tuples with their children included. -/
theorem result_has_argument_rows (env : Env) (block : Block) (position : Nat)
    (rest : List Nat) (result : Nat) (block' : Block) (argument : ColumnWithTypeAndName)
    (column : Column) (hp : block.get? position = some argument)
    (hc : argument.column = some column) (hwf : column.tupleRowsAgree = true)
    (hok : FunctionVisibleWidth.execute env block (position :: rest) result = .ok block') :
    ∃ entry res, block.get? result = some entry ∧
      block'.get? result = some { entry with column := some res } ∧
      res.isWidthColumn = true ∧ res.size = column.size := by
  obtain ⟨position', rest', argument', column', entry, res, hargs, hp', hc', hr, hres, hb⟩ :=
    execute_ok_inv env block _ result block' hok
  simp only [List.cons.injEq] at hargs
  obtain ⟨h1, -⟩ := hargs
  subst h1
  rw [hp] at hp'
  simp only [Option.some.injEq] at hp'
  subst hp'
  rw [hc] at hc'
  simp only [Option.some.injEq] at hc'
  subst hc'
  have hlt : result < block.length := by
    rcases Nat.lt_or_ge result block.length with h' | h'
    · exact h'
    · rw [List.get?_eq_none.mpr h'] at hr; cases hr
  refine ⟨entry, res, hr, ?_, executeColumn_isWidthColumn env true _ _ _ hres,
    executeColumn_size env (sizeOf column + 1) column (Nat.lt_succ_self _) _ true res hwf hres⟩
  rw [hb, List.get?_eq_getElem?, List.getElem?_set_self hlt]

/-- Witness of `result_has_argument_rows`: an array column with two rows whose elements are
tuples of a date and a string. -/
theorem result_has_argument_rows_witness :
    ∃ entry res,
      List.get? [⟨some (.array (.tuple [.vector (.int .UInt16) [1, 2],
          .string [97, 98, 0, 99, 0] [3, 5]]) [0, 2]), .Array (.Tuple [.Date, .String]), "a"⟩,
        (⟨none, .number (.int .UInt64), "w"⟩ : ColumnWithTypeAndName)] 1 = some entry ∧
      List.get? (List.set [⟨some (.array (.tuple [.vector (.int .UInt16) [1, 2],
          .string [97, 98, 0, 99, 0] [3, 5]]) [0, 2]), .Array (.Tuple [.Date, .String]), "a"⟩,
        (⟨none, .number (.int .UInt64), "w"⟩ : ColumnWithTypeAndName)] 1
          ⟨some (Column.uint64 [2, 40]), .number (.int .UInt64), "w"⟩) 1 =
        some { entry with column := some res } ∧
      res.isWidthColumn = true ∧
      res.size = (Column.array (.tuple [.vector (.int .UInt16) [1, 2],
          .string [97, 98, 0, 99, 0] [3, 5]]) [0, 2]).size :=
  result_has_argument_rows exampleEnv
    [⟨some (.array (.tuple [.vector (.int .UInt16) [1, 2],
        .string [97, 98, 0, 99, 0] [3, 5]]) [0, 2]), .Array (.Tuple [.Date, .String]), "a"⟩,
      ⟨none, .number (.int .UInt64), "w"⟩] 0 [] 1
    (List.set [⟨some (.array (.tuple [.vector (.int .UInt16) [1, 2],
        .string [97, 98, 0, 99, 0] [3, 5]]) [0, 2]), .Array (.Tuple [.Date, .String]), "a"⟩,
      ⟨none, .number (.int .UInt64), "w"⟩] 1
        ⟨some (Column.uint64 [2, 40]), .number (.int .UInt64), "w"⟩)
    ⟨some (.array (.tuple [.vector (.int .UInt16) [1, 2],
        .string [97, 98, 0, 99, 0] [3, 5]]) [0, 2]), .Array (.Tuple [.Date, .String]), "a"⟩
    (.array (.tuple [.vector (.int .UInt16) [1, 2], .string [97, 98, 0, 99, 0] [3, 5]]) [0, 2])
    rfl rfl rfl rfl

/-- In the embedding by value, a successful call of `execute` returns the block it was given
with the column at the result position replaced and nothing else changed. -/
theorem execute_frame_by_value (env : Env) (block : Block) (arguments : List Nat) (result : Nat)
    (block' : Block)
    (hok : FunctionVisibleWidth.execute env block arguments result = .ok block') :
    block'.length = block.length ∧
    (∀ p, p ≠ result → block'.get? p = block.get? p) ∧
    (∀ position rest argument, arguments = position :: rest →
      block.get? position = some argument → position ≠ result →
      block'.get? position = some argument) ∧
    ∃ entry res, block.get? result = some entry ∧
      block'.get? result = some ⟨some res, entry.type, entry.name⟩ := by
  obtain ⟨position, rest, argument, column, entry, res, hargs, hp, hc, hr, hres, hb⟩ :=
    execute_ok_inv env block _ result block' hok
  have hlt : result < block.length := by
    rcases Nat.lt_or_ge result block.length with h' | h'
    · exact h'
    · rw [List.get?_eq_none.mpr h'] at hr; cases hr
  have hframe : ∀ p, p ≠ result → block'.get? p = block.get? p := by
    intro p hne
    rw [hb, List.get?_eq_getElem?, List.get?_eq_getElem?, List.getElem?_set_ne (Ne.symm hne)]
  refine ⟨by rw [hb, List.length_set], hframe, ?_, entry, res, hr, ?_⟩
  · intro position' rest' argument' _ hp' hne
    rw [hframe position' hne, hp']
  · rw [hb, List.get?_eq_getElem?, List.getElem?_set_self hlt]

/-! ## The constant fast path of the array branch -/

/-- C18: for an array row `i` with `k` elements (offsets non-decreasing) and a total that fits
in 64 bits, the fast path taken for a constant nested result `w` and the per-element loop
taken for a dense nested result whose entries over the row are all `w` give the same row
value, which is `1 + max(1, k * (w + q + 1))` and is 2 when `k = 0` and
`1 + k * (1 + q + w)` otherwise, `q` being the quoting surcharge 0 or 2 of the element type;
the two expressions agree for all naturals. -/
theorem array_fast_path_eq_fold (nestedType : DataType) (offsets : List Nat) (i w size : Nat)
    (nestedRes : List Int) (hmono : List.Chain (· ≤ ·) 0 offsets) (hi : i < offsets.length)
    (hsize : rowEnd offsets i ≤ size)
    (hall : ∀ j, rowBegin offsets i ≤ j → j < rowEnd offsets i →
      nestedRes.get? j = some (Int.ofNat w))
    (hfit : 1 + (rowEnd offsets i - rowBegin offsets i) *
      (1 + (if nestedType.isQuoted then 2 else 0) + w) < 2 ^ 64) :
    (∃ fast general,
      FunctionVisibleWidth.executeArrayRows true offsets nestedType
        (Column.constUInt64 size (Int.ofNat w)) = .ok fast ∧
      FunctionVisibleWidth.executeArrayRows true offsets nestedType
        (Column.uint64 nestedRes) = .ok general ∧
      fast.uint64At i = general.uint64At i ∧
      fast.uint64At i = some (1 + max 1 ((rowEnd offsets i - rowBegin offsets i) *
        (w + (if nestedType.isQuoted then 2 else 0) + 1))) ∧
      general.uint64At i = some (if rowEnd offsets i - rowBegin offsets i = 0 then 2 else
        1 + (rowEnd offsets i - rowBegin offsets i) *
          (1 + (if nestedType.isQuoted then 2 else 0) + w))) ∧
    ((if nestedType.isQuoted then 2 else 0) = 0 ∨ (if nestedType.isQuoted then 2 else 0) = 2) ∧
    ∀ k w q : Nat, 1 + max 1 (k * (w + q + 1)) = if k = 0 then 2 else 1 + k * (1 + q + w) := by
  have harith : ∀ k w q : Nat,
      1 + max 1 (k * (w + q + 1)) = if k = 0 then 2 else 1 + k * (1 + q + w) := by
    intro k w q
    by_cases hk : k = 0
    · subst hk; simp
    · rw [if_neg hk]
      have e : w + q + 1 = 1 + q + w := by omega
      rw [e]
      have h1 : 1 ≤ k * (1 + q + w) := Nat.mul_pos (Nat.pos_of_ne_zero hk) (by omega)
      rw [max_eq_right h1]
  have hle : rowBegin offsets i ≤ rowEnd offsets i := by
    have := chain_rel_rows offsets 0 i hmono hi
    rw [← rowBegin_eq] at this
    exact this
  have hsum : ((List.range' (rowBegin offsets i) (rowEnd offsets i - rowBegin offsets i)).map
      fun _ => 1 + (if nestedType.isQuoted then 2 else 0) + w).sum =
      (rowEnd offsets i - rowBegin offsets i) *
        (1 + (if nestedType.isQuoted then 2 else 0) + w) := sum_map_range_const _ _ _
  obtain ⟨fast, hfast, hfrow⟩ := executeArrayRows_row offsets nestedType
    (Column.constUInt64 size (Int.ofNat w)) i (fun _ => w) rfl hmono hi
    (fun j _ hj => uint64At_const_of_lt size j w (by omega)) (by rw [hsum]; exact hfit)
  obtain ⟨general, hgeneral, hgrow⟩ := executeArrayRows_row offsets nestedType
    (Column.uint64 nestedRes) i (fun _ => w) rfl hmono hi
    (fun j hj1 hj2 => uint64At_uint64_of_get nestedRes j w (hall j hj1 hj2))
    (by rw [hsum]; exact hfit)
  rw [hsum] at hfrow hgrow
  have hcond : (rowEnd offsets i = rowBegin offsets i) ↔
      (rowEnd offsets i - rowBegin offsets i = 0) := by omega
  have hval : (if rowEnd offsets i = rowBegin offsets i then 2 else
      1 + (rowEnd offsets i - rowBegin offsets i) *
        (1 + (if nestedType.isQuoted then 2 else 0) + w)) =
      (if rowEnd offsets i - rowBegin offsets i = 0 then 2 else
        1 + (rowEnd offsets i - rowBegin offsets i) *
          (1 + (if nestedType.isQuoted then 2 else 0) + w)) := by
    by_cases h : rowEnd offsets i = rowBegin offsets i
    · rw [if_pos h, if_pos (hcond.mp h)]
    · rw [if_neg h, if_neg (fun h' => h (hcond.mpr h'))]
  rw [hval] at hfrow hgrow
  refine ⟨⟨fast, general, hfast, hgeneral, by rw [hfrow, hgrow], ?_, hgrow⟩, ?_, harith⟩
  · rw [hfrow, harith]
  · cases nestedType.isQuoted <;> simp

/-- Witness of `array_fast_path_eq_fold`: rows of 0 and 2 dates of width 10. -/
theorem array_fast_path_eq_fold_witness :
    (∃ fast general,
      FunctionVisibleWidth.executeArrayRows true [0, 2] .Date
        (Column.constUInt64 2 (Int.ofNat 10)) = .ok fast ∧
      FunctionVisibleWidth.executeArrayRows true [0, 2] .Date
        (Column.uint64 [10, 10]) = .ok general ∧
      fast.uint64At 1 = general.uint64At 1 ∧
      fast.uint64At 1 = some (1 + max 1 ((rowEnd [0, 2] 1 - rowBegin [0, 2] 1) *
        (10 + (if DataType.Date.isQuoted then 2 else 0) + 1))) ∧
      general.uint64At 1 = some (if rowEnd [0, 2] 1 - rowBegin [0, 2] 1 = 0 then 2 else
        1 + (rowEnd [0, 2] 1 - rowBegin [0, 2] 1) *
          (1 + (if DataType.Date.isQuoted then 2 else 0) + 10))) ∧
    ((if DataType.Date.isQuoted then 2 else 0) = 0 ∨
      (if DataType.Date.isQuoted then 2 else 0) = 2) ∧
    ∀ k w q : Nat, 1 + max 1 (k * (w + q + 1)) = if k = 0 then 2 else 1 + k * (1 + q + w) :=
  array_fast_path_eq_fold .Date [0, 2] 1 10 2 [10, 10]
    (List.Chain.cons (by decide) (List.Chain.cons (by decide) List.Chain.nil)) (by decide)
    (by decide)
    (fun j hj1 hj2 => by
      have h1 : 0 ≤ j := hj1
      have h2 : j < 2 := hj2
      have h3 : j = 0 ∨ j = 1 := by omega
      rcases h3 with h | h <;> subst h <;> rfl)
    (by decide)

/-- Why the comparison of the two paths bounds the row total: in `UInt64` arithmetic they
part when the total wraps, here for two elements of width `2^63 - 1`. -/
theorem array_paths_wrap_example :
    arrayWidthsConst ((9223372036854775807 + 0 + 1) % 2 ^ 64) none [2] = [2] ∧
    arrayWidthsVector 0 [9223372036854775807, 9223372036854775807] 0 [2] = [1] := by
  constructor <;> rfl

/-! ## Enumerations -/

theorem mapM_ok_of {α β : Type} (f : α → Except Exception β) (g : α → β) :
    ∀ (l : List α), (∀ x ∈ l, f x = .ok (g x)) → l.mapM f = .ok (l.map g) := by
  intro l
  induction l with
  | nil => intro _; rfl
  | cons a l ih =>
    intro h
    rw [List.mapM_cons, h a (List.mem_cons_self _ _),
      ih (fun x hx => h x (List.mem_cons_of_mem _ hx))]
    rfl

theorem executeByType_enum_vector (kind : EnumKind) (type : DataType)
    (values : List (List UInt8 × Int)) (data : List Int) (htype : kind.cast type = some values) :
    FunctionVisibleWidth.executeByType true type (.vector (.int kind.fieldType) data) =
      some ((data.mapM fun idx =>
        (getNameForValue values idx).bind fun name =>
          Except.pure (Int.ofNat (stringWidth name))).bind fun out =>
        Except.pure (Column.uint64 out)) := by
  cases kind <;> cases type <;> cases htype <;> rfl

theorem executeByType_enum_const (kind : EnumKind) (type : DataType)
    (values : List (List UInt8 × Int)) (N : Nat) (v : Int)
    (htype : kind.cast type = some values) :
    FunctionVisibleWidth.executeByType true type (.const (.int kind.fieldType) N v) =
      some ((getNameForValue values v).bind fun name =>
        Except.pure (Column.constUInt64 N (Int.ofNat (stringWidth name)))) := by
  cases kind <;> cases type <;> cases htype <;> rfl

/-- C20: for a column of an enumeration type (`Enum8` with its `Int8` encoding column,
`Enum16` with its `Int16` one) whose encodings have registered names, the dense encoding
column gives the dense column holding at row `i` the string width of the name of the encoding
stored at row `i`, and the constant encoding column of size `N` gives the constant column of
size `N` holding the width of the one name; neither depends on `log10` or on anything else
the numeric handlers use. -/
theorem enum_width (env : Env) (kind : EnumKind) (type : DataType)
    (values : List (List UInt8 × Int)) (names : Int → List UInt8) (data : List Int)
    (N : Nat) (v : Int) (htype : kind.cast type = some values)
    (hnames : ∀ idx ∈ data, getNameForValue values idx = .ok (names idx))
    (hv : getNameForValue values v = .ok (names v)) :
    FunctionVisibleWidth.executeColumn env true type (.vector (.int kind.fieldType) data) =
      .ok (Column.uint64 (data.map fun idx => Int.ofNat (stringWidth (names idx)))) ∧
    (∀ i idx, data.get? i = some idx →
      (Column.uint64 (data.map fun idx => Int.ofNat (stringWidth (names idx)))).uint64At i =
        some (stringWidth (names idx))) ∧
    FunctionVisibleWidth.executeColumn env true type (.const (.int kind.fieldType) N v) =
      .ok (Column.constUInt64 N (Int.ofNat (stringWidth (names v)))) ∧
    (∀ env' : Env,
      FunctionVisibleWidth.executeColumn env' true type (.vector (.int kind.fieldType) data) =
        FunctionVisibleWidth.executeColumn env true type (.vector (.int kind.fieldType) data) ∧
      FunctionVisibleWidth.executeColumn env' true type (.const (.int kind.fieldType) N v) =
        FunctionVisibleWidth.executeColumn env true type (.const (.int kind.fieldType) N v)) := by
  have hvec : ∀ env' : Env,
      FunctionVisibleWidth.executeColumn env' true type (.vector (.int kind.fieldType) data) =
        .ok (Column.uint64 (data.map fun idx => Int.ofNat (stringWidth (names idx)))) := by
    intro env'
    rw [executeColumn_of_byType env' true type _ _
      (executeByType_enum_vector kind type values data htype)]
    rw [mapM_ok_of _ (fun idx => Int.ofNat (stringWidth (names idx))) data
      (by intro idx hidx; rw [hnames idx hidx]; rfl)]
    rfl
  have hconst : ∀ env' : Env,
      FunctionVisibleWidth.executeColumn env' true type (.const (.int kind.fieldType) N v) =
        .ok (Column.constUInt64 N (Int.ofNat (stringWidth (names v)))) := by
    intro env'
    rw [executeColumn_of_byType env' true type _ _
      (executeByType_enum_const kind type values N v htype), hv]
    rfl
  refine ⟨hvec env, ?_, hconst env, fun env' => ⟨by rw [hvec env', hvec env],
    by rw [hconst env', hconst env]⟩⟩
  intro i idx hi
  apply uint64At_uint64_of_get
  rw [List.get?_eq_getElem?] at hi ⊢
  rw [List.getElem?_map, hi]
  rfl

/-- Witness of `enum_width`: an `Enum8` with the names `a` for 1 and `bcd` for 2. -/
theorem enum_width_witness :
    FunctionVisibleWidth.executeColumn exampleEnv true (.Enum8 [([97], 1), ([98, 99, 100], 2)])
        (.vector (.int EnumKind.Enum8.fieldType) [2, 1, 2]) =
      .ok (Column.uint64 ([2, 1, 2].map fun idx => Int.ofNat
        (stringWidth ((fun idx => if idx = 1 then [97] else [98, 99, 100]) idx)))) ∧
    (∀ i idx, [2, 1, (2 : Int)].get? i = some idx →
      (Column.uint64 ([2, 1, 2].map fun idx => Int.ofNat
        (stringWidth ((fun idx => if idx = 1 then [97] else [98, 99, 100]) idx)))).uint64At i =
        some (stringWidth ((fun idx => if idx = 1 then [97] else [98, 99, 100]) idx))) ∧
    FunctionVisibleWidth.executeColumn exampleEnv true (.Enum8 [([97], 1), ([98, 99, 100], 2)])
        (.const (.int EnumKind.Enum8.fieldType) 5 2) =
      .ok (Column.constUInt64 5 (Int.ofNat
        (stringWidth ((fun idx => if idx = 1 then [97] else [98, 99, 100]) 2)))) ∧
    (∀ env' : Env,
      FunctionVisibleWidth.executeColumn env' true (.Enum8 [([97], 1), ([98, 99, 100], 2)])
          (.vector (.int EnumKind.Enum8.fieldType) [2, 1, 2]) =
        FunctionVisibleWidth.executeColumn exampleEnv true
          (.Enum8 [([97], 1), ([98, 99, 100], 2)])
          (.vector (.int EnumKind.Enum8.fieldType) [2, 1, 2]) ∧
      FunctionVisibleWidth.executeColumn env' true (.Enum8 [([97], 1), ([98, 99, 100], 2)])
          (.const (.int EnumKind.Enum8.fieldType) 5 2) =
        FunctionVisibleWidth.executeColumn exampleEnv true
          (.Enum8 [([97], 1), ([98, 99, 100], 2)])
          (.const (.int EnumKind.Enum8.fieldType) 5 2)) :=
  enum_width exampleEnv .Enum8 (.Enum8 [([97], 1), ([98, 99, 100], 2)])
    [([97], 1), ([98, 99, 100], 2)] (fun idx => if idx = 1 then [97] else [98, 99, 100])
    [2, 1, 2] 5 2 rfl
    (by
      intro idx hidx
      simp only [List.mem_cons, List.mem_singleton, List.not_mem_nil, or_false] at hidx
      rcases hidx with h | h | h <;> subst h <;> rfl)
    rfl

/-! ## `FunctionHasColumnInTable::getReturnTypeAndPrerequisites` -/

theorem checkArguments_step_const (name : String) (arguments : List ColumnWithTypeAndName)
    (i remaining : Nat) (argument : ColumnWithTypeAndName)
    (hget : arguments.get? i = some argument) (hconst : argument.isConstString = true) :
    FunctionHasColumnInTable.checkArguments name arguments i (remaining + 1) =
      FunctionHasColumnInTable.checkArguments name arguments (i + 1) remaining := by
  rw [FunctionHasColumnInTable.checkArguments, hget]
  simp only [hconst]
  rfl

theorem checkArguments_step_other (name : String) (arguments : List ColumnWithTypeAndName)
    (i remaining : Nat) (argument : ColumnWithTypeAndName)
    (hget : arguments.get? i = some argument)
    (hconst : argument.isConstString = false) :
    FunctionHasColumnInTable.checkArguments name arguments i (remaining + 1) =
      .error ⟨FunctionHasColumnInTable.arg_pos_description.getD i "" ++
        " argument for function " ++ name ++ " must be const String.",
        .ILLEGAL_TYPE_OF_ARGUMENT⟩ := by
  rw [FunctionHasColumnInTable.checkArguments, hget]
  simp only [hconst]
  rfl

theorem isConstString_iff (a : ColumnWithTypeAndName) :
    a.isConstString = true ↔ ∃ size data, a.column = some (.constString size data) := by
  unfold ColumnWithTypeAndName.isConstString
  cases h : a.column with
  | none => simp
  | some column => cases column <;> simp

/-- The outcome of the loop over three arguments: the error of the first argument that is
not a constant string, success when there is none. -/
theorem checkArguments_three (name : String) (a b c : ColumnWithTypeAndName) :
    FunctionHasColumnInTable.checkArguments name [a, b, c] 0 3 =
      if a.isConstString = false then
        .error ⟨"First argument for function " ++ name ++ " must be const String.",
          .ILLEGAL_TYPE_OF_ARGUMENT⟩
      else if b.isConstString = false then
        .error ⟨"Second argument for function " ++ name ++ " must be const String.",
          .ILLEGAL_TYPE_OF_ARGUMENT⟩
      else if c.isConstString = false then
        .error ⟨"Third argument for function " ++ name ++ " must be const String.",
          .ILLEGAL_TYPE_OF_ARGUMENT⟩
      else .ok () := by
  cases h1 : a.isConstString with
  | false =>
    rw [checkArguments_step_other name [a, b, c] 0 2 a rfl h1]
    rfl
  | true =>
    rw [checkArguments_step_const name [a, b, c] 0 2 a rfl h1]
    cases h2 : b.isConstString with
    | false =>
      rw [checkArguments_step_other name [a, b, c] 1 1 b rfl h2]
      rfl
    | true =>
      rw [checkArguments_step_const name [a, b, c] 1 1 b rfl h2]
      cases h3 : c.isConstString with
      | false =>
        rw [checkArguments_step_other name [a, b, c] 2 0 c rfl h3]
        rfl
      | true =>
        rw [checkArguments_step_const name [a, b, c] 2 0 c rfl h3]
        rfl

theorem length_eq_three {α : Type} (l : List α) (h : l.length = 3) :
    ∃ a b c, l = [a, b, c] := by
  match l, h with
  | [a, b, c], _ => exact ⟨a, b, c, rfl⟩

/-- C17: `getReturnTypeAndPrerequisites` fails with `NUMBER_OF_ARGUMENTS_DOESNT_MATCH` when
there are not three arguments; with three, it fails with `ILLEGAL_TYPE_OF_ARGUMENT` and a
message starting with `First`, `Second` or `Third` for the lowest index whose argument is
not a constant string column; otherwise it succeeds with the return type `UInt8`.  It
succeeds exactly when there are three arguments, all constant string columns.  An argument
is a constant string column exactly when it carries a `ColumnConstString`: an argument with
another column, or with no column at all, is not. -/
theorem hasColumnInTable_return_type (name : String)
    (arguments : List ColumnWithTypeAndName) :
    (∀ a : ColumnWithTypeAndName,
      (a.isConstString = true ↔ ∃ size data, a.column = some (.constString size data)) ∧
      (a.column = none → a.isConstString = false)) ∧
    (arguments.length ≠ 3 →
      FunctionHasColumnInTable.getReturnTypeAndPrerequisites name arguments =
        .error ⟨"Function " ++ name ++ " requires exactly three arguments.",
          .NUMBER_OF_ARGUMENTS_DOESNT_MATCH⟩) ∧
    (arguments.length = 3 → ∀ i argument, arguments.get? i = some argument →
      argument.isConstString = false →
      (∀ j earlier, j < i → arguments.get? j = some earlier → earlier.isConstString = true) →
      FunctionHasColumnInTable.getReturnTypeAndPrerequisites name arguments =
        .error ⟨["First", "Second", "Third"].getD i "" ++ " argument for function " ++ name ++
          " must be const String.", .ILLEGAL_TYPE_OF_ARGUMENT⟩) ∧
    (arguments.length = 3 → (∀ a ∈ arguments, a.isConstString = true) →
      FunctionHasColumnInTable.getReturnTypeAndPrerequisites name arguments =
        .ok (.number (.int .UInt8))) ∧
    ((∃ type, FunctionHasColumnInTable.getReturnTypeAndPrerequisites name arguments =
        .ok type) ↔
      arguments.length = 3 ∧ ∀ a ∈ arguments, a.isConstString = true) := by
  have hne : arguments.length ≠ 3 →
      FunctionHasColumnInTable.getReturnTypeAndPrerequisites name arguments =
        .error ⟨"Function " ++ name ++ " requires exactly three arguments.",
          .NUMBER_OF_ARGUMENTS_DOESNT_MATCH⟩ := by
    intro h
    have h' : arguments.length ≠ FunctionHasColumnInTable.number_of_arguments := h
    unfold FunctionHasColumnInTable.getReturnTypeAndPrerequisites
    rw [if_pos h']
  have hthree : ∀ a b c, arguments = [a, b, c] →
      FunctionHasColumnInTable.getReturnTypeAndPrerequisites name arguments =
        (FunctionHasColumnInTable.checkArguments name [a, b, c] 0 3).bind fun _ =>
          .ok (.number (.int .UInt8)) := by
    intro a b c h
    subst h
    rfl
  refine ⟨fun a => ⟨isConstString_iff a, fun h => ?_⟩, hne, ?_, ?_, ?_⟩
  · unfold ColumnWithTypeAndName.isConstString
    rw [h]
  · intro hlen i argument hget hnot hbefore
    obtain ⟨a, b, c, habc⟩ := length_eq_three arguments hlen
    subst habc
    rw [hthree a b c rfl, checkArguments_three name a b c]
    rcases i with _ | _ | _ | i
    · simp only [List.get?_cons_zero, Option.some.injEq] at hget
      subst hget
      rw [if_pos hnot]
      rfl
    · simp only [List.get?_cons_succ, List.get?_cons_zero, Option.some.injEq] at hget
      subst hget
      have h0 := hbefore 0 a (by omega) rfl
      rw [if_neg (by rw [h0]; decide), if_pos hnot]
      rfl
    · simp only [List.get?_cons_succ, List.get?_cons_zero, Option.some.injEq] at hget
      subst hget
      have h0 := hbefore 0 a (by omega) rfl
      have h1 := hbefore 1 b (by omega) rfl
      rw [if_neg (by rw [h0]; decide), if_neg (by rw [h1]; decide), if_pos hnot]
      rfl
    · simp at hget
  · intro hlen hall
    obtain ⟨a, b, c, habc⟩ := length_eq_three arguments hlen
    subst habc
    rw [hthree a b c rfl, checkArguments_three name a b c]
    rw [if_neg (by rw [hall a (by simp)]; decide), if_neg (by rw [hall b (by simp)]; decide),
      if_neg (by rw [hall c (by simp)]; decide)]
    rfl
  · constructor
    · rintro ⟨type, hok⟩
      by_cases hlen : arguments.length = 3
      · refine ⟨hlen, ?_⟩
        obtain ⟨a, b, c, habc⟩ := length_eq_three arguments hlen
        subst habc
        rw [hthree a b c rfl, checkArguments_three name a b c] at hok
        cases h1 : a.isConstString with
        | false => rw [if_pos h1] at hok; cases hok
        | true =>
          rw [if_neg (by rw [h1]; decide)] at hok
          cases h2 : b.isConstString with
          | false => rw [if_pos h2] at hok; cases hok
          | true =>
            rw [if_neg (by rw [h2]; decide)] at hok
            cases h3 : c.isConstString with
            | false => rw [if_pos h3] at hok; cases hok
            | true =>
              intro x hx
              simp only [List.mem_cons, List.mem_singleton, List.not_mem_nil, or_false] at hx
              rcases hx with rfl | rfl | rfl
              · exact h1
              · exact h2
              · exact h3
      · rw [hne hlen] at hok
        cases hok
    · rintro ⟨hlen, hall⟩
      obtain ⟨a, b, c, habc⟩ := length_eq_three arguments hlen
      subst habc
      refine ⟨.number (.int .UInt8), ?_⟩
      rw [hthree a b c rfl, checkArguments_three name a b c]
      rw [if_neg (by rw [hall a (by simp)]; decide), if_neg (by rw [hall b (by simp)]; decide),
        if_neg (by rw [hall c (by simp)]; decide)]
      rfl

/-- Witness of `hasColumnInTable_return_type`: a constant string followed by an argument
without a column and by a dense string column; the second argument is refused. -/
theorem hasColumnInTable_return_type_witness :
    FunctionHasColumnInTable.getReturnTypeAndPrerequisites "hasColumnInTable"
        [⟨some (.constString 1 [100, 98]), .String, "database"⟩,
          ⟨none, .String, "table"⟩,
          ⟨some (.string [99, 0] [2]), .String, "column"⟩] =
      .error ⟨"Second argument for function hasColumnInTable must be const String.",
        .ILLEGAL_TYPE_OF_ARGUMENT⟩ :=
  (hasColumnInTable_return_type "hasColumnInTable"
    [⟨some (.constString 1 [100, 98]), .String, "database"⟩,
      ⟨none, .String, "table"⟩,
      ⟨some (.string [99, 0] [2]), .String, "column"⟩]).2.2.1 rfl 1
    ⟨none, .String, "table"⟩ rfl rfl
    (by
      intro j earlier hj hget
      have h3 : j = 0 := by omega
      subst h3
      simp only [List.get?_cons_zero, Option.some.injEq] at hget
      subst hget
      rfl)

/-! ## `JSONRowOutputStream` -/

theorem foldl_non_numeric (sample : List SampleColumn) :
    ∀ found : Bool,
      sample.foldl (fun found column => if !column.isNumeric then true else found) found =
        (found || sample.any fun column => !column.isNumeric) := by
  induction sample with
  | nil => intro found; simp
  | cons c rest ih =>
    intro found
    rw [List.foldl_cons, ih]
    cases found <;> cases hc : c.isNumeric <;> simp [hc]

/-- C16: the stream built by the constructor writes through the UTF-8 validating buffer
exactly when some column of the sample block has a non-numeric type; when all types are
numeric, and so for a block without columns, it writes to the destination buffer itself. -/
theorem validating_iff_non_numeric (env : JSONEnv) (sample : List SampleColumn)
    (write_statistics force_quoting_64bit_integers : Bool) :
    ((JSONRowOutputStream.create env sample write_statistics
        force_quoting_64bit_integers).validating = true ↔
      ∃ column ∈ sample, column.isNumeric = false) ∧
    ((∀ column ∈ sample, column.isNumeric = true) →
      (JSONRowOutputStream.create env sample write_statistics
        force_quoting_64bit_integers).validating = false) ∧
    (JSONRowOutputStream.create env [] write_statistics
      force_quoting_64bit_integers).validating = false := by
  have h : (JSONRowOutputStream.create env sample write_statistics
      force_quoting_64bit_integers).validating =
      sample.any fun column => !column.isNumeric := by
    show sample.foldl (fun found column => if !column.isNumeric then true else found) false = _
    rw [foldl_non_numeric]
    simp
  refine ⟨?_, ?_, rfl⟩
  · rw [h, List.any_eq_true]
    constructor
    · rintro ⟨c, hc, hn⟩
      exact ⟨c, hc, by simpa using hn⟩
    · rintro ⟨c, hc, hn⟩
      exact ⟨c, hc, by simp [hn]⟩
  · intro hall
    rw [h]
    cases hany : sample.any fun column => !column.isNumeric with
    | false => rfl
    | true =>
      rw [List.any_eq_true] at hany
      obtain ⟨c, hc, hn⟩ := hany
      rw [hall c hc] at hn
      cases hn

theorem append_ne_empty (a b : String) (h : a ≠ "") : a ++ b ≠ "" := by
  intro hab
  apply h
  have hl : (a ++ b).length = 0 := by rw [hab]; rfl
  rw [String.length_append] at hl
  have ha : a.length = 0 := by omega
  apply String.ext
  have : a.data.length = 0 := ha
  rw [List.length_eq_zero] at this
  rw [this]

theorem writeTotals_eq (env : JSONEnv) (s : JSONRowOutputStream) :
    s.writeTotals env =
      { s with out := s.out ++ JSONRowOutputStream.written (JSONRowOutputStream.writeTotals env) s } := by
  obtain ⟨fields, validating, ws, fq, fn, rc, al, rbl, totals, extremes, pr, pb, out⟩ := s
  cases totals with
  | none => simp [JSONRowOutputStream.written, JSONRowOutputStream.writeTotals]
  | some totals =>
    simp [JSONRowOutputStream.written, JSONRowOutputStream.writeTotals,
      JSONRowOutputStream.write]

theorem writeExtremes_eq (env : JSONEnv) (s : JSONRowOutputStream) :
    s.writeExtremes env =
      { s with out := s.out ++
        JSONRowOutputStream.written (JSONRowOutputStream.writeExtremes env) s } := by
  obtain ⟨fields, validating, ws, fq, fn, rc, al, rbl, totals, extremes, pr, pb, out⟩ := s
  cases extremes with
  | none => simp [JSONRowOutputStream.written, JSONRowOutputStream.writeExtremes]
  | some extremes =>
    simp [JSONRowOutputStream.written, JSONRowOutputStream.writeExtremes,
      JSONRowOutputStream.write]

theorem writeRowsBeforeLimitAtLeast_eq (s : JSONRowOutputStream) :
    s.writeRowsBeforeLimitAtLeast =
      { s with out := s.out ++
        JSONRowOutputStream.written JSONRowOutputStream.writeRowsBeforeLimitAtLeast s } := by
  obtain ⟨fields, validating, ws, fq, fn, rc, al, rbl, totals, extremes, pr, pb, out⟩ := s
  cases al with
  | false => simp [JSONRowOutputStream.written, JSONRowOutputStream.writeRowsBeforeLimitAtLeast]
  | true =>
    simp [JSONRowOutputStream.written, JSONRowOutputStream.writeRowsBeforeLimitAtLeast,
      JSONRowOutputStream.write]

theorem writeStatistics_eq (env : JSONEnv) (s : JSONRowOutputStream) :
    s.writeStatistics env =
      { s with out := s.out ++
        JSONRowOutputStream.written (JSONRowOutputStream.writeStatistics env) s } := by
  obtain ⟨fields, validating, ws, fq, fn, rc, al, rbl, totals, extremes, pr, pb, out⟩ := s
  simp [JSONRowOutputStream.written, JSONRowOutputStream.writeStatistics,
    JSONRowOutputStream.write]

/-- What `writeSuffix` does: it appends the close of the data array, what `writeTotals` and
`writeExtremes` write, the row count, what `writeRowsBeforeLimitAtLeast` writes, what
`writeStatistics` writes when statistics were asked for, and the closing brace. -/
theorem writeSuffix_eq (env : JSONEnv) (s : JSONRowOutputStream) :
    s.writeSuffix env =
      { s with out := s.out ++ "\n\t]" ++
        JSONRowOutputStream.written (JSONRowOutputStream.writeTotals env) s ++
        JSONRowOutputStream.written (JSONRowOutputStream.writeExtremes env) s ++
        ",\n\n\t\"rows\": " ++ writeIntText s.row_count ++
        JSONRowOutputStream.written JSONRowOutputStream.writeRowsBeforeLimitAtLeast s ++
        (if s.write_statistics then
          JSONRowOutputStream.written (JSONRowOutputStream.writeStatistics env) s else "") ++
        "\n\x7d\n" } := by
  unfold JSONRowOutputStream.writeSuffix
  simp only []
  rw [writeTotals_eq, writeExtremes_eq]
  simp only [JSONRowOutputStream.write]
  rw [writeRowsBeforeLimitAtLeast_eq]
  obtain ⟨fields, validating, ws, fq, fn, rc, al, rbl, totals, extremes, pr, pb, out⟩ := s
  cases ws with
  | false =>
    simp only [Bool.false_eq_true, if_false, String.append_empty]
    simp only [JSONRowOutputStream.written, String.append_assoc]
    rfl
  | true =>
    simp only [if_true]
    rw [writeStatistics_eq]
    simp only [JSONRowOutputStream.written, String.append_assoc]
    rfl

theorem written_writeTotals (env : JSONEnv) (s : JSONRowOutputStream) :
    JSONRowOutputStream.written (JSONRowOutputStream.writeTotals env) s =
      match s.totals with
      | none => ""
      | some totals =>
        ",\n\n\t\"totals\":\n\t\x7b\n" ++
          JSONRowOutputStream.writeColumns env "\t\t" 0 s.force_quoting_64bit_integers 0 totals ++
          "\n\t\x7d" := by
  obtain ⟨fields, validating, ws, fq, fn, rc, al, rbl, totals, extremes, pr, pb, out⟩ := s
  cases totals with
  | none => rfl
  | some totals =>
    simp only [JSONRowOutputStream.written, JSONRowOutputStream.writeTotals,
      JSONRowOutputStream.write, String.empty_append, String.append_assoc]
    rfl

theorem written_writeExtremes (env : JSONEnv) (s : JSONRowOutputStream) :
    JSONRowOutputStream.written (JSONRowOutputStream.writeExtremes env) s =
      match s.extremes with
      | none => ""
      | some extremes =>
        ",\n\n\t\"extremes\":\n\t\x7b\n\t\t\"min\":\n\t\t\x7b\n" ++
          JSONRowOutputStream.writeColumns env "\t\t\t" 0 s.force_quoting_64bit_integers 0
            extremes ++
          "\n\t\t\x7d,\n\t\t\"max\":\n\t\t\x7b\n" ++
          JSONRowOutputStream.writeColumns env "\t\t\t" 1 s.force_quoting_64bit_integers 0
            extremes ++
          "\n\t\t\x7d\n\t\x7d" := by
  obtain ⟨fields, validating, ws, fq, fn, rc, al, rbl, totals, extremes, pr, pb, out⟩ := s
  cases extremes with
  | none => rfl
  | some extremes =>
    simp only [JSONRowOutputStream.written, JSONRowOutputStream.writeExtremes,
      writeExtremesElement, JSONRowOutputStream.write, String.empty_append,
      String.append_assoc]
    rfl

theorem written_writeRowsBeforeLimitAtLeast (s : JSONRowOutputStream) :
    JSONRowOutputStream.written JSONRowOutputStream.writeRowsBeforeLimitAtLeast s =
      if s.applied_limit then
        ",\n\n\t\"rows_before_limit_at_least\": " ++ writeIntText s.rows_before_limit
      else "" := by
  obtain ⟨fields, validating, ws, fq, fn, rc, al, rbl, totals, extremes, pr, pb, out⟩ := s
  cases al with
  | false => rfl
  | true =>
    simp only [JSONRowOutputStream.written, JSONRowOutputStream.writeRowsBeforeLimitAtLeast,
      JSONRowOutputStream.write, String.empty_append, String.append_assoc, if_true]
    rw [← String.append_assoc]
    rfl

theorem written_writeStatistics (env : JSONEnv) (s : JSONRowOutputStream) :
    JSONRowOutputStream.written (JSONRowOutputStream.writeStatistics env) s =
      ",\n\n\t\"statistics\":\n\t\x7b\n\t\t\"elapsed\": " ++ env.elapsedSeconds ++
        ",\n\t\t\"rows_read\": " ++ writeIntText s.progress_rows ++
        ",\n\t\t\"bytes_read\": " ++ writeIntText s.progress_bytes ++ "\n\t\x7d" := by
  obtain ⟨fields, validating, ws, fq, fn, rc, al, rbl, totals, extremes, pr, pb, out⟩ := s
  simp only [JSONRowOutputStream.written, JSONRowOutputStream.writeStatistics,
    JSONRowOutputStream.write, String.empty_append, String.append_assoc]
  rfl

theorem writeColumns_go (env : JSONEnv) (indent : String) (row_num : Nat) (q : Bool) :
    ∀ (columns : List JSONColumn) (i : Nat) (acc : String),
      String.intercalate.go acc ",\n" (columns.map fun column =>
          indent ++ env.writeJSONString column.name ++ ": " ++
            column.serializeTextJSON row_num q) =
        acc ++ JSONRowOutputStream.writeColumns env indent row_num q (i + 1) columns := by
  intro columns
  induction columns with
  | nil =>
    intro i acc
    simp [String.intercalate.go, JSONRowOutputStream.writeColumns]
  | cons column rest ih =>
    intro i acc
    simp only [List.map_cons, String.intercalate.go, JSONRowOutputStream.writeColumns]
    rw [ih (i + 1)]
    simp [String.append_assoc]

/-- The loop over the columns writes the entries `indent name: value` of the columns, the
value taken at row `row_num`, joined by a comma and a line feed. -/
theorem writeColumns_eq_intercalate (env : JSONEnv) (indent : String) (row_num : Nat)
    (q : Bool) (columns : List JSONColumn) :
    JSONRowOutputStream.writeColumns env indent row_num q 0 columns =
      String.intercalate ",\n" (columns.map fun column =>
        indent ++ env.writeJSONString column.name ++ ": " ++
          column.serializeTextJSON row_num q) := by
  cases columns with
  | nil => rfl
  | cons column rest =>
    simp only [List.map_cons, String.intercalate, JSONRowOutputStream.writeColumns]
    rw [writeColumns_go env indent row_num q rest 0]
    simp [String.append_assoc]

/-- C14: `writeSuffix` appends, in this order, the close of the data array, the totals
section (an entry `name: value` per column of the totals block, the value of row 0), the
extremes section (`min`, an entry per column of the extremes block with the value of row 0,
then `max`, an entry per column with the value of row 1), the row count,
`rows_before_limit_at_least`, the statistics section and the closing brace; the totals
section is written exactly when a totals block is present, the extremes section exactly when
an extremes block is present, `rows_before_limit_at_least` exactly when a limit was applied,
the statistics exactly when they were asked for, and a section that is not written adds no
byte: with all four absent the suffix is the close of the array, the row count and the
closing brace. -/
theorem writeSuffix_sections (env : JSONEnv) (s : JSONRowOutputStream) :
    (s.writeSuffix env).out = s.out ++ "\n\t]" ++
      JSONRowOutputStream.written (JSONRowOutputStream.writeTotals env) s ++
      JSONRowOutputStream.written (JSONRowOutputStream.writeExtremes env) s ++
      ",\n\n\t\"rows\": " ++ writeIntText s.row_count ++
      JSONRowOutputStream.written JSONRowOutputStream.writeRowsBeforeLimitAtLeast s ++
      (if s.write_statistics then
        JSONRowOutputStream.written (JSONRowOutputStream.writeStatistics env) s else "") ++
      "\n\x7d\n" ∧
    (JSONRowOutputStream.written (JSONRowOutputStream.writeTotals env) s = "" ↔
      s.totals = none) ∧
    (∀ totals, s.totals = some totals →
      JSONRowOutputStream.written (JSONRowOutputStream.writeTotals env) s =
        ",\n\n\t\"totals\":\n\t\x7b\n" ++
          String.intercalate ",\n" (totals.map fun column =>
            "\t\t" ++ env.writeJSONString column.name ++ ": " ++
              column.serializeTextJSON 0 s.force_quoting_64bit_integers) ++
          "\n\t\x7d") ∧
    (JSONRowOutputStream.written (JSONRowOutputStream.writeExtremes env) s = "" ↔
      s.extremes = none) ∧
    (∀ extremes, s.extremes = some extremes →
      JSONRowOutputStream.written (JSONRowOutputStream.writeExtremes env) s =
        ",\n\n\t\"extremes\":\n\t\x7b\n\t\t\"min\":\n\t\t\x7b\n" ++
          String.intercalate ",\n" (extremes.map fun column =>
            "\t\t\t" ++ env.writeJSONString column.name ++ ": " ++
              column.serializeTextJSON 0 s.force_quoting_64bit_integers) ++
          "\n\t\t\x7d,\n\t\t\"max\":\n\t\t\x7b\n" ++
          String.intercalate ",\n" (extremes.map fun column =>
            "\t\t\t" ++ env.writeJSONString column.name ++ ": " ++
              column.serializeTextJSON 1 s.force_quoting_64bit_integers) ++
          "\n\t\t\x7d\n\t\x7d") ∧
    (JSONRowOutputStream.written JSONRowOutputStream.writeRowsBeforeLimitAtLeast s = "" ↔
      s.applied_limit = false) ∧
    (s.applied_limit = true →
      JSONRowOutputStream.written JSONRowOutputStream.writeRowsBeforeLimitAtLeast s =
        ",\n\n\t\"rows_before_limit_at_least\": " ++ writeIntText s.rows_before_limit) ∧
    ((if s.write_statistics then
        JSONRowOutputStream.written (JSONRowOutputStream.writeStatistics env) s else "") = "" ↔
      s.write_statistics = false) ∧
    JSONRowOutputStream.written (JSONRowOutputStream.writeStatistics env) s =
      ",\n\n\t\"statistics\":\n\t\x7b\n\t\t\"elapsed\": " ++ env.elapsedSeconds ++
        ",\n\t\t\"rows_read\": " ++ writeIntText s.progress_rows ++
        ",\n\t\t\"bytes_read\": " ++ writeIntText s.progress_bytes ++ "\n\t\x7d" ∧
    (s.totals = none → s.extremes = none → s.applied_limit = false →
      s.write_statistics = false →
      (s.writeSuffix env).out =
        s.out ++ "\n\t],\n\n\t\"rows\": " ++ writeIntText s.row_count ++ "\n\x7d\n") := by
  have hout : (s.writeSuffix env).out = s.out ++ "\n\t]" ++
      JSONRowOutputStream.written (JSONRowOutputStream.writeTotals env) s ++
      JSONRowOutputStream.written (JSONRowOutputStream.writeExtremes env) s ++
      ",\n\n\t\"rows\": " ++ writeIntText s.row_count ++
      JSONRowOutputStream.written JSONRowOutputStream.writeRowsBeforeLimitAtLeast s ++
      (if s.write_statistics then
        JSONRowOutputStream.written (JSONRowOutputStream.writeStatistics env) s else "") ++
      "\n\x7d\n" := by
    rw [writeSuffix_eq]
  have hne : ∀ rest : String, ",\n\n" ++ rest ≠ "" := by
    intro rest
    exact append_ne_empty _ _ (by decide)
  refine ⟨hout, ?_, ?_, ?_, ?_, ?_, ?_, ?_, written_writeStatistics env s, ?_⟩
  · rw [written_writeTotals]
    cases h : s.totals with
    | none => simp
    | some totals =>
      simp only [reduceCtorEq, iff_false]
      have e : ",\n\n\t\"totals\":\n\t\x7b\n" = ",\n\n" ++ "\t\"totals\":\n\t\x7b\n" := by decide
      rw [e, String.append_assoc, String.append_assoc]
      exact hne _
  · intro totals h
    rw [written_writeTotals, h]
    simp only []
    rw [writeColumns_eq_intercalate]
  · rw [written_writeExtremes]
    cases h : s.extremes with
    | none => simp
    | some extremes =>
      simp only [reduceCtorEq, iff_false]
      have e : ",\n\n\t\"extremes\":\n\t\x7b\n\t\t\"min\":\n\t\t\x7b\n" =
          ",\n\n" ++ "\t\"extremes\":\n\t\x7b\n\t\t\"min\":\n\t\t\x7b\n" := by decide
      rw [e]
      simp only [String.append_assoc]
      exact hne _
  · intro extremes h
    rw [written_writeExtremes, h]
    simp only []
    rw [writeColumns_eq_intercalate, writeColumns_eq_intercalate]
  · rw [written_writeRowsBeforeLimitAtLeast]
    cases h : s.applied_limit with
    | false => simp
    | true =>
      simp only [if_true, reduceCtorEq, iff_false]
      have e : ",\n\n\t\"rows_before_limit_at_least\": " =
          ",\n\n" ++ "\t\"rows_before_limit_at_least\": " := by decide
      rw [e, String.append_assoc]
      exact hne _
  · intro h
    rw [written_writeRowsBeforeLimitAtLeast, h]
    rfl
  · cases h : s.write_statistics with
    | false => simp
    | true =>
      simp only [if_true, reduceCtorEq, iff_false]
      rw [written_writeStatistics]
      have e : ",\n\n\t\"statistics\":\n\t\x7b\n\t\t\"elapsed\": " =
          ",\n\n" ++ "\t\"statistics\":\n\t\x7b\n\t\t\"elapsed\": " := by decide
      rw [e]
      simp only [String.append_assoc]
      exact hne _
  · intro h1 h2 h3 h4
    rw [hout, written_writeTotals, written_writeExtremes, written_writeRowsBeforeLimitAtLeast,
      h1, h2, h3, h4]
    simp only [Bool.false_eq_true, if_false, String.append_empty]
    simp only [String.append_assoc]
    rfl

/-- An extremes block of two columns: `min` holds the values of row 0, `max` those of row 1,
one entry per column in the order of the block. -/
theorem writeExtremes_rows_example :
    JSONRowOutputStream.written (JSONRowOutputStream.writeExtremes exampleJSONEnv)
      { JSONRowOutputStream.create exampleJSONEnv [] false false with
        extremes := some [⟨"x", fun row _ => toString row⟩,
          ⟨"y", fun row _ => toString (row + 10)⟩] } =
      ",\n\n\t\"extremes\":\n\t\x7b\n\t\t\"min\":\n\t\t\x7b\n\t\t\t\"x\": 0,\n\t\t\t\"y\": 10\n\t\t\x7d,\n\t\t\"max\":\n\t\t\x7b\n\t\t\t\"x\": 1,\n\t\t\t\"y\": 11\n\t\t\x7d\n\t\x7d" := by
  decide

/-- C13: for a stream built over one field `f` of type `t` whose names `writeJSONString`
only puts between quotes, without statistics and without quoting of 64-bit integers, the
calls `writePrefix`, `writeRowStartDelimiter`, `writeField` (value text `v`),
`writeRowEndDelimiter`, `writeSuffix` succeed and write exactly the bytes given; these bytes
and the one-line form of the document consist of the same tokens in the same order and
differ in the blank text between the tokens only; for `n`, `UInt64`, `42` the tokens are those of
the document of scenario D. -/
theorem single_row_document (env : JSONEnv) (f t : String) (numeric : Bool)
    (v : Bool → String) (hf : env.writeJSONString f = "\"" ++ f ++ "\"")
    (ht : env.writeJSONString t = "\"" ++ t ++ "\"") :
    ∃ s, (((JSONRowOutputStream.create env [⟨f, t, numeric⟩] false false).writePrefix
        env).writeRowStartDelimiter).writeField v = some s ∧
      (s.writeRowEndDelimiter.writeSuffix env).out =
        "\x7b\n\t\"meta\":\n\t[\n\t\t\x7b\n\t\t\t\"name\": \"" ++ f ++
          "\",\n\t\t\t\"type\": \"" ++ t ++
          "\"\n\t\t\x7d\n\t],\n\n\t\"data\":\n\t[\n\t\t\x7b\n\t\t\t\"" ++ f ++ "\": " ++
          v false ++ "\n\t\t\x7d\n\t],\n\n\t\"rows\": 1\n\x7d\n" ∧
      (s.writeRowEndDelimiter.writeSuffix env).out =
        weave singleRowStreamLayout
          (singleRowTokens ("\"" ++ f ++ "\"") ("\"" ++ t ++ "\"") (v false)) ∧
      "\x7b\"meta\":[\x7b\"name\":\"" ++ f ++ "\",\"type\":\"" ++ t ++
          "\"\x7d],\"data\":[\x7b\"" ++ f ++ "\": " ++ v false ++ "\x7d],\"rows\": 1\x7d" =
        weave singleRowCompactLayout
          (singleRowTokens ("\"" ++ f ++ "\"") ("\"" ++ t ++ "\"") (v false)) ∧
      singleRowStreamLayout.all isBlank = true ∧ singleRowCompactLayout.all isBlank = true ∧
      singleRowStreamLayout.length = singleRowCompactLayout.length ∧
      singleRowTokens "\"n\"" "\"UInt64\"" "42" =
        ["\x7b", "\"meta\"", ":", "[", "\x7b", "\"name\"", ":", "\"n\"", ",", "\"type\"", ":",
          "\"UInt64\"", "\x7d", "]", ",", "\"data\"", ":", "[", "\x7b", "\"n\"", ":", "42",
          "\x7d", "]", ",", "\"rows\"", ":", "1", "\x7d"] := by
  have hout : ∀ s : JSONRowOutputStream,
      (((JSONRowOutputStream.create env [⟨f, t, numeric⟩] false false).writePrefix
        env).writeRowStartDelimiter).writeField v = some s →
      (s.writeRowEndDelimiter.writeSuffix env).out =
        "\x7b\n\t\"meta\":\n\t[\n\t\t\x7b\n\t\t\t\"name\": \"" ++ f ++
          "\",\n\t\t\t\"type\": \"" ++ t ++
          "\"\n\t\t\x7d\n\t],\n\n\t\"data\":\n\t[\n\t\t\x7b\n\t\t\t\"" ++ f ++ "\": " ++
          v false ++ "\n\t\t\x7d\n\t],\n\n\t\"rows\": 1\n\x7d\n" := by
    intro s hs
    simp only [JSONRowOutputStream.create, List.map, JSONRowOutputStream.writePrefix,
      JSONRowOutputStream.writePrefixFields, JSONRowOutputStream.writeRowStartDelimiter,
      JSONRowOutputStream.writeField, JSONRowOutputStream.write, List.length_singleton,
      Nat.lt_irrefl, if_false, List.get?_cons_zero, Option.some.injEq, hf, ht,
      gt_iff_lt] at hs
    subst hs
    rw [writeSuffix_eq]
    simp only [written_writeTotals, written_writeExtremes, written_writeRowsBeforeLimitAtLeast,
      JSONRowOutputStream.writeRowEndDelimiter, JSONRowOutputStream.write,
      Bool.false_eq_true, if_false, String.append_empty, String.empty_append]
    apply String.ext
    simp [String.data_append, writeIntText]
    rfl
  refine ⟨_, rfl, hout _ rfl, ?_, ?_, by decide, by decide, by decide, rfl⟩
  · rw [hout _ rfl]
    apply String.ext
    simp [weave, singleRowStreamLayout, singleRowTokens, String.data_append]
  · apply String.ext
    simp [weave, singleRowCompactLayout, singleRowTokens, String.data_append]

/-- Witness of `single_row_document`: scenario D, the field `n` of type `UInt64` with the
value 42. -/
theorem single_row_document_witness :
    ∃ s, (((JSONRowOutputStream.create exampleJSONEnv [⟨"n", "UInt64", true⟩] false
        false).writePrefix exampleJSONEnv).writeRowStartDelimiter).writeField
          (fun _ => "42") = some s ∧
      (s.writeRowEndDelimiter.writeSuffix exampleJSONEnv).out =
        "\x7b\n\t\"meta\":\n\t[\n\t\t\x7b\n\t\t\t\"name\": \"n\",\n\t\t\t\"type\": \"UInt64\"\n\t\t\x7d\n\t],\n\n\t\"data\":\n\t[\n\t\t\x7b\n\t\t\t\"n\": 42\n\t\t\x7d\n\t],\n\n\t\"rows\": 1\n\x7d\n" :=
  (single_row_document exampleJSONEnv "n" "UInt64" true (fun _ => "42") rfl rfl).imp
    fun _ h => ⟨h.1, h.2.1.trans (by decide)⟩

/-! ## Sequences of calls on the stream -/

theorem calls_append (env : JSONEnv) :
    ∀ (a b : List StreamCall) (s : JSONRowOutputStream),
      s.calls env (a ++ b) = (s.calls env a).bind fun s => s.calls env b := by
  intro a
  induction a with
  | nil => intro b s; rfl
  | cons c rest ih =>
    intro b s
    simp only [List.cons_append, JSONRowOutputStream.calls]
    cases s.call env c with
    | none => rfl
    | some s1 => exact ih b s1

theorem calls_singleton (env : JSONEnv) (s : JSONRowOutputStream) (c : StreamCall) :
    s.calls env [c] = s.call env c := by
  simp only [JSONRowOutputStream.calls]
  cases s.call env c <;> rfl

theorem writeRowStartDelimiter_eq (s : JSONRowOutputStream) :
    s.writeRowStartDelimiter =
      { s with out := s.out ++ (if s.row_count > 0 then ",\n" else "") ++ "\t\t\x7b\n" } := by
  unfold JSONRowOutputStream.writeRowStartDelimiter
  by_cases h : s.row_count > 0
  · simp only [h, if_true, JSONRowOutputStream.write]
  · simp only [h, if_false, JSONRowOutputStream.write, String.append_empty]

theorem writeRowEndDelimiter_eq (s : JSONRowOutputStream) :
    s.writeRowEndDelimiter =
      { s with
        out := s.out ++ "\n\t\t\x7d"
        field_number := 0
        row_count := (s.row_count + 1) % 2 ^ 64 } := rfl

theorem writeField_eq (s s' : JSONRowOutputStream) (value : Bool → String)
    (h : s.writeField value = some s') :
    ∃ field, s.fields.get? s.field_number = some field ∧
      s' = { s with
        out := s.out ++ "\t\t\t" ++ field.name ++ ": " ++ value s.force_quoting_64bit_integers
        field_number := (s.field_number + 1) % 2 ^ 64 } := by
  unfold JSONRowOutputStream.writeField at h
  cases hg : s.fields.get? s.field_number with
  | none => rw [hg] at h; cases h
  | some field =>
    rw [hg] at h
    simp only [Option.some.injEq] at h
    refine ⟨field, rfl, ?_⟩
    rw [← h]
    simp only [JSONRowOutputStream.write, String.append_assoc]

/-- The calls for the fields of a row write the text `fieldCallsText` gives and leave the
row count, the fields and the options as they are. -/
theorem calls_fields (env : JSONEnv) :
    ∀ (row : List StreamCall) (s : JSONRowOutputStream) (body : String),
      fieldCallsText s.fields s.force_quoting_64bit_integers s.field_number row = some body →
      ∃ s', s.calls env row = some s' ∧ s'.out = s.out ++ body ∧
        s'.row_count = s.row_count ∧ s'.fields = s.fields ∧
        s'.force_quoting_64bit_integers = s.force_quoting_64bit_integers := by
  intro row
  induction row with
  | nil =>
    intro s body h
    simp only [fieldCallsText, Option.some.injEq] at h
    subst h
    exact ⟨s, rfl, by rw [String.append_empty], rfl, rfl, rfl⟩
  | cons c rest ih =>
    intro s body h
    cases c with
    | writeField value =>
      simp only [fieldCallsText] at h
      cases hg : s.fields.get? s.field_number with
      | none => rw [hg] at h; cases h
      | some field =>
        rw [hg] at h
        simp only [Option.map_eq_some'] at h
        obtain ⟨text, htext, hbody⟩ := h
        have hw : s.writeField value = some { s with
            out := s.out ++ ("\t\t\t" ++ field.name ++ ": " ++
              value s.force_quoting_64bit_integers)
            field_number := (s.field_number + 1) % 2 ^ 64 } := by
          unfold JSONRowOutputStream.writeField
          rw [hg]
          rfl
        obtain ⟨s', hs', hout, hrc, hfields, hforce⟩ := ih { s with
            out := s.out ++ ("\t\t\t" ++ field.name ++ ": " ++
              value s.force_quoting_64bit_integers)
            field_number := (s.field_number + 1) % 2 ^ 64 } text htext
        refine ⟨s', ?_, ?_, hrc, hfields, hforce⟩
        · simp only [JSONRowOutputStream.calls, JSONRowOutputStream.call, hw, Option.some_bind]
          exact hs'
        · rw [hout, ← hbody]
          simp only [String.append_assoc]
    | writeFieldDelimiter =>
      simp only [fieldCallsText, Option.map_eq_some'] at h
      obtain ⟨text, htext, hbody⟩ := h
      obtain ⟨s', hs', hout, hrc, hfields, hforce⟩ := ih s.writeFieldDelimiter text htext
      refine ⟨s', ?_, ?_, hrc, hfields, hforce⟩
      · simp only [JSONRowOutputStream.calls, JSONRowOutputStream.call, Option.some_bind]
        exact hs'
      · rw [hout, ← hbody]
        simp only [JSONRowOutputStream.writeFieldDelimiter, JSONRowOutputStream.write,
          String.append_assoc]
    | writePrefix => simp [fieldCallsText] at h
    | writeRowStartDelimiter => simp [fieldCallsText] at h
    | writeRowEndDelimiter => simp [fieldCallsText] at h

/-- The calls for one row. -/
theorem calls_row (env : JSONEnv) (row : List StreamCall) (s : JSONRowOutputStream)
    (body : String) (hfield : s.field_number = 0)
    (h : fieldCallsText s.fields s.force_quoting_64bit_integers 0 row = some body) :
    ∃ s', s.calls env ([StreamCall.writeRowStartDelimiter] ++ row ++
        [StreamCall.writeRowEndDelimiter]) = some s' ∧
      s'.out = s.out ++ (if s.row_count > 0 then ",\n" else "") ++ "\t\t\x7b\n" ++ body ++
        "\n\t\t\x7d" ∧
      s'.row_count = (s.row_count + 1) % 2 ^ 64 ∧ s'.field_number = 0 ∧
      s'.fields = s.fields ∧
      s'.force_quoting_64bit_integers = s.force_quoting_64bit_integers := by
  have h1 : fieldCallsText s.writeRowStartDelimiter.fields
      s.writeRowStartDelimiter.force_quoting_64bit_integers
      s.writeRowStartDelimiter.field_number row = some body := by
    rw [writeRowStartDelimiter_eq]
    simp only [hfield]
    exact h
  obtain ⟨s1, hs1, hout, hrc, hfields, hforce⟩ := calls_fields env row _ body h1
  refine ⟨s1.writeRowEndDelimiter, ?_, ?_, ?_, rfl, ?_, ?_⟩
  · show s.calls env (StreamCall.writeRowStartDelimiter ::
      (row ++ [StreamCall.writeRowEndDelimiter])) = _
    simp only [JSONRowOutputStream.calls, JSONRowOutputStream.call, Option.some_bind]
    rw [calls_append, hs1]
    simp only [Option.some_bind]
    rw [calls_singleton]
    rfl
  · rw [writeRowEndDelimiter_eq]
    simp only []
    rw [hout, writeRowStartDelimiter_eq]
  · rw [writeRowEndDelimiter_eq]
    simp only []
    rw [hrc, writeRowStartDelimiter_eq]
  · rw [writeRowEndDelimiter_eq]
    simp only []
    rw [hfields, writeRowStartDelimiter_eq]
  · rw [writeRowEndDelimiter_eq]
    simp only []
    rw [hforce, writeRowStartDelimiter_eq]

/-- The calls for a sequence of rows. -/
theorem calls_rows (env : JSONEnv) :
    ∀ (rows : List (List StreamCall)) (bodies : List String) (s : JSONRowOutputStream),
      List.Forall₂ (fun row body =>
        fieldCallsText s.fields s.force_quoting_64bit_integers 0 row = some body) rows bodies →
      s.field_number = 0 → s.row_count + rows.length ≤ 2 ^ 64 → rows ≠ [] →
      ∃ s', s.calls env (rowsCalls rows) = some s' ∧
        s'.out = s.out ++ (if s.row_count > 0 then ",\n" else "") ++ rowsText bodies ∧
        s'.row_count = (s.row_count + rows.length) % 2 ^ 64 := by
  intro rows
  induction rows with
  | nil => intro _ _ _ _ _ h; exact absurd rfl h
  | cons row rest ih =>
    intro bodies s hbodies hfield hlen _
    cases hbodies with
    | cons hrow hrest =>
      rename_i body bodies'
      obtain ⟨s1, hs1, hout1, hrc1, hfn1, hfields1, hforce1⟩ :=
        calls_row env row s body hfield hrow
      simp only [List.length_cons] at hlen
      cases rest with
      | nil =>
        cases hrest
        refine ⟨s1, ?_, ?_, ?_⟩
        · simp only [rowsCalls, List.append_nil]
          exact hs1
        · rw [hout1]
          simp only [rowsText, String.append_assoc]
        · rw [hrc1]
          rfl
      | cons row2 rest2 =>
        have hrest' : List.Forall₂ (fun row body =>
            fieldCallsText s1.fields s1.force_quoting_64bit_integers 0 row = some body)
            (row2 :: rest2) bodies' := by
          rw [hfields1, hforce1]
          exact hrest
        simp only [List.length_cons] at hlen
        have hrc1' : s1.row_count = s.row_count + 1 := by
          rw [hrc1]
          exact Nat.mod_eq_of_lt (by omega)
        obtain ⟨s2, hs2, hout2, hrc2⟩ := ih bodies' s1 hrest' hfn1
          (by rw [hrc1']; simp only [List.length_cons]; omega) (by simp)
        refine ⟨s2, ?_, ?_, ?_⟩
        · rw [rowsCalls, calls_append, hs1]
          simp only [Option.some_bind]
          exact hs2
        · rw [hout2, hout1, hrc1']
          cases hrest with
          | cons hrow2 hrest2 =>
            simp only [Nat.succ_pos, gt_iff_lt, Nat.lt_add_left_iff_pos, Nat.zero_lt_one,
              if_true, rowsText, String.append_assoc, Nat.add_one_pos]
        · rw [hrc2, hrc1']
          simp only [List.length_cons]
          congr 1
          omega

/-- C15: `writeRowStartDelimiter` writes the row separator before the opening of the row
exactly when `row_count > 0`, and changes nothing but the buffer; so the calls for
`k >= 1` rows (at most `2^64`, `row_count` being a `size_t`), made from a state without a
completed row, write the rows with one separator between two rows, `k - 1` in all, none
before the first row and none after the last. -/
theorem row_separators (env : JSONEnv) (s : JSONRowOutputStream)
    (rows : List (List StreamCall)) (bodies : List String) (hcount : s.row_count = 0)
    (hfield : s.field_number = 0) (hrows : rows ≠ []) (hlen : rows.length ≤ 2 ^ 64)
    (hbodies : List.Forall₂ (fun row body =>
      fieldCallsText s.fields s.force_quoting_64bit_integers 0 row = some body) rows bodies) :
    (∀ state : JSONRowOutputStream, state.writeRowStartDelimiter =
      { state with
        out := state.out ++ (if state.row_count > 0 then ",\n" else "") ++ "\t\t\x7b\n" }) ∧
    ∃ s', s.calls env (rowsCalls rows) = some s' ∧ s'.out = s.out ++ rowsText bodies ∧
      s'.row_count = rows.length % 2 ^ 64 := by
  refine ⟨writeRowStartDelimiter_eq, ?_⟩
  obtain ⟨s', hs', hout, hrc⟩ := calls_rows env rows bodies s hbodies hfield
    (by rw [hcount]; omega) hrows
  refine ⟨s', hs', ?_, ?_⟩
  · rw [hout, hcount]
    simp only [gt_iff_lt, Nat.lt_irrefl, if_false, String.append_empty]
  · rw [hrc, hcount, Nat.zero_add]

/-- Witness of `row_separators`: two rows of one field after `writePrefix`. -/
theorem row_separators_witness :
    ∃ s', ((JSONRowOutputStream.create exampleJSONEnv [⟨"n", "UInt64", true⟩] false
        false).writePrefix exampleJSONEnv).calls exampleJSONEnv
          (rowsCalls [[.writeField fun _ => "1"], [.writeField fun _ => "2"]]) = some s' ∧
      s'.out = ((JSONRowOutputStream.create exampleJSONEnv [⟨"n", "UInt64", true⟩] false
        false).writePrefix exampleJSONEnv).out ++
          rowsText ["\t\t\t\"n\": 1", "\t\t\t\"n\": 2"] ∧
      s'.row_count = [[StreamCall.writeField fun _ => "1"],
        [StreamCall.writeField fun _ => "2"]].length % 2 ^ 64 :=
  (row_separators exampleJSONEnv
    ((JSONRowOutputStream.create exampleJSONEnv [⟨"n", "UInt64", true⟩] false
      false).writePrefix exampleJSONEnv)
    [[.writeField fun _ => "1"], [.writeField fun _ => "2"]]
    ["\t\t\t\"n\": 1", "\t\t\t\"n\": 2"] rfl rfl (by simp) (by simp)
    (List.Forall₂.cons (by decide) (List.Forall₂.cons (by decide) List.Forall₂.nil))).2

theorem rowEndCalls_append (a b : List StreamCall) :
    rowEndCalls (a ++ b) = rowEndCalls a + rowEndCalls b := by
  induction a with
  | nil => simp [rowEndCalls]
  | cons c rest ih =>
    have e : (c :: rest) ++ b = c :: (rest ++ b) := rfl
    rw [e]
    cases c <;> simp only [rowEndCalls] <;> (rw [ih]; try omega)

theorem writePrefix_counters (env : JSONEnv) (s : JSONRowOutputStream) :
    (s.writePrefix env).row_count = s.row_count ∧
      (s.writePrefix env).field_number = s.field_number := ⟨rfl, rfl⟩

/-- The counters after a sequence of calls made on a state with both counters at zero. -/
theorem calls_counters (env : JSONEnv) (s0 : JSONRowOutputStream) (h0 : s0.row_count = 0)
    (hf0 : s0.field_number = 0) :
    ∀ (cs : List StreamCall) (s : JSONRowOutputStream), s0.calls env cs = some s →
      s.row_count = rowEndCalls cs % 2 ^ 64 ∧
      s.field_number = fieldCallsSinceRowEnd cs.reverse % 2 ^ 64 := by
  intro cs
  induction cs using List.reverseRecOn with
  | nil =>
    intro s h
    simp only [JSONRowOutputStream.calls, Option.some.injEq] at h
    subst h
    exact ⟨by rw [h0]; rfl, by rw [hf0]; rfl⟩
  | append_singleton cs c ih =>
    intro s h
    rw [calls_append] at h
    cases hs1 : s0.calls env cs with
    | none => rw [hs1] at h; cases h
    | some s1 =>
      rw [hs1] at h
      simp only [Option.some_bind] at h
      rw [calls_singleton] at h
      obtain ⟨hrc, hfn⟩ := ih s1 hs1
      rw [rowEndCalls_append, List.reverse_append, List.reverse_singleton,
        List.singleton_append]
      cases c with
      | writePrefix =>
        simp only [JSONRowOutputStream.call, Option.some.injEq] at h
        subst h
        exact ⟨by rw [(writePrefix_counters env s1).1, hrc]; rfl,
          by rw [(writePrefix_counters env s1).2, hfn]; rfl⟩
      | writeRowStartDelimiter =>
        simp only [JSONRowOutputStream.call, Option.some.injEq] at h
        subst h
        rw [writeRowStartDelimiter_eq]
        exact ⟨by simp only []; rw [hrc]; rfl, by simp only []; rw [hfn]; rfl⟩
      | writeField value =>
        simp only [JSONRowOutputStream.call] at h
        obtain ⟨field, -, hs⟩ := writeField_eq s1 s value h
        subst hs
        refine ⟨by simp only []; rw [hrc]; rfl, ?_⟩
        simp only [fieldCallsSinceRowEnd]
        rw [hfn, Nat.add_mod, Nat.mod_mod, ← Nat.add_mod]
      | writeFieldDelimiter =>
        simp only [JSONRowOutputStream.call, Option.some.injEq] at h
        subst h
        exact ⟨by
          show s1.row_count = _
          rw [hrc]; rfl, by
          show s1.field_number = _
          rw [hfn]; rfl⟩
      | writeRowEndDelimiter =>
        simp only [JSONRowOutputStream.call, Option.some.injEq] at h
        subst h
        rw [writeRowEndDelimiter_eq]
        refine ⟨?_, rfl⟩
        simp only [rowEndCalls]
        rw [hrc, Nat.add_mod, Nat.mod_mod, ← Nat.add_mod]

/-- C19: in a state reached from the constructor by calls of `writePrefix`,
`writeRowStartDelimiter`, `writeField`, `writeFieldDelimiter` and `writeRowEndDelimiter`,
`row_count` is the number of `writeRowEndDelimiter` calls made and `field_number` the number
of `writeField` calls made since the last of them (both as `size_t`, so modulo `2^64`);
`writeField` writes the name of the field at `field_number` with the value and adds 1 to
`field_number`, changing nothing else; `writeRowEndDelimiter` sets `field_number` to 0 and
adds 1 to `row_count`; and `writeSuffix` writes that `row_count` after `rows`. -/
theorem stream_counters (env : JSONEnv) (sample : List SampleColumn)
    (write_statistics force_quoting_64bit_integers : Bool) (cs : List StreamCall)
    (s : JSONRowOutputStream)
    (h : (JSONRowOutputStream.create env sample write_statistics
      force_quoting_64bit_integers).calls env cs = some s) :
    s.row_count = rowEndCalls cs % 2 ^ 64 ∧
    (rowEndCalls cs < 2 ^ 64 → s.row_count = rowEndCalls cs) ∧
    s.field_number = fieldCallsSinceRowEnd cs.reverse % 2 ^ 64 ∧
    (fieldCallsSinceRowEnd cs.reverse < 2 ^ 64 →
      s.field_number = fieldCallsSinceRowEnd cs.reverse) ∧
    (∀ earlier, cs = earlier ++ [StreamCall.writeRowEndDelimiter] → s.field_number = 0) ∧
    (∀ value s', s.writeField value = some s' →
      ∃ field, s.fields.get? s.field_number = some field ∧
        s' = { s with
          out := s.out ++ "\t\t\t" ++ field.name ++ ": " ++
            value s.force_quoting_64bit_integers
          field_number := (s.field_number + 1) % 2 ^ 64 }) ∧
    s.writeRowEndDelimiter =
      { s with
        out := s.out ++ "\n\t\t\x7d"
        field_number := 0
        row_count := (s.row_count + 1) % 2 ^ 64 } ∧
    (s.writeSuffix env).out = s.out ++ "\n\t]" ++
      JSONRowOutputStream.written (JSONRowOutputStream.writeTotals env) s ++
      JSONRowOutputStream.written (JSONRowOutputStream.writeExtremes env) s ++
      ",\n\n\t\"rows\": " ++ writeIntText s.row_count ++
      JSONRowOutputStream.written JSONRowOutputStream.writeRowsBeforeLimitAtLeast s ++
      (if s.write_statistics then
        JSONRowOutputStream.written (JSONRowOutputStream.writeStatistics env) s else "") ++
      "\n\x7d\n" := by
  obtain ⟨hrc, hfn⟩ := calls_counters env _ rfl rfl cs s h
  refine ⟨hrc, ?_, hfn, ?_, ?_, fun value s' hw => writeField_eq s s' value hw,
    writeRowEndDelimiter_eq s, ?_⟩
  · intro hlt
    rw [hrc, Nat.mod_eq_of_lt hlt]
  · intro hlt
    rw [hfn, Nat.mod_eq_of_lt hlt]
  · intro earlier hcs
    rw [hfn, hcs, List.reverse_append, List.reverse_singleton, List.singleton_append]
    rfl
  · rw [writeSuffix_eq]

/-- Witness of `stream_counters`: one complete row of two fields and the first field of the
next row. -/
theorem stream_counters_witness :
    ∃ s, (JSONRowOutputStream.create exampleJSONEnv
        [⟨"a", "UInt8", true⟩, ⟨"b", "String", false⟩] false false).calls exampleJSONEnv
        [.writePrefix, .writeRowStartDelimiter, .writeField fun _ => "7",
          .writeFieldDelimiter, .writeField fun _ => "\"x\"", .writeRowEndDelimiter,
          .writeRowStartDelimiter, .writeField fun _ => "8"] = some s ∧
      s.row_count = rowEndCalls
        [.writePrefix, .writeRowStartDelimiter, .writeField fun _ => "7",
          .writeFieldDelimiter, .writeField fun _ => "\"x\"", .writeRowEndDelimiter,
          .writeRowStartDelimiter, .writeField fun _ => "8"] % 2 ^ 64 :=
  ⟨_, (Option.some_get (rfl : ((JSONRowOutputStream.create exampleJSONEnv
      [⟨"a", "UInt8", true⟩, ⟨"b", "String", false⟩] false false).calls exampleJSONEnv
      [.writePrefix, .writeRowStartDelimiter, .writeField fun _ => "7",
        .writeFieldDelimiter, .writeField fun _ => "\"x\"", .writeRowEndDelimiter,
        .writeRowStartDelimiter, .writeField fun _ => "8"]).isSome = true)).symm,
    (stream_counters exampleJSONEnv [⟨"a", "UInt8", true⟩, ⟨"b", "String", false⟩] false
      false
      [.writePrefix, .writeRowStartDelimiter, .writeField fun _ => "7",
        .writeFieldDelimiter, .writeField fun _ => "\"x\"", .writeRowEndDelimiter,
        .writeRowStartDelimiter, .writeField fun _ => "8"] _
      (Option.some_get (rfl : ((JSONRowOutputStream.create exampleJSONEnv
        [⟨"a", "UInt8", true⟩, ⟨"b", "String", false⟩] false false).calls exampleJSONEnv
        [.writePrefix, .writeRowStartDelimiter, .writeField fun _ => "7",
          .writeFieldDelimiter, .writeField fun _ => "\"x\"", .writeRowEndDelimiter,
          .writeRowStartDelimiter, .writeField fun _ => "8"]).isSome = true)).symm).1⟩

/-! ## The frame of `execute` on a heap -/

theorem get?_lt_length {α : Type} (l : List α) (i : Nat) (x : α) (h : l.get? i = some x) :
    i < l.length := by
  rcases Nat.lt_or_ge i l.length with h' | h'
  · exact h'
  · rw [List.get?_eq_none.mpr h'] at h; cases h

theorem storeResult_frame (heap : Heap) (block : HeapBlock) (result : Nat) (res : Column)
    (heap' : Heap) (block' : HeapBlock)
    (h : storeResult heap block result res = .ok (heap', block')) :
    HeapFrame heap block result heap' block' ∧ heap' = heap ++ [.flat res] := by
  unfold storeResult at h
  cases hr : block.get? result with
  | none => rw [hr] at h; cases h
  | some entry =>
    rw [hr] at h
    simp only [Except.ok.injEq, Prod.mk.injEq] at h
    obtain ⟨h1, h2⟩ := h
    subst h1
    subst h2
    have hlt := get?_lt_length block result entry hr
    refine ⟨⟨⟨_, rfl⟩, by rw [List.length_set], ?_, entry, heap.length, hr, ?_, le_refl _, ?_⟩,
      rfl⟩
    · intro i hi
      rw [List.get?_eq_getElem?, List.get?_eq_getElem?, List.getElem?_set_ne (Ne.symm hi)]
    · rw [List.get?_eq_getElem?, List.getElem?_set_self hlt]
    · simp

theorem heapFrame_of_extends (heap heap1 : Heap) (block : HeapBlock) (result : Nat)
    (heap' : Heap) (block' : HeapBlock) (hext : ∃ fresh, heap1 = heap ++ fresh)
    (h : HeapFrame heap1 block result heap' block') : HeapFrame heap block result heap' block' := by
  obtain ⟨f1, rfl⟩ := hext
  obtain ⟨⟨f2, hf2⟩, hlen, hrest, entry, address, he, he', hge, hlt⟩ := h
  refine ⟨⟨f1 ++ f2, by rw [hf2, List.append_assoc]⟩, hlen, hrest, entry, address, he, he', ?_,
    hlt⟩
  rw [List.length_append] at hge
  omega

theorem getLast?_of_get? {α : Type} (l : List α) (n : Nat) (x : α) (hlen : l.length = n + 1)
    (h : l.get? n = some x) : l.getLast? = some x := by
  rw [List.getLast?_eq_getElem?, hlen, Nat.add_sub_cancel, ← List.get?_eq_getElem?, h]

theorem plusHeap_frame (heap : Heap) (block : HeapBlock) (heap' : Heap) (block' : HeapBlock)
    (h : plusHeap heap block = .ok (heap', block')) :
    HeapFrame heap block (block.length - 1) heap' block' := by
  unfold plusHeap at h
  split at h
  · rw [except_bind_eq_ok] at h
    obtain ⟨_, _, h⟩ := h
    rw [except_bind_eq_ok] at h
    obtain ⟨_, _, h⟩ := h
    rw [except_bind_eq_ok] at h
    obtain ⟨_, _, h⟩ := h
    exact (storeResult_frame _ _ _ _ _ _ h).1
  · cases h

/-- The entry a frame leaves at the result position, as the last entry of the block. -/
theorem heapFrame_last (heap : Heap) (block : HeapBlock) (n : Nat) (heap' : Heap)
    (block' : HeapBlock) (hlen : block.length = n + 1)
    (h : HeapFrame heap block n heap' block') :
    ∃ last address, block'.getLast? = some last ∧ last.column = some address ∧
      heap.length ≤ address ∧ address < heap'.length := by
  obtain ⟨-, hl, -, entry, address, -, he', hge, hlt⟩ := h
  exact ⟨_, address, getLast?_of_get? block' n _ (by rw [hl, hlen]) he', rfl, hge, hlt⟩

/-- The frame of `execute` on a heap and of the loop of its tuple branch, by induction on
the recursion bound. -/
theorem executeHeap_frame_aux (env : Env) :
    ∀ fuel : Nat,
      (∀ heap block arguments result heap' block',
        FunctionVisibleWidth.executeHeap env fuel heap block arguments result =
          .ok (heap', block') →
        HeapFrame heap block result heap' block') ∧
      (∀ heap nestedBlock elems i remaining heap' nestedBlock',
        FunctionVisibleWidth.executeHeapTuple env fuel heap nestedBlock elems i remaining =
          .ok (heap', nestedBlock') →
        (∃ fresh, heap' = heap ++ fresh) ∧
        (remaining = 0 → heap' = heap ∧ nestedBlock' = nestedBlock) ∧
        (0 < remaining → ∃ last address, nestedBlock'.getLast? = some last ∧
          last.column = some address ∧ heap.length ≤ address ∧ address < heap'.length)) := by
  intro fuel
  induction fuel with
  | zero =>
    constructor
    · intro heap block arguments result heap' block' h
      rw [FunctionVisibleWidth.executeHeap] at h
      cases h
    · intro heap nb elems i remaining heap' nb' h
      rw [FunctionVisibleWidth.executeHeapTuple] at h
      cases h
  | succ fuel ih =>
    obtain ⟨ihE, ihL⟩ := ih
    constructor
    · intro heap block arguments result heap' block' h
      cases arguments with
      | nil =>
        rw [FunctionVisibleWidth.executeHeap] at h
        cases h
      | cons position rest =>
        rw [FunctionVisibleWidth.executeHeap] at h
        split at h
        · cases h
        · split at h
          · cases h
          · split at h
            · -- an object held by value
              rw [except_bind_eq_ok] at h
              obtain ⟨res, -, h⟩ := h
              exact (storeResult_frame _ _ _ _ _ _ h).1
            · -- a `ColumnArray`
              split at h
              · exact (storeResult_frame _ _ _ _ _ _ h).1
              · exact (storeResult_frame _ _ _ _ _ _ h).1
              · split at h
                · cases h
                · rw [except_bind_eq_ok] at h
                  obtain ⟨state, hnested, h⟩ := h
                  rw [except_bind_eq_ok] at h
                  obtain ⟨_, -, h⟩ := h
                  rw [except_bind_eq_ok] at h
                  obtain ⟨_, -, h⟩ := h
                  obtain ⟨state1, state2⟩ := state
                  have hf := ihE _ _ _ _ _ _ hnested
                  exact heapFrame_of_extends heap state1 block result heap' block' hf.1
                    (storeResult_frame _ _ _ _ _ _ h).1
            · -- a `ColumnTuple`
              rename_i data rows _ _
              split at h
              · exact (storeResult_frame _ _ _ _ _ _ h).1
              · exact (storeResult_frame _ _ _ _ _ _ h).1
              · rw [except_bind_eq_ok] at h
                obtain ⟨state, hloop, h⟩ := h
                obtain ⟨state1, state2⟩ := state
                obtain ⟨⟨fresh, hfresh⟩, hzero, hpos⟩ := ihL _ _ _ _ _ _ _ hloop
                simp only [] at h
                split at h
                · rename_i last entry hlast hentry
                  rw [except_bind_eq_ok] at h
                  obtain ⟨folded, -, h⟩ := h
                  rw [except_bind_eq_ok] at h
                  obtain ⟨res, -, h⟩ := h
                  simp only [Except.ok.injEq, Prod.mk.injEq] at h
                  obtain ⟨h1, h2⟩ := h
                  have hdata : 0 < data.length := by
                    rcases Nat.eq_zero_or_pos data.length with h0 | h0
                    · obtain ⟨-, hnb⟩ := hzero h0
                      have hnil : data = [] := List.length_eq_zero.mp h0
                      rw [hnb, hnil] at hlast
                      cases hlast
                    · exact h0
                  obtain ⟨lastEntry, address, hl1, hl2, hge, hlt⟩ := hpos hdata
                  rw [hl1] at hlast
                  simp only [Option.some_bind] at hlast
                  rw [hl2] at hlast
                  simp only [Option.some.injEq] at hlast
                  subst hlast
                  have hres := get?_lt_length block result entry hentry
                  refine ⟨⟨fresh.set (address - heap.length) (.flat res), ?_⟩, ?_, ?_, entry,
                    address, hentry, ?_, hge, ?_⟩
                  · rw [← h1, hfresh, List.set_append_right _ _ hge]
                  · rw [← h2, List.length_set]
                  · intro i hi
                    rw [← h2, List.get?_eq_getElem?, List.get?_eq_getElem?,
                      List.getElem?_set_ne (Ne.symm hi)]
                  · rw [← h2, List.get?_eq_getElem?, List.getElem?_set_self hres]
                  · rw [← h1, List.length_set]
                    exact hlt
                · cases h
            · cases h
    · intro heap nb elems i remaining heap' nb' h
      cases remaining with
      | zero =>
        rw [FunctionVisibleWidth.executeHeapTuple] at h
        simp only [Except.ok.injEq, Prod.mk.injEq] at h
        obtain ⟨h1, h2⟩ := h
        subst h1
        subst h2
        exact ⟨⟨[], by rw [List.append_nil]⟩, fun _ => ⟨rfl, rfl⟩,
          fun hpos => absurd hpos (Nat.lt_irrefl 0)⟩
      | succ remaining =>
        rw [FunctionVisibleWidth.executeHeapTuple] at h
        split at h
        · rename_i elementType element _ hget
          rw [except_bind_eq_ok] at h
          obtain ⟨state1, hexec, h⟩ := h
          rw [except_bind_eq_ok] at h
          obtain ⟨state2, hplus, hrec⟩ := h
          obtain ⟨s11, s12⟩ := state1
          obtain ⟨s21, s22⟩ := state2
          have hf1 := ihE _ _ _ _ _ _ hexec
          have hlen0 : (nb.set i { element with type := elementType } ++
              [(⟨none, .number (.int .UInt64), ""⟩ : HeapEntry)]).length = nb.length + 1 := by
            rw [List.length_append, List.length_set]
            rfl
          obtain ⟨last1, a1, hl1, hc1, hge1, hlt1⟩ := heapFrame_last _ _ _ _ _ hlen0 hf1
          obtain ⟨f1, hf1eq⟩ := hf1.1
          -- after the sum
          have hstep : (∃ fresh, s21 = heap ++ fresh) ∧
              ∃ last address, s22.getLast? = some last ∧ last.column = some address ∧
                heap.length ≤ address ∧ address < s21.length := by
            by_cases hi : i ≠ 0
            · rw [if_pos hi] at hplus
              have hf2 := plusHeap_frame _ _ _ _ hplus
              have hlen2 : (s12 ++ [(⟨none, .number (.int .UInt64), ""⟩ : HeapEntry)]).length =
                  s12.length + 1 := by
                rw [List.length_append]
                rfl
              rw [hlen2, Nat.add_sub_cancel] at hf2
              obtain ⟨last2, a2, hl2, hc2, hge2, hlt2⟩ := heapFrame_last _ _ _ _ _ hlen2 hf2
              obtain ⟨f2, hf2eq⟩ := hf2.1
              refine ⟨⟨f1 ++ f2, by rw [hf2eq, hf1eq, List.append_assoc]⟩, last2, a2, hl2, hc2,
                ?_, hlt2⟩
              rw [hf1eq, List.length_append] at hge2
              omega
            · rw [if_neg hi] at hplus
              simp only [Except.ok.injEq, Prod.mk.injEq] at hplus
              obtain ⟨h1, h2⟩ := hplus
              subst h1
              subst h2
              exact ⟨⟨f1, hf1eq⟩, last1, a1, hl1, hc1, hge1, hlt1⟩
          obtain ⟨⟨f2, hf2eq⟩, last2, a2, hl2, hc2, hge2, hlt2⟩ := hstep
          obtain ⟨⟨f3, hf3eq⟩, hzero, hpos⟩ := ihL _ _ _ _ _ _ _ hrec
          refine ⟨⟨f2 ++ f3, by rw [hf3eq, hf2eq, List.append_assoc]⟩,
            fun h0 => absurd h0 (Nat.succ_ne_zero _), fun _ => ?_⟩
          rcases Nat.eq_zero_or_pos remaining with h0 | h0
          · obtain ⟨e1, e2⟩ := hzero h0
            rw [e1, e2]
            exact ⟨last2, a2, hl2, hc2, hge2, hlt2⟩
          · obtain ⟨last3, a3, hl3, hc3, hge3, hlt3⟩ := hpos h0
            refine ⟨last3, a3, hl3, hc3, ?_, hlt3⟩
            rw [hf2eq, List.length_append] at hge3
            omega
        · cases h

/-- C12: when `execute`, run on a heap of column objects, succeeds, every object that
existed before the call is unchanged (the argument column and, for arrays and tuples, its
child columns, offsets, blocks and element types, however deep), every entry of the block
but the one at the result position is the same, and the entry at the result position keeps
its name and type and points to an object allocated during the call; this covers the scratch
nested blocks of the recursion and the surcharge the tuple branch adds in place, since the
object it is added to is one allocated during the call. -/
theorem execute_heap_frame (env : Env) (fuel : Nat) (heap : Heap) (block : HeapBlock)
    (arguments : List Nat) (result : Nat) (heap' : Heap) (block' : HeapBlock)
    (hok : FunctionVisibleWidth.executeHeap env fuel heap block arguments result =
      .ok (heap', block')) :
    (∀ address object, heap.get? address = some object → heap'.get? address = some object) ∧
    block'.length = block.length ∧
    (∀ i, i ≠ result → block'.get? i = block.get? i) ∧
    ∃ entry address, block.get? result = some entry ∧
      block'.get? result = some ⟨some address, entry.type, entry.name⟩ ∧
      heap.get? address = none ∧ address < heap'.length := by
  obtain ⟨⟨fresh, hfresh⟩, hlen, hrest, entry, address, he, he', hge, hlt⟩ :=
    (executeHeap_frame_aux env fuel).1 heap block arguments result heap' block' hok
  refine ⟨?_, hlen, hrest, entry, address, he, he', List.get?_eq_none.mpr hge, hlt⟩
  intro a object ha
  have halt := get?_lt_length heap a object ha
  rw [hfresh, List.get?_eq_getElem?, List.getElem?_append_left halt, ← List.get?_eq_getElem?]
  exact ha

/-- Witness of `execute_heap_frame`: a tuple column of a date and a string; the surcharge is
added in place to the sum allocated at address 5. -/
theorem execute_heap_frame_witness :
    (∀ address object,
      List.get? [HeapColumn.flat (.vector (.int .UInt16) [1, 2]),
        .flat (.string [97, 98, 0, 99, 0] [3, 5]),
        .tuple [⟨some 0, .Date, "d"⟩, ⟨some 1, .String, "s"⟩]] address = some object →
      List.get? [HeapColumn.flat (.vector (.int .UInt16) [1, 2]),
        .flat (.string [97, 98, 0, 99, 0] [3, 5]),
        .tuple [⟨some 0, .Date, "d"⟩, ⟨some 1, .String, "s"⟩],
        .flat (Column.constUInt64 2 10), .flat (Column.uint64 [2, 1]),
        .flat (Column.uint64 [19, 18])] address = some object) ∧
    [(⟨some 2, .Tuple [.Date, .String], "t"⟩ : HeapEntry),
      ⟨some 5, .number (.int .UInt64), "w"⟩].length =
      [(⟨some 2, .Tuple [.Date, .String], "t"⟩ : HeapEntry),
        ⟨none, .number (.int .UInt64), "w"⟩].length ∧
    (∀ i, i ≠ 1 →
      List.get? [(⟨some 2, .Tuple [.Date, .String], "t"⟩ : HeapEntry),
        ⟨some 5, .number (.int .UInt64), "w"⟩] i =
      List.get? [(⟨some 2, .Tuple [.Date, .String], "t"⟩ : HeapEntry),
        ⟨none, .number (.int .UInt64), "w"⟩] i) ∧
    ∃ entry address,
      List.get? [(⟨some 2, .Tuple [.Date, .String], "t"⟩ : HeapEntry),
        ⟨none, .number (.int .UInt64), "w"⟩] 1 = some entry ∧
      List.get? [(⟨some 2, .Tuple [.Date, .String], "t"⟩ : HeapEntry),
        ⟨some 5, .number (.int .UInt64), "w"⟩] 1 =
        some ⟨some address, entry.type, entry.name⟩ ∧
      List.get? [HeapColumn.flat (.vector (.int .UInt16) [1, 2]),
        .flat (.string [97, 98, 0, 99, 0] [3, 5]),
        .tuple [⟨some 0, .Date, "d"⟩, ⟨some 1, .String, "s"⟩]] address = none ∧
      address < [HeapColumn.flat (.vector (.int .UInt16) [1, 2]),
        .flat (.string [97, 98, 0, 99, 0] [3, 5]),
        .tuple [⟨some 0, .Date, "d"⟩, ⟨some 1, .String, "s"⟩],
        .flat (Column.constUInt64 2 10), .flat (Column.uint64 [2, 1]),
        .flat (Column.uint64 [19, 18])].length :=
  execute_heap_frame exampleEnv 5
    [.flat (.vector (.int .UInt16) [1, 2]), .flat (.string [97, 98, 0, 99, 0] [3, 5]),
      .tuple [⟨some 0, .Date, "d"⟩, ⟨some 1, .String, "s"⟩]]
    [⟨some 2, .Tuple [.Date, .String], "t"⟩, ⟨none, .number (.int .UInt64), "w"⟩] [0] 1
    [.flat (.vector (.int .UInt16) [1, 2]), .flat (.string [97, 98, 0, 99, 0] [3, 5]),
      .tuple [⟨some 0, .Date, "d"⟩, ⟨some 1, .String, "s"⟩],
      .flat (Column.constUInt64 2 10), .flat (Column.uint64 [2, 1]),
      .flat (Column.uint64 [19, 18])]
    [⟨some 2, .Tuple [.Date, .String], "t"⟩, ⟨some 5, .number (.int .UInt64), "w"⟩]
    rfl

/-! ## The constant and the dense numeric handlers -/

theorem numWidthVector_eq_map (log10 : Double → Double) (T : IntType) (data : List Int) :
    numWidthVector log10 T data = data.map (numWidthConstant log10 T) := rfl

theorem executeConstNumber_int (env : Env) (T : IntType) (N : Nat) (a : Int) :
    VisibleWidth.executeConstNumber env true (.int T) N a =
      .ok (Column.constUInt64 N (Int.ofNat (numWidthConstant env.log10 T a))) := rfl

theorem executeNumber_int (env : Env) (T : IntType) (data : List Int) :
    VisibleWidth.executeNumber env true (.int T) data =
      .ok (Column.uint64 ((data.map (numWidthConstant env.log10 T)).map Int.ofNat)) := rfl

/-- C21: for every integer type `T`, every value `a` and every `log10`, the scalar routine
gives `a` the width the per-row routine gives a row holding `a`; the handler of constant
columns turns the constant column `(N, a)` into the constant column `(N, width)`, one value
whatever `N` is, read as `width` at each of its `N` rows, and the handler of dense columns
writes that same `width` at every row that holds `a`. -/
theorem const_number_width_eq_dense (env : Env) (T : IntType) (a : Int) (N : Nat) :
    numWidthVector env.log10 T [a] = [numWidthConstant env.log10 T a] ∧
    (∀ data : List Int, numWidthVector env.log10 T data =
      data.map (numWidthConstant env.log10 T)) ∧
    VisibleWidth.executeConstNumber env true (.int T) N a =
      .ok (Column.const (.int .UInt64) N (Int.ofNat (numWidthConstant env.log10 T a))) ∧
    (Column.const (.int .UInt64) N (Int.ofNat (numWidthConstant env.log10 T a))).size = N ∧
    (∀ i, i < N →
      (Column.const (.int .UInt64) N (Int.ofNat (numWidthConstant env.log10 T a))).uint64At i =
        some (numWidthConstant env.log10 T a)) ∧
    VisibleWidth.executeNumber env true (.int T) [a] =
      .ok (Column.vector (.int .UInt64) [Int.ofNat (numWidthConstant env.log10 T a)]) ∧
    (∀ (data : List Int) (i : Nat), data.get? i = some a →
      ∃ res, VisibleWidth.executeNumber env true (.int T) data = .ok res ∧
        res.size = data.length ∧
        res.uint64At i = some (numWidthConstant env.log10 T a)) := by
  refine ⟨rfl, fun data => rfl, rfl, rfl, fun i hi => uint64At_const_of_lt N i _ hi, rfl, ?_⟩
  intro data i hget
  refine ⟨_, executeNumber_int env T data, ?_, ?_⟩
  · simp [Column.size]
  · apply uint64At_uint64_of_get
    rw [List.get?_eq_getElem?] at hget ⊢
    rw [List.getElem?_map, List.getElem?_map, hget]
    rfl

/-! ## The recursive calls of `execute` descend the type -/

theorem executeTupleElementsLogged_nil (env : Env) (elems : Option (List DataType)) (i : Nat)
    (folded : Option Column) :
    FunctionVisibleWidth.executeTupleElementsLogged env elems i folded [] = (.ok folded, []) :=
  rfl

theorem executeTupleElementsLogged_cons (env : Env) (elems : Option (List DataType)) (i : Nat)
    (folded : Option Column) (column : Column) (rest : List Column) :
    FunctionVisibleWidth.executeTupleElementsLogged env elems i folded (column :: rest) =
      match elems.bind (fun es => es.get? i) with
      | none => (.error ⟨"element type read outside the tuple type", .UNDEFINED_BEHAVIOUR⟩, [])
      | some elementType =>
        match FunctionVisibleWidth.executeColumn env true elementType column with
        | .error e => (.error e, [(elementType, column)])
        | .ok width =>
          match (match folded with
            | none => Except.ok width
            | some previous => plusUInt64 previous width) with
          | .error e => (.error e, [(elementType, column)])
          | .ok sum =>
            ((FunctionVisibleWidth.executeTupleElementsLogged env elems (i + 1) (some sum)
                rest).1,
              (elementType, column) ::
                (FunctionVisibleWidth.executeTupleElementsLogged env elems (i + 1) (some sum)
                  rest).2) := rfl

/-- The logged loop computes what the loop computes. -/
theorem executeTupleElementsLogged_fst (env : Env) (elems : Option (List DataType)) :
    ∀ (rest : List Column) (i : Nat) (folded : Option Column),
      (FunctionVisibleWidth.executeTupleElementsLogged env elems i folded rest).1 =
        FunctionVisibleWidth.executeTupleElements env elems i folded rest := by
  intro rest
  induction rest with
  | nil => intro i folded; rw [executeTupleElements_nil]; rfl
  | cons column rest ih =>
    intro i folded
    rw [executeTupleElements_cons, executeTupleElementsLogged_cons]
    cases elems.bind (fun es => es.get? i) with
    | none => rfl
    | some t =>
      simp only []
      cases FunctionVisibleWidth.executeColumn env true t column with
      | error e => rfl
      | ok width =>
        simp only [Except.bind]
        cases (match folded with
          | none => Except.ok width
          | some previous => plusUInt64 previous width) with
        | error e => rfl
        | ok sum => simp only []; exact ih (i + 1) (some sum)

/-- The logged invocation computes what `executeColumn` computes. -/
theorem executeColumnLogged_fst (env : Env) (resultValid : Bool) (type : DataType)
    (column : Column) :
    (FunctionVisibleWidth.executeColumnLogged env resultValid type column).1 =
      FunctionVisibleWidth.executeColumn env resultValid type column := by
  unfold FunctionVisibleWidth.executeColumnLogged
  cases h : FunctionVisibleWidth.executeByType resultValid type column with
  | some outcome => exact (executeColumn_of_byType env resultValid type column outcome h).symm
  | none =>
    cases column with
    | array data offsets =>
      simp only []
      conv => rhs; unfold FunctionVisibleWidth.executeColumn
      rw [h]
      cases type.arrayNested <;> rfl
    | tuple columns =>
      simp only []
      rw [executeTupleElementsLogged_fst]
      conv => rhs; unfold FunctionVisibleWidth.executeColumn
      rw [h]
      rfl
    | _ => rfl

theorem drop_of_get? {α : Type} (es : List α) (i : Nat) (t : α) (h : es.get? i = some t) :
    es.drop i = t :: es.drop (i + 1) := by
  rw [List.get?_eq_getElem?] at h
  obtain ⟨hlt, hget⟩ := List.getElem?_eq_some_iff.mp h
  rw [List.drop_eq_getElem_cons hlt, hget]

/-- The calls of the loop from index `i` on are the pairs (element type, element column) of
an initial segment of the turns, one call per turn, in order. -/
theorem executeTupleElementsLogged_calls (env : Env) (elems : Option (List DataType)) :
    ∀ (rest : List Column) (i : Nat) (folded : Option Column),
      ∃ k, k ≤ rest.length ∧
        (FunctionVisibleWidth.executeTupleElementsLogged env elems i folded rest).2 =
          (((elems.getD []).drop i).zip rest).take k := by
  intro rest
  induction rest with
  | nil => intro i folded; exact ⟨0, Nat.le_refl _, rfl⟩
  | cons column rest ih =>
    intro i folded
    rw [executeTupleElementsLogged_cons]
    cases h : elems.bind (fun es => es.get? i) with
    | none => exact ⟨0, Nat.zero_le _, rfl⟩
    | some t =>
      have hdrop : (elems.getD []).drop i = t :: (elems.getD []).drop (i + 1) := by
        cases elems with
        | none => cases h
        | some es => exact drop_of_get? es i t h
      simp only []
      rw [hdrop]
      cases FunctionVisibleWidth.executeColumn env true t column with
      | error e => exact ⟨1, by simp, by simp⟩
      | ok width =>
        simp only []
        cases (match folded with
          | none => Except.ok width
          | some previous => plusUInt64 previous width) with
        | error e => exact ⟨1, by simp, by simp⟩
        | ok sum =>
          obtain ⟨k, hk, hcalls⟩ := ih (i + 1) (some sum)
          refine ⟨k + 1, by simpa using hk, ?_⟩
          simp only []
          rw [hcalls]
          simp

/-- A loop that ends without an exception has made one call per element column. -/
theorem executeTupleElementsLogged_calls_ok (env : Env) (elems : Option (List DataType)) :
    ∀ (rest : List Column) (i : Nat) (folded f : Option Column),
      FunctionVisibleWidth.executeTupleElements env elems i folded rest = .ok f →
      (FunctionVisibleWidth.executeTupleElementsLogged env elems i folded rest).2 =
          ((elems.getD []).drop i).zip rest ∧
        (FunctionVisibleWidth.executeTupleElementsLogged env elems i folded rest).2.length =
          rest.length := by
  intro rest
  induction rest with
  | nil => intro i folded f _; exact ⟨by simp [executeTupleElementsLogged_nil], rfl⟩
  | cons column rest ih =>
    intro i folded f hok
    rw [executeTupleElements_cons] at hok
    rw [executeTupleElementsLogged_cons]
    cases h : elems.bind (fun es => es.get? i) with
    | none => rw [h] at hok; cases hok
    | some t =>
      have hdrop : (elems.getD []).drop i = t :: (elems.getD []).drop (i + 1) := by
        cases elems with
        | none => cases h
        | some es => exact drop_of_get? es i t h
      rw [h] at hok
      simp only [] at hok ⊢
      rw [hdrop]
      cases hcol : FunctionVisibleWidth.executeColumn env true t column with
      | error e => rw [hcol] at hok; cases hok
      | ok width =>
        rw [hcol] at hok
        simp only [Except.bind] at hok ⊢
        cases hsum : (match folded with
          | none => Except.ok width
          | some previous => plusUInt64 previous width) with
        | error e => rw [hsum] at hok; cases hok
        | ok sum =>
          rw [hsum] at hok
          obtain ⟨hcalls, hlen⟩ := ih (i + 1) (some sum) f hok
          simp only []
          rw [hcalls] at hlen ⊢
          exact ⟨by simp, by simpa using hlen⟩

theorem recursiveCalls_array (env : Env) (resultValid : Bool) (nested : DataType)
    (data : Column) (offsets : List Nat) :
    FunctionVisibleWidth.recursiveCalls env resultValid (.Array nested) (.array data offsets) =
      [(nested, data)] := by
  unfold FunctionVisibleWidth.recursiveCalls FunctionVisibleWidth.executeColumnLogged
  rw [executeByType_eq_none _ _ _ (by simp) (by simp) (by simp) (by simp)]
  rfl

theorem recursiveCalls_tuple (env : Env) (resultValid : Bool) (elems : List DataType)
    (columns : List Column) :
    FunctionVisibleWidth.recursiveCalls env resultValid (.Tuple elems) (.tuple columns) =
      (FunctionVisibleWidth.executeTupleElementsLogged env (some elems) 0 none columns).2 := by
  unfold FunctionVisibleWidth.recursiveCalls FunctionVisibleWidth.executeColumnLogged
  rw [executeByType_eq_none _ _ _ (by simp) (by simp) (by simp) (by simp)]
  rfl

/-- Every call is made by the array branch on the flattened child with the element type, or
by the tuple branch on one element column with the type of that element. -/
theorem recursiveCalls_mem (env : Env) (resultValid : Bool) (type : DataType)
    (column : Column) (t : DataType) (c : Column)
    (h : (t, c) ∈ FunctionVisibleWidth.recursiveCalls env resultValid type column) :
    (∃ offsets, type = .Array t ∧ column = .array c offsets) ∨
    (∃ elems columns j, type = .Tuple elems ∧ column = .tuple columns ∧
      elems.get? j = some t ∧ columns.get? j = some c) := by
  unfold FunctionVisibleWidth.recursiveCalls FunctionVisibleWidth.executeColumnLogged at h
  cases hb : FunctionVisibleWidth.executeByType resultValid type column with
  | some outcome => rw [hb] at h; cases h
  | none =>
    rw [hb] at h
    cases column with
    | array data offsets =>
      cases type with
      | Array nested =>
        simp only [DataType.arrayNested, List.mem_singleton, Prod.mk.injEq] at h
        obtain ⟨rfl, rfl⟩ := h
        exact Or.inl ⟨offsets, rfl, rfl⟩
      | _ => simp [DataType.arrayNested] at h
    | tuple columns =>
      simp only [] at h
      obtain ⟨k, _, hcalls⟩ :=
        executeTupleElementsLogged_calls env type.tupleElements columns 0 none
      rw [hcalls] at h
      have hz := List.mem_of_mem_take h
      cases type with
      | Tuple elems =>
        simp only [DataType.tupleElements, Option.getD_some, List.drop_zero] at hz
        obtain ⟨j, hj, hget⟩ := List.getElem_of_mem hz
        rw [List.getElem_zip] at hget
        simp only [Prod.mk.injEq] at hget
        rw [List.length_zip] at hj
        refine Or.inr ⟨elems, columns, j, rfl, rfl, ?_, ?_⟩
        · rw [List.get?_eq_getElem?, List.getElem?_eq_getElem (by omega), hget.1]
        · rw [List.get?_eq_getElem?, List.getElem?_eq_getElem (by omega), hget.2]
      | _ => simp [DataType.tupleElements] at hz
    | _ => simp at h

theorem depth_le_depthAll (elems : List DataType) (t : DataType) (h : t ∈ elems) :
    t.depth ≤ DataType.depthAll elems := by
  induction elems with
  | nil => cases h
  | cons e es ih =>
    rw [DataType.depthAll]
    rcases List.mem_cons.mp h with rfl | h
    · exact Nat.le_max_left _ _
    · exact Nat.le_trans (ih h) (Nat.le_max_right _ _)

theorem IsElementOf.depth_lt (t type : DataType) (h : DataType.IsElementOf t type) :
    t.depth < type.depth := by
  cases h with
  | array => rw [DataType.depth]; exact Nat.lt_succ_self _
  | tuple elems _ hmem =>
    rw [DataType.depth]
    exact Nat.lt_succ_of_le (depth_le_depthAll elems t hmem)

theorem recursiveCalls_isElementOf (env : Env) (resultValid : Bool) (type : DataType)
    (column : Column) (t : DataType) (c : Column)
    (h : (t, c) ∈ FunctionVisibleWidth.recursiveCalls env resultValid type column) :
    DataType.IsElementOf t type := by
  rcases recursiveCalls_mem env resultValid type column t c h with
    ⟨_, rfl, _⟩ | ⟨elems, _, j, rfl, _, hget, _⟩
  · exact .array t
  · exact .tuple elems t (List.get?_mem hget)

/-- A chain of nested invocations is no longer than the nesting depth of the type of its
first invocation allows. -/
theorem callChain_length (env : Env) (chain : List (DataType × Column))
    (h : FunctionVisibleWidth.CallChain env chain) :
    ∀ x rest, chain = x :: rest → rest.length ≤ x.1.depth := by
  induction h with
  | single x =>
    intro x' rest heq
    cases heq
    exact Nat.zero_le _
  | cons rv x y rest hmem _ ih =>
    intro x' rest' heq
    cases heq
    have hlt := IsElementOf.depth_lt _ _
      (recursiveCalls_isElementOf env rv x.1 x.2 y.1 y.2 hmem)
    have := ih y rest rfl
    simp only [List.length_cons]
    omega

theorem recursiveCalls_tuple_example :
    FunctionVisibleWidth.recursiveCalls exampleEnv true (.Tuple [.Date, .Array .String])
      (.tuple [.vector (.int .UInt16) [1, 2],
        .array (.string [97, 98, 0, 99, 0] [3, 5]) [1, 2]]) =
      [(.Date, .vector (.int .UInt16) [1, 2]),
        (.Array .String, .array (.string [97, 98, 0, 99, 0] [3, 5]) [1, 2])] ∧
    FunctionVisibleWidth.recursiveCalls exampleEnv true (.Array .String)
      (.array (.string [97, 98, 0, 99, 0] [3, 5]) [1, 2]) =
      [(.String, .string [97, 98, 0, 99, 0] [3, 5])] ∧
    FunctionVisibleWidth.recursiveCalls exampleEnv true .String
      (.string [97, 98, 0, 99, 0] [3, 5]) = [] ∧
    FunctionVisibleWidth.recursiveCalls exampleEnv true .String
      (.array (.array (.string [97, 98, 0, 99, 0] [3, 5]) [1, 2]) [2]) = [] :=
  ⟨rfl, rfl, rfl, rfl⟩

/-- C22: `execute` returns an outcome on every type and column (the embedding is a total
function, by recursion on the column), and the invocation logged with its own calls
computes that outcome.  Each call `execute` makes on itself is made by the array branch on
the flattened child with the element type, or by the tuple branch on one element column
with the type of that element: its type is an immediate strict sub-term of the type of the
caller, of smaller nesting depth.  So the nesting of calls is well founded, and a chain of
nested calls is no longer than the nesting depth of the type it starts from.  The array
branch makes one call; the tuple branch makes its calls in the order of the elements, at
most one per element, and exactly one per element when no exception leaves the loop. -/
theorem execute_recursion_descends (env : Env) :
    (∀ resultValid type column,
      (∃ res, FunctionVisibleWidth.executeColumn env resultValid type column = .ok res) ∨
      (∃ e, FunctionVisibleWidth.executeColumn env resultValid type column = .error e)) ∧
    (∀ resultValid type column,
      (FunctionVisibleWidth.executeColumnLogged env resultValid type column).1 =
        FunctionVisibleWidth.executeColumn env resultValid type column) ∧
    (∀ resultValid type column t c,
      (t, c) ∈ FunctionVisibleWidth.recursiveCalls env resultValid type column →
      DataType.IsElementOf t type ∧ t.depth < type.depth ∧
      ((∃ offsets, type = .Array t ∧ column = .array c offsets) ∨
        (∃ elems columns j, type = .Tuple elems ∧ column = .tuple columns ∧
          elems.get? j = some t ∧ columns.get? j = some c))) ∧
    WellFounded (fun callee caller : DataType × Column =>
      ∃ resultValid,
        callee ∈ FunctionVisibleWidth.recursiveCalls env resultValid caller.1 caller.2) ∧
    (∀ x rest, FunctionVisibleWidth.CallChain env (x :: rest) → rest.length ≤ x.1.depth) ∧
    (∀ resultValid nested data offsets,
      FunctionVisibleWidth.recursiveCalls env resultValid (.Array nested)
        (.array data offsets) = [(nested, data)]) ∧
    (∀ resultValid elems columns, ∃ k, k ≤ columns.length ∧
      FunctionVisibleWidth.recursiveCalls env resultValid (.Tuple elems) (.tuple columns) =
        (elems.zip columns).take k) ∧
    (∀ resultValid elems columns res,
      FunctionVisibleWidth.executeColumn env resultValid (.Tuple elems) (.tuple columns) =
        .ok res →
      FunctionVisibleWidth.recursiveCalls env resultValid (.Tuple elems) (.tuple columns) =
          elems.zip columns ∧
        (FunctionVisibleWidth.recursiveCalls env resultValid (.Tuple elems)
          (.tuple columns)).length = columns.length) := by
  refine ⟨?_, executeColumnLogged_fst env, ?_, ?_, ?_, recursiveCalls_array env, ?_, ?_⟩
  · intro resultValid type column
    cases FunctionVisibleWidth.executeColumn env resultValid type column with
    | ok res => exact Or.inl ⟨res, rfl⟩
    | error e => exact Or.inr ⟨e, rfl⟩
  · intro resultValid type column t c h
    have hel := recursiveCalls_isElementOf env resultValid type column t c h
    exact ⟨hel, IsElementOf.depth_lt t type hel,
      recursiveCalls_mem env resultValid type column t c h⟩
  · refine Subrelation.wf ?_ (InvImage.wf (fun x : DataType × Column => x.1.depth)
      Nat.lt_wfRel.wf)
    intro callee caller h
    obtain ⟨resultValid, hmem⟩ := h
    exact IsElementOf.depth_lt _ _
      (recursiveCalls_isElementOf env resultValid caller.1 caller.2 callee.1 callee.2 hmem)
  · intro x rest h
    exact callChain_length env (x :: rest) h x rest rfl
  · intro resultValid elems columns
    rw [recursiveCalls_tuple]
    obtain ⟨k, hk, hcalls⟩ := executeTupleElementsLogged_calls env (some elems) columns 0 none
    exact ⟨k, hk, by simpa using hcalls⟩
  · intro resultValid elems columns res hok
    rw [executeColumn_tuple] at hok
    obtain ⟨f, hloop, _⟩ := (except_bind_eq_ok _ _ _).mp hok
    rw [recursiveCalls_tuple]
    have h := executeTupleElementsLogged_calls_ok env (some elems) columns 0 none f hloop
    simpa using h

end DB
